import Mathlib

/-!
# tiny-profiler: the profiling loop, pprof conversion and kernel symbolization

A shallow embedding of `profiler/profiler.go`, `profiler/pprof.go` and
`profiler/symbols.go`.

Conventions of the embedding.

* Go maps are association lists with unique keys (`GoMap`). The order in
  which a `range` statement visits a map is unspecified in Go: the three
  `range` loops over maps of the round take their order from the environment,
  as an arbitrary permutation of the entries, and the writer gets the label
  map as the list of its entries in the order of the visit.
* `uint64`/`int64` values are `Nat`/`Int`; conversions and additions that can
  wrap are written with an explicit `% 2^64`.
* Pointers to `profile.Location` and `profile.Function` are indices into a
  heap of objects in allocation order; a slice of pointers is a list of
  indices.
* Calls into other packages (BPF map access, process enumeration, mapping
  and object-file caches, the kernel symbol cache, the clock) are fields of
  an environment record and every statement is quantified over them.
-/

namespace TinyProfiler

/-! ## Errors -/

/-- A Go `error` value: its message and whether `errors.Is(err, errUnrecoverable)`
holds for it. -/
structure Error where
  msg : String
  unrecoverable : Bool
  deriving DecidableEq, Repr

/-- The sentinel `errUnrecoverable` of profiler.go. -/
def errUnrecoverable : Error := ⟨"unrecoverable error", true⟩

/-- The wrapper `fmt.Errorf(prefix + ": %w", err)`: the chain of the wrapped error is
kept, so `errors.Is` gives the same answer. -/
def Error.wrap (pre : String) (e : Error) : Error :=
  ⟨pre ++ ": " ++ e.msg, e.unrecoverable⟩

/-! ## Go maps -/

/-- A Go map: an association list with unique keys. -/
abbrev GoMap (κ ν : Type) := List (κ × ν)

/-- The lookup `v, ok := m[k]`. -/
def mapGet {κ ν : Type} [DecidableEq κ] : GoMap κ ν → κ → Option ν
  | [], _ => none
  | (k, v) :: m, x => if k = x then some v else mapGet m x

/-- The assignment `m[k] = v`: replaces the value of an existing key, adds a new key. -/
def mapSet {κ ν : Type} [DecidableEq κ] : GoMap κ ν → κ → ν → GoMap κ ν
  | [], x, v => [(x, v)]
  | (k, w) :: m, x, v => if k = x then (k, v) :: m else (k, w) :: mapSet m x v

/-- The read `m[k]` of a map of slices or of maps: the zero value (nil, shown as the
empty list) for a missing key. -/
def mapGetD {κ ν : Type} [DecidableEq κ] (m : GoMap κ (List ν)) (k : κ) : List ν :=
  (mapGet m k).getD []

/-! ## Timekeeping of `Profiler.Run` -/

/-- The two timestamps of `Profiler`, guarded by `mtx`; a `time.Time` is a number of
nanoseconds. -/
structure Clock where
  loopStartedAt : Nat
  lastSuccessfulLoopStartedAt : Nat
  deriving DecidableEq, Repr

/-- The method `Profiler.loopReport`: the pair is advanced when `lastError == nil`. -/
def loopReport (p : Clock) (lastError : Option Error) (now : Nat) : Clock :=
  match lastError with
  | none => { lastSuccessfulLoopStartedAt := p.loopStartedAt, loopStartedAt := now }
  | some _ => p

/-- The results of the calls `Profiler.Run` makes before its loop, in order. A `none` is a
nil error. `perfEvents` has one entry per CPU: the errors of `PerfEventOpen`,
`GetProgram` and `AttachPerfEvent`. -/
structure Bootstrap where
  newModule : Option Error
  bumpMemlockRlimit : Option Error
  loadObject : Option Error
  perfEvents : List (Option Error × Option Error × Option Error)
  getCountsMap : Option Error
  getStackTracesMap : Option Error

/-- One firing of the ticker: the error `profileLoop` returned in that round and the value
of `time.Now()` read by `loopReport`. -/
structure Tick where
  profileLoopErr : Option Error
  now : Nat
  deriving DecidableEq, Repr

/-- A line written to the logger by the loop of Run. -/
inductive RunLog where
  | profileLoopError (err : Error)
  deriving DecidableEq, Repr

/-- The `for i := 0; i < cpus; i++` loop of Run: returns the first error. The variables
`fd, err` and `prog, err` are declared in the loop body and do not touch the `err` of
the function scope. -/
def attachPerfEvents : List (Option Error × Option Error × Option Error) → Option Error
  | [] => none
  | (openErr, progErr, attachErr) :: rest =>
    match openErr with
    | some e => some (e.wrap "open perf event")
    | none =>
      match progErr with
      | some e => some (e.wrap "get bpf program")
      | none =>
        match attachErr with
        | some e => some (e.wrap "attach perf event")
        | none => attachPerfEvents rest

/-- The loop `for { select ...; if err := p.profileLoop(ctx); err != nil { warn };
p.loopReport(err) }` of Run over the ticks that fire before the context is done.

`err` is the variable of the function scope of Run. The `err` declared by
`if err := p.profileLoop(ctx); err != nil` lives in the scope of that `if`
statement only, so the argument of `p.loopReport(err)` is the outer one. -/
def runLoop (err : Option Error) : Clock → List Tick → Clock × List RunLog
  | p, [] => (p, [])
  | p, t :: ticks =>
    let logs : List RunLog :=
      match t.profileLoopErr with
      | some e => [RunLog.profileLoopError e]
      | none => []
    let p1 := loopReport p err t.now
    let r := runLoop err p1 ticks
    (r.1, logs ++ r.2)

/-- The method `Profiler.Run`: the bootstrap calls, each returning on error, then the
loop. The result is the error returned (`ctxErr`, the value of `ctx.Err()`, when the loop
was reached), the timestamps at return and the log of the loop. -/
def Run (boot : Bootstrap) (p : Clock) (ticks : List Tick) (ctxErr : Error) :
    Error × Clock × List RunLog :=
  -- m, err := bpf.NewModuleFromBufferArgs(...)
  let err := boot.newModule
  match err with
  | some e => (e.wrap "new bpf module", p, [])
  | none =>
    -- if err := p.bumpMemlockRlimit(); err != nil   (a new err, scoped to the if)
    match boot.bumpMemlockRlimit with
    | some e => (e.wrap "bump memlock rlimit", p, [])
    | none =>
      match boot.loadObject with
      | some e => (e.wrap "load bpf object", p, [])
      | none =>
        match attachPerfEvents boot.perfEvents with
        | some e => (e, p, [])
        | none =>
          -- counts, err := m.GetMap(countsMapName)   (assigns the outer err)
          let err := boot.getCountsMap
          match err with
          | some e => (e.wrap "get counts map", p, [])
          | none =>
            -- stackTraces, err := m.GetMap(stackTracesMapName)   (assigns the outer err)
            let err := boot.getStackTracesMap
            match err with
            | some e => (e.wrap "get stack traces map", p, [])
            | none =>
              let r := runLoop err p ticks
              (ctxErr, r.1, r.2)

/-! ## Data model of the profiling round -/

/-- The constant `stackDepth`. -/
def stackDepth : Nat := 127

/-- The constant `doubleStackDepth`. -/
def doubleStackDepth : Nat := stackDepth * 2

/-- The type `combinedStack`, `[doubleStackDepth]uint64`: the user stack in positions
`[0, stackDepth)`, the kernel stack after it. `stack[:stackDepth]` is `List.take stackDepth`
and `stack[stackDepth:]` is `List.drop stackDepth`. -/
abbrev combinedStack := List Nat

/-- The type `PID`, a `uint64`. -/
abbrev PID := Nat

/-- The struct `stackCountKey`. -/
structure stackCountKey where
  PID : Nat
  UserStackID : Int
  KernelStackID : Int
  deriving DecidableEq, Repr

/-- The pprof struct `profile.Mapping`. -/
structure Mapping where
  ID : Nat
  Start : Nat
  Limit : Nat
  Offset : Nat
  File : String
  BuildID : String
  deriving DecidableEq, Repr

/-- A non-nil `*profile.Mapping`: the kernel mapping object allocated at the start of the
round, or a mapping owned by the process-mapping cache. -/
inductive MappingPtr where
  | kernelMapping
  | user (m : Mapping)
  deriving DecidableEq, Repr

/-- A `*profile.Location`: the index of the object in the heap. -/
abbrev LocPtr := Nat

/-- A `*profile.Function`: nil, or the index of the object in the heap. -/
abbrev FuncPtr := Option Nat

/-- The pprof struct `profile.Line`, with the field the profiler sets. -/
structure Line where
  Function : FuncPtr
  deriving DecidableEq, Repr

/-- The pprof struct `profile.Location`. -/
structure Location where
  ID : Nat
  Mapping : Option MappingPtr
  Address : Nat
  Line : List Line
  deriving DecidableEq, Repr

/-- The pprof struct `profile.Function`, with the fields the profiler sets. -/
structure Function where
  ID : Nat
  Name : String
  deriving DecidableEq, Repr

/-- The pprof struct `profile.Sample`. -/
structure Sample where
  Location : List LocPtr
  Value : List Int
  deriving DecidableEq, Repr

/-- The objects allocated in a round that are reached through pointers. -/
structure Heap where
  locations : List Location
  functions : List Function
  kernelMapping : Mapping
  deriving DecidableEq, Repr

/-- The struct `Profile` of profiler.go. -/
structure Profile where
  captureTime : Nat
  samples : GoMap combinedStack Sample
  allLocations : List LocPtr
  userLocations : GoMap Nat (List LocPtr)
  kernelLocations : List LocPtr
  userMappings : List Mapping
  kernelMapping : MappingPtr
  deriving DecidableEq, Repr

/-- The pprof struct `profile.ValueType`; `Typ` is its field `Type`. -/
structure ValueType where
  Typ : String
  Unit : String
  deriving DecidableEq, Repr

/-- The pprof struct `profile.Profile`, with the fields `pprofProfile` sets. -/
structure PprofProfile where
  SampleType : List ValueType
  TimeNanos : Int
  DurationNanos : Int
  PeriodType : ValueType
  Period : Int
  Sample : List Sample
  Location : List LocPtr
  Mapping : List MappingPtr
  Function : List Nat
  deriving DecidableEq, Repr

/-- The struct `goprocess.P`, with the fields the profiler reads. -/
structure P where
  PID : Nat
  Exec : String
  Path : String
  BuildVersion : String
  deriving DecidableEq, Repr

/-- One entry met by the iterator of the counts map: the result of decoding `it.Key()`
with `binary.Read`, and the result of `readStackCount` on that key. -/
structure CountsEntry where
  key : Except Error stackCountKey
  value : Except Error Nat

/-- Why a function stopped early: it returned an error, or the runtime panicked. -/
inductive Stop where
  | returned (err : Error)
  | panic (msg : String)
  deriving DecidableEq, Repr

/-- What a profiling round does to the world outside, in order. -/
inductive Event where
  | write (labels : GoMap String String) (prof : PprofProfile) (heap : Heap)
  | clean
  deriving DecidableEq, Repr

/-- The collaborators of a round. A `none` error is nil.

* `processes` is the result of `goprocess.FindAll()`, `Find` is `goprocess.Find`;
* `counts` lists what the iterator of the counts map yields;
* `readUserStack` and `readKernelStack` are the methods of `bpfMaps`: they get the stack id
  and the stack, and give the stack after the call and the error;
* `PIDAddrMapping` and `AllMappings` are the methods of the process-mapping cache;
* `Unsymbolizable` is the method of `profile.Mapping`;
* `ObjectFileForProcess` is the method of the object-file cache, an object file being given
  by its method `ObjAddr`;
* `Resolve` is the method of the kernel symbol cache on the set of addresses;
* `profileStartedAt` is `p.profileStartedAt()` and `now` the clock read by `time.Since`;
* `rangeAllSamples`, `rangeSamples` and `rangeKernelFunctions` give the order in which the
  loops `range allSamples`, `range pr.samples` and `range kernelFunctions` visit their map: a
  permutation of the entries. -/
structure Env where
  node : String
  processes : List P
  Find : Nat → Option P
  counts : List CountsEntry
  readUserStack : Int → combinedStack → combinedStack × Option Error
  readKernelStack : Int → combinedStack → combinedStack × Option Error
  PIDAddrMapping : Nat → Nat → Option Mapping × Option Error
  AllMappings : List Mapping
  Unsymbolizable : Mapping → Bool
  ObjectFileForProcess : Nat → Mapping → Except Error (Nat → Except Error Nat)
  Resolve : List Nat → Except Error (GoMap Nat String)
  profileStartedAt : Nat
  now : Nat
  rangeAllSamples : GoMap PID (GoMap combinedStack Sample) → GoMap PID (GoMap combinedStack Sample)
  rangeSamples : GoMap combinedStack Sample → GoMap combinedStack Sample
  rangeKernelFunctions : GoMap Nat FuncPtr → GoMap Nat FuncPtr
  rangeAllSamples_perm : ∀ m, (rangeAllSamples m).Perm m
  rangeSamples_perm : ∀ m, (rangeSamples m).Perm m
  rangeKernelFunctions_perm : ∀ m, (rangeKernelFunctions m).Perm m

/-! ## Machine integers -/

/-- The conversion `int64(v)` of a `uint64`. -/
def toInt64 (v : Nat) : Int :=
  if v % 2 ^ 64 < 2 ^ 63 then ((v % 2 ^ 64 : Nat) : Int) else ((v % 2 ^ 64 : Nat) : Int) - 2 ^ 64

/-- The sum of two `int64`, which wraps around. -/
def addInt64 (x y : Int) : Int :=
  (x + y + 2 ^ 63) % 2 ^ 64 - 2 ^ 63

/-! ## The pid filter -/

/-- The loop of `sort.Search`: `for i < j { h := int(uint(i+j) >> 1); if !f(h) { i = h + 1 }
else { j = h } }`. The first argument bounds the number of iterations. -/
def searchLoop (f : Nat → Bool) : Nat → Nat → Nat → Nat
  | 0, i, _ => i
  | fuel + 1, i, j =>
    if i < j then
      let h := (i + j) / 2
      if !f h then searchLoop f fuel (h + 1) j else searchLoop f fuel i h
    else i

/-- The function `sort.Search(n, f)`; `j - i` decreases in every iteration, so `n`
iterations are enough. -/
def sortSearch (n : Nat) (f : Nat → Bool) : Nat :=
  searchLoop f n 0 n

/-- The closure passed to `sort.Search` in `profileLoop`:
`PID(processes[i].PID) >= pid`. -/
def pidAtLeast (processes : List P) (pid : PID) (i : Nat) : Bool :=
  match processes[i]? with
  | some ps => decide (ps.PID ≥ pid)
  | none => false

/-- The test `i < len(processes) && PID(processes[i].PID) == pid` after the search. -/
def pidFound (processes : List P) (pid : PID) : Bool :=
  let i := sortSearch processes.length (pidAtLeast processes pid)
  match processes[i]? with
  | some ps => decide (ps.PID = pid)
  | none => false

/-! ## The drain loop of `profileLoop` -/

/-- The local maps of `profileLoop`, and the heap. -/
structure LoopState where
  heap : Heap
  allSamples : GoMap PID (GoMap combinedStack Sample)
  sampleLocations : GoMap PID (List LocPtr)
  allLocations : GoMap PID (List LocPtr)
  kernelLocations : GoMap PID (List LocPtr)
  userLocations : GoMap PID (GoMap Nat (List LocPtr))
  locationIndices : GoMap PID (GoMap (Nat × Nat) Nat)
  deriving DecidableEq, Repr

/-- The state after the `var (...)` block of `profileLoop`: empty maps and the kernel
mapping object `&profile.Mapping{File: "[kernel.kallsyms]"}`. -/
def LoopState.init : LoopState :=
  { heap := { locations := [], functions := [],
              kernelMapping := { ID := 0, Start := 0, Limit := 0, Offset := 0,
                                 File := "[kernel.kallsyms]", BuildID := "" } },
    allSamples := [], sampleLocations := [], allLocations := [], kernelLocations := [],
    userLocations := [], locationIndices := [] }

/-- The method `Profiler.normalizeAddress`. -/
def normalizeAddress (env : Env) (m : Option Mapping) (pid : Nat) (addr : Nat) : Nat :=
  match m with
  | none => addr
  | some m =>
    if env.Unsymbolizable m then addr
    else
      match env.ObjectFileForProcess pid m with
      | .error _ => addr
      | .ok objAddr =>
        match objAddr addr with
        | .error _ => addr
        | .ok normalizedAddr => normalizedAddr

/-- The statement `sampleLocations[pid] = append(sampleLocations[pid],
allLocations[pid][locationIndex])`; an index out of range is a runtime panic. -/
def appendSampleLocation (pid : PID) (s : LoopState) (locationIndex : Nat) :
    Except Stop LoopState :=
  match (mapGetD s.allLocations pid)[locationIndex]? with
  | some l =>
    .ok { s with sampleLocations := mapSet s.sampleLocations pid (mapGetD s.sampleLocations pid ++ [l]) }
  | none => .error (.panic "index out of range")

/-- The three statements that register a new location `l`, allocated at the end of the heap,
under `key`: the appends to `allLocations[pid]` and to `kernelLocations[pid]` (kernel half)
or `userLocations[pid][key.PID]` (user half), and `locationIndices[pid][key] = locationIndex`. -/
def addLocation (pid : PID) (s : LoopState) (key : Nat × Nat) (l : Location)
    (user : Option Nat) : LoopState :=
  let locationIndex := (mapGetD s.allLocations pid).length
  let ptr : LocPtr := s.heap.locations.length
  { s with
    heap := { s.heap with locations := s.heap.locations ++ [l] },
    allLocations := mapSet s.allLocations pid (mapGetD s.allLocations pid ++ [ptr]),
    kernelLocations :=
      match user with
      | none => mapSet s.kernelLocations pid (mapGetD s.kernelLocations pid ++ [ptr])
      | some _ => s.kernelLocations,
    userLocations :=
      match user with
      | none => s.userLocations
      | some keyPID =>
        mapSet s.userLocations pid
          (mapSet (mapGetD s.userLocations pid) keyPID
            (mapGetD (mapGetD s.userLocations pid) keyPID ++ [ptr])),
    locationIndices :=
      mapSet s.locationIndices pid (mapSet (mapGetD s.locationIndices pid) key locationIndex) }

/-- The body of `for _, addr := range stack[stackDepth:]` for one address. `uint64(
locationIndex + 1)` is exact, a slice length being below `2^63`. -/
def kernelStep (pid : PID) (s : LoopState) (addr : Nat) : Except Stop LoopState :=
  if addr ≠ 0 then
    let key : Nat × Nat := (0, addr)
    match mapGet (mapGetD s.locationIndices pid) key with
    | some locationIndex => appendSampleLocation pid s locationIndex
    | none =>
      let locationIndex := (mapGetD s.allLocations pid).length
      let l : Location :=
        { ID := locationIndex + 1, Address := addr, Mapping := some .kernelMapping, Line := [] }
      appendSampleLocation pid (addLocation pid s key l none) locationIndex
  else .ok s

/-- The body of `for _, addr := range stack[:stackDepth]` for one address. `key.PID` and
`pid` are the same number (`pid := PID(key.PID)`), written `pid` here. The mapping `m` is
used whatever the error of `PIDAddrMapping` is: the error is only logged. -/
def userStep (env : Env) (pid : PID) (s : LoopState) (addr : Nat) : Except Stop LoopState :=
  if addr ≠ 0 then
    let k : Nat × Nat := (pid, addr)
    match mapGet (mapGetD s.locationIndices pid) k with
    | some locationIndex => appendSampleLocation pid s locationIndex
    | none =>
      let locationIndex := (mapGetD s.allLocations pid).length
      let m := (env.PIDAddrMapping pid addr).1
      let l : Location :=
        { ID := locationIndex + 1, Address := normalizeAddress env m pid addr,
          Mapping := m.map MappingPtr.user, Line := [] }
      appendSampleLocation pid (addLocation pid s k l (some pid)) locationIndex
  else .ok s

/-- The loop `for _, addr := range stack[stackDepth:]`. -/
def kernelWalk (pid : PID) : LoopState → List Nat → Except Stop LoopState
  | s, [] => .ok s
  | s, addr :: rest =>
    match kernelStep pid s addr with
    | .ok s1 => kernelWalk pid s1 rest
    | .error e => .error e

/-- The loop `for _, addr := range stack[:stackDepth]`. -/
def userWalk (env : Env) (pid : PID) : LoopState → List Nat → Except Stop LoopState
  | s, [] => .ok s
  | s, addr :: rest =>
    match userStep env pid s addr with
    | .ok s1 => userWalk env pid s1 rest
    | .error e => .error e

/-- Lines 285-291 of profiler.go: `sampleLocations[pid]` is a fresh empty slice, and
`userLocations[pid]` and `locationIndices[pid]` are made if missing. -/
def prepareSample (pid : PID) (s : LoopState) : LoopState :=
  -- sampleLocations[pid] = []*profile.Location{}
  let s1 := { s with sampleLocations := mapSet s.sampleLocations pid [] }
  -- if _, ok = userLocations[pid]; !ok { userLocations[pid] = map[uint32][]*profile.Location{} }
  let s2 :=
    match mapGet s1.userLocations pid with
    | some _ => s1
    | none => { s1 with userLocations := mapSet s1.userLocations pid [] }
  -- if _, ok = locationIndices[pid]; !ok { locationIndices[pid] = map[[2]uint64]int{} }
  match mapGet s2.locationIndices pid with
  | some _ => s2
  | none => { s2 with locationIndices := mapSet s2.locationIndices pid [] }

/-- Lines 350-354 of profiler.go: the new sample, with the count of the entry and the
locations collected by the walks, is stored under its stack. -/
def storeSample (pid : PID) (stack : combinedStack) (value : Nat) (s : LoopState) : LoopState :=
  let sample : Sample := { Value := [toInt64 value], Location := mapGetD s.sampleLocations pid }
  { s with allSamples := mapSet s.allSamples pid (mapSet (mapGetD s.allSamples pid) stack sample) }

/-- Lines 285-354 of profiler.go: a sample is built for a stack seen for the first time in
the round. `value` is the count of the entry. -/
def newSample (env : Env) (pid : PID) (stack : combinedStack) (value : Nat)
    (s : LoopState) : Except Stop LoopState :=
  match kernelWalk pid (prepareSample pid s) (stack.drop stackDepth) with
  | .error e => .error e
  | .ok s4 =>
    match userWalk env pid s4 (stack.take stackDepth) with
    | .error e => .error e
    | .ok s5 => .ok (storeSample pid stack value s5)

/-- The statement `sample.Value[0] += int64(value)`; the sample is reached through the
pointer held by `allSamples[pid][stack]`. -/
def addValue (pid : PID) (stack : combinedStack) (sample : Sample) (value : Nat)
    (s : LoopState) : Except Stop LoopState :=
  match sample.Value with
  | v :: vs =>
    let sample1 : Sample := { sample with Value := addInt64 v (toInt64 value) :: vs }
    .ok { s with allSamples := mapSet s.allSamples pid (mapSet (mapGetD s.allSamples pid) stack sample1) }
  | [] => .error (.panic "index out of range")

/-- Lines 274-277 of profiler.go: `allSamples[pid]` is made if missing. -/
def ensureSamples (pid : PID) (s : LoopState) : LoopState :=
  match mapGet s.allSamples pid with
  | some _ => s
  | none => { s with allSamples := mapSet s.allSamples pid [] }

/-- Lines 274-354 of profiler.go: the count `value`, not zero, of an entry of `pid` with the
combined stack `stack` is added to the sample of the stack, which is built if it is new. -/
def recordSample (env : Env) (pid : PID) (stack : combinedStack) (value : Nat)
    (s : LoopState) : Except Stop LoopState :=
  let s1 := ensureSamples pid s
  match mapGet (mapGetD s1.allSamples pid) stack with
  | some sample => addValue pid stack sample value s1
  | none => newSample env pid stack value s1

/-- Lines 266-272 of profiler.go, then `recordSample`: the count of the entry is read and an
entry with count zero is skipped. The count is a `uint64`. -/
def recordEntry (env : Env) (key : stackCountKey) (stack : combinedStack)
    (value : Except Error Nat) (s : LoopState) : Except Stop LoopState :=
  match value with
  | .error err => .error (.returned (err.wrap "read value"))
  | .ok v =>
    let value := v % 2 ^ 64
    if value = 0 then .ok s
    else recordSample env key.PID stack value s

/-- The test `err != nil && errors.Is(err, errUnrecoverable)`: the error to return, if
any. -/
def unrecoverableOf : Option Error → Option Error
  | some e => if e.unrecoverable then some e else none
  | none => none

/-- The body of `for it.Next()` for one entry of the counts map; a `continue` gives the
state unchanged. -/
def loopBody (env : Env) (s : LoopState) (e : CountsEntry) : Except Stop LoopState :=
  match e.key with
  | .error err => .error (.returned (err.wrap "read stack count key"))
  | .ok key =>
    let pid : PID := key.PID
    if !pidFound env.processes pid then .ok s
    else
      let stack : combinedStack := List.replicate doubleStackDepth 0
      let userRead := env.readUserStack key.UserStackID stack
      match unrecoverableOf userRead.2 with
      | some userErr => .error (.returned userErr)
      | none =>
        let kernelRead := env.readKernelStack key.KernelStackID userRead.1
        match unrecoverableOf kernelRead.2 with
        | some kernelErr => .error (.returned kernelErr)
        | none =>
          if userRead.2.isSome && kernelRead.2.isSome then .ok s
          else recordEntry env key kernelRead.1 e.value s

/-- The loop `for it.Next()` over the entries the iterator yields. -/
def drain (env : Env) : LoopState → List CountsEntry → Except Stop LoopState
  | s, [] => .ok s
  | s, e :: rest =>
    match loopBody env s e with
    | .ok s1 => drain env s1 rest
    | .error err => .error err

/-! ## Kernel symbolization (symbols.go) -/

/-- The first loop of `resolveKernelFunctions`: `kernelAddresses[kloc.Address] = struct{}{}`
for every location of the list. -/
def kernelAddressSet (h : Heap) : GoMap Nat Unit → List LocPtr → Except Stop (GoMap Nat Unit)
  | acc, [] => .ok acc
  | acc, kloc :: rest =>
    match h.locations[kloc]? with
    | none => .error (.panic "invalid memory address or nil pointer dereference")
    | some l => kernelAddressSet h (mapSet acc l.Address ()) rest

/-- The two statements `name := kernelSymbols[kloc.Address]` and
`if name == "" { name = "not found" }`: a missing key reads as the empty string. -/
def functionName (kernelSymbols : GoMap Nat String) (address : Nat) : String :=
  let name := (mapGet kernelSymbols address).getD ""
  if name = "" then "not found" else name

/-- The lookup `kernelFunction, ok := kernelFunctions[kloc.Address]` and the `if !ok`
block after it: the pointer `kernelFunction`, the map and the heap after them. -/
def lookupOrCreateFunction (kernelSymbols : GoMap Nat String)
    (kernelFunctions : GoMap Nat FuncPtr) (h : Heap) (address : Nat) :
    FuncPtr × GoMap Nat FuncPtr × Heap :=
  match mapGet kernelFunctions address with
  | some kernelFunction => (kernelFunction, kernelFunctions, h)
  | none =>
    -- kernelFunction = &profile.Function{Name: name}
    let kernelFunction : FuncPtr := some h.functions.length
    (kernelFunction, mapSet kernelFunctions address kernelFunction,
      { h with functions := h.functions ++ [{ ID := 0, Name := functionName kernelSymbols address }] })

/-- The body of the second loop of `resolveKernelFunctions` for one location. -/
def resolveStep (kernelSymbols : GoMap Nat String) (kernelFunctions : GoMap Nat FuncPtr)
    (h : Heap) (kloc : LocPtr) : Except Stop (GoMap Nat FuncPtr × Heap) :=
  match h.locations[kloc]? with
  | none => .error (.panic "invalid memory address or nil pointer dereference")
  | some l =>
    let r := lookupOrCreateFunction kernelSymbols kernelFunctions h l.Address
    -- if kernelFunction != nil { kloc.Line = []profile.Line{{Function: kernelFunction}} }
    match r.1 with
    | some f =>
      .ok (r.2.1,
        { r.2.2 with locations := r.2.2.locations.set kloc { l with Line := [{ Function := some f }] } })
    | none => .ok (r.2.1, r.2.2)

/-- The second loop of `resolveKernelFunctions`. -/
def resolveLoop (kernelSymbols : GoMap Nat String) :
    GoMap Nat FuncPtr → Heap → List LocPtr → Except Stop (GoMap Nat FuncPtr × Heap)
  | kernelFunctions, h, [] => .ok (kernelFunctions, h)
  | kernelFunctions, h, kloc :: rest =>
    match resolveStep kernelSymbols kernelFunctions h kloc with
    | .ok (kernelFunctions1, h1) => resolveLoop kernelSymbols kernelFunctions1 h1 rest
    | .error e => .error e

/-- The method `Profiler.resolveKernelFunctions`. -/
def resolveKernelFunctions (env : Env) (h : Heap) (kernelLocations : List LocPtr) :
    Except Stop (GoMap Nat FuncPtr × Heap) :=
  match kernelAddressSet h [] kernelLocations with
  | .error e => .error e
  | .ok kernelAddresses =>
    match env.Resolve (kernelAddresses.map Prod.fst) with
    | .error err => .error (.returned (err.wrap "resolve kernel symbols"))
    | .ok kernelSymbols => resolveLoop kernelSymbols [] h kernelLocations

/-! ## Conversion to pprof (pprof.go) -/

/-- The loop `for _, f := range kernelFunctions { f.ID = uint64(len(prof.Function)) + 1;
prof.Function = append(prof.Function, f) }`. -/
def assignFunctionIDs : List Nat → Heap → List (Nat × FuncPtr) → Except Stop (List Nat × Heap)
  | fs, h, [] => .ok (fs, h)
  | fs, h, (_, f) :: rest =>
    match f with
    | none => .error (.panic "invalid memory address or nil pointer dereference")
    | some i =>
      match h.functions[i]? with
      | none => .error (.panic "invalid memory address or nil pointer dereference")
      | some fn =>
        assignFunctionIDs (fs ++ [i])
          { h with functions := h.functions.set i { fn with ID := fs.length + 1 } } rest

/-- The two statements `pr.kernelMapping.ID = uint64(len(prof.Mapping)) + 1` and
`prof.Mapping = append(prof.Mapping, pr.kernelMapping)`: the mappings of the profile after
them, and the heap. -/
def appendKernelMapping (h : Heap) (mappings : List MappingPtr) (target : MappingPtr) :
    List MappingPtr × Heap :=
  match target with
  | .kernelMapping =>
    (mappings ++ [.kernelMapping],
      { h with kernelMapping := { h.kernelMapping with ID := mappings.length + 1 } })
  | .user m => (mappings ++ [.user { m with ID := mappings.length + 1 }], h)

/-- The method `Profiler.pprofProfile`. A `time.Time` is read as its number of nanoseconds
since the Unix epoch: `TimeNanos` and `DurationNanos` are those of a capture time that
`UnixNano()` represents exactly, which leaves out the zero `time.Time`. -/
def pprofProfile (env : Env) (h : Heap) (pr : Profile) : Except Stop (PprofProfile × Heap) :=
  let prof : PprofProfile :=
    { SampleType := [{ Typ := "samples", Unit := "count" }],
      TimeNanos := pr.captureTime,
      DurationNanos := (env.now : Int) - pr.captureTime,
      PeriodType := { Typ := "cpu", Unit := "nanoseconds" },
      Period := 10000000,
      Sample := [], Location := [], Mapping := [], Function := [] }
  -- for _, s := range pr.samples { prof.Sample = append(prof.Sample, s) }
  let prof := { prof with Sample := (env.rangeSamples pr.samples).map Prod.snd }
  let prof := { prof with Location := pr.allLocations }
  let prof := { prof with Mapping := pr.userMappings.map MappingPtr.user }
  let km := appendKernelMapping h prof.Mapping pr.kernelMapping
  let prof := { prof with Mapping := km.1 }
  match resolveKernelFunctions env km.2 pr.kernelLocations with
  | .error (.returned err) =>
    .error (.returned (err.wrap "failed to resolve kernel functions"))
  | .error stop => .error stop
  | .ok (kernelFunctions, h1) =>
    match assignFunctionIDs prof.Function h1 (env.rangeKernelFunctions kernelFunctions) with
    | .error stop => .error stop
    | .ok (fs, h2) => .ok ({ prof with Function := fs }, h2)

/-! ## The emission loop of `profileLoop` -/

/-- The label map built for the profile of `pid`. -/
def buildLabels (env : Env) (pid : PID) : GoMap String String :=
  let labels : GoMap String String := []
  let labels := mapSet labels "__name__" "tiny_profiler_cpu"
  let labels := mapSet labels "node" env.node
  let labels := mapSet labels "pid" (Nat.repr pid)
  match env.Find pid with
  | some ps =>
    let labels := mapSet labels "exec" ps.Exec
    let labels := mapSet labels "path" ps.Path
    mapSet labels "build_version" ps.BuildVersion
  | none => labels

/-- How a round ended: the error returned (or the panic), what it did to the world outside,
and the heap at that point. -/
structure RoundResult where
  err : Option Stop
  trace : List Event
  heap : Heap
  deriving DecidableEq, Repr

/-- The loop `for pid, samples := range allSamples`: for every pid the profile is built,
written and the BPF maps are cleaned. The errors of `Write` and of `clean` are logged
only. -/
def emitLoop (env : Env) (s : LoopState) :
    Heap → List Event → List (PID × GoMap combinedStack Sample) → RoundResult
  | h, trace, [] => { err := none, trace := trace, heap := h }
  | h, trace, (pid, samples) :: rest =>
    let prof : Profile :=
      { captureTime := env.profileStartedAt,
        samples := samples,
        allLocations := mapGetD s.allLocations pid,
        kernelLocations := mapGetD s.kernelLocations pid,
        userLocations := mapGetD s.userLocations pid,
        userMappings := env.AllMappings,
        kernelMapping := .kernelMapping }
    match pprofProfile env h prof with
    | .error (.returned err) =>
      { err := some (.returned (err.wrap "failed to build profile")), trace := trace, heap := h }
    | .error stop => { err := some stop, trace := trace, heap := h }
    | .ok (pprof, h1) =>
      let labels := buildLabels env pid
      emitLoop env s h1 (trace ++ [Event.write labels pprof h1, Event.clean]) rest

/-- The method `Profiler.profileLoop`. The upload of debug information runs in a goroutine
of its own and touches none of the state below. -/
def profileLoop (env : Env) : RoundResult :=
  match drain env LoopState.init env.counts with
  | .error stop => { err := some stop, trace := [], heap := LoopState.init.heap }
  | .ok s => emitLoop env s s.heap [] (env.rangeAllSamples s.allSamples)

/-! ## The remote writer (pprof.go) -/

/-- The message `profilestorepb.Label`. -/
structure Label where
  Name : String
  Value : String
  deriving DecidableEq, Repr

/-- The message `profilestorepb.RawSample`. -/
structure RawSample where
  RawProfile : List Nat
  deriving DecidableEq, Repr

/-- The message `profilestorepb.RawProfileSeries`; `Labels` is the list inside its
`LabelSet`. -/
structure RawProfileSeries where
  Labels : List Label
  Samples : List RawSample
  deriving DecidableEq, Repr

/-- The message `profilestorepb.WriteRawRequest`. -/
structure WriteRawRequest where
  Normalized : Bool
  Series : List RawProfileSeries
  deriving DecidableEq, Repr

/-- The loop `for key, value := range labels { profileLabels = append(profileLabels,
&Label{Name: key, Value: value}) }`. The list `labels` gives the entries of the map in the
order in which the range statement visits them. -/
def profileLabels : GoMap String String → List Label
  | [] => []
  | (key, value) :: rest => { Name := key, Value := value } :: profileLabels rest

/-- The method `RemoteProfileWriter.Write`. `serialized` is the result of `prof.Write(buf)`
on the empty buffer taken from the pool, `WriteRaw` the error of the RPC. The result is the
error returned and the requests sent. -/
def RemoteProfileWriter.Write (serialized : Except Error (List Nat))
    (WriteRaw : WriteRawRequest → Option Error) (labels : GoMap String String) :
    Option Error × List WriteRawRequest :=
  match serialized with
  | .error err => (some err, [])
  | .ok bytes =>
    let request : WriteRawRequest :=
      { Normalized := true,
        Series := [{ Labels := profileLabels labels, Samples := [{ RawProfile := bytes }] }] }
    (WriteRaw request, [request])

/-! ## Concrete inputs -/

/-- The object a mapping pointer points to. -/
def derefMapping (h : Heap) : MappingPtr → Mapping
  | .kernelMapping => h.kernelMapping
  | .user m => m

/-- A bootstrap in which every call succeeds, on one CPU. -/
def bootOk : Bootstrap :=
  { newModule := none, bumpMemlockRlimit := none, loadObject := none,
    perfEvents := [(none, none, none)], getCountsMap := none, getStackTracesMap := none }

/-- A host with the single process 42, an empty counts map, stack reads that leave the stack
as it is, no user mapping and a kernel symbol table that knows `0xFFFF0100`; the range loops
visit their maps in the order of insertion. -/
def envBase : Env :=
  { node := "localhost",
    processes := [{ PID := 42, Exec := "app", Path := "/usr/bin/app", BuildVersion := "go1.17" }],
    Find := fun _ => none,
    counts := [],
    readUserStack := fun _ st => (st, none),
    readKernelStack := fun _ st => (st, none),
    PIDAddrMapping := fun _ _ => (none, some { msg := "not found", unrecoverable := false }),
    AllMappings := [],
    Unsymbolizable := fun _ => false,
    ObjectFileForProcess := fun _ _ => .error { msg := "no object file", unrecoverable := false },
    Resolve := fun _ => .ok [(0xFFFF0100, "schedule")],
    profileStartedAt := 1000,
    now := 2000,
    rangeAllSamples := fun m => m,
    rangeSamples := fun m => m,
    rangeKernelFunctions := fun m => m,
    rangeAllSamples_perm := fun m => List.Perm.refl m,
    rangeSamples_perm := fun m => List.Perm.refl m,
    rangeKernelFunctions_perm := fun m => List.Perm.refl m }

/-- The counts map holds one entry, with count 3, of the terminated process 99. -/
def envAbsentPid : Env :=
  { envBase with
    counts := [{ key := .ok { PID := 99, UserStackID := 1, KernelStackID := -1 }, value := .ok 3 }] }

/-- The counts map holds one entry of the live process 42 whose count is zero. -/
def envZeroCount : Env :=
  { envBase with
    counts := [{ key := .ok { PID := 42, UserStackID := 1, KernelStackID := -1 }, value := .ok 0 }] }

/-- A heap with two kernel locations, at `0xFFFF0100` and `0xFFFF0200`. -/
def heapTwoKernel : Heap :=
  { locations := [{ ID := 1, Mapping := some .kernelMapping, Address := 0xFFFF0100, Line := [] },
                  { ID := 2, Mapping := some .kernelMapping, Address := 0xFFFF0200, Line := [] }],
    functions := [],
    kernelMapping := LoopState.init.heap.kernelMapping }

/-- A user mapping of process 42. -/
def mappingApp : Mapping :=
  { ID := 1, Start := 0, Limit := 0x10000, Offset := 0, File := "/usr/bin/app", BuildID := "abc" }

/-- The internal profile of the two kernel locations of `heapTwoKernel` with one user
mapping. -/
def profileTwoKernel : Profile :=
  { captureTime := 1000,
    samples := [(List.replicate stackDepth 0 ++ [0xFFFF0100, 0xFFFF0200], { Location := [0, 1], Value := [3] })],
    allLocations := [0, 1],
    userLocations := [],
    kernelLocations := [0, 1],
    userMappings := [mappingApp],
    kernelMapping := .kernelMapping }

/-- A label map with two entries, listed in an order in which a range statement may visit
them. -/
def labelsNodeFirst : GoMap String String :=
  [("node", "localhost"), ("__name__", "tiny_profiler_cpu")]

/-- A location with its `Line` field cleared: what symbolization leaves as it is. -/
def Location.eraseLine (l : Location) : Location :=
  { l with Line := [] }

/-- The invariant of the second loop of `resolveKernelFunctions`: every entry of the function
map points to a function object that carries the name of its address, two addresses never
share a function object, and no address has two entries. -/
structure ResolveInv (kernelSymbols : GoMap Nat String) (kernelFunctions : GoMap Nat FuncPtr)
    (h : Heap) : Prop where
  named : ∀ a f, mapGet kernelFunctions a = some f →
    ∃ i fn, f = some i ∧ h.functions[i]? = some fn ∧ fn.Name = functionName kernelSymbols a
  inj : ∀ a b f, mapGet kernelFunctions a = some f → mapGet kernelFunctions b = some f → a = b
  nodup : (kernelFunctions.map Prod.fst).Nodup

/-- The location behind `p` has been given its single line, with the function of its
address. -/
def Resolved (kernelFunctions : GoMap Nat FuncPtr) (h : Heap) (p : LocPtr) : Prop :=
  ∃ l f, h.locations[p]? = some l ∧ l.Line = [{ Function := some f }] ∧
    mapGet kernelFunctions l.Address = some (some f)

/-- The locations of `h1` are those of `h` up to their `Line` fields. -/
def SameSkeleton (h h1 : Heap) : Prop :=
  ∀ p : Nat, (h1.locations[p]?).map Location.eraseLine = (h.locations[p]?).map Location.eraseLine

/-! ## Notions used to state the properties of the drain loop -/

/-- The scheme shared by `kernelStep` and `userStep` for a non-zero address: the location of
`key` is looked up in `locationIndices[pid]`, the location `l` is registered when there is
none, and the location is appended to `sampleLocations[pid]`. -/
def locate (pid : PID) (s : LoopState) (key : Nat × Nat) (l : Location) (user : Option Nat) :
    Except Stop LoopState :=
  match mapGet (mapGetD s.locationIndices pid) key with
  | some locationIndex => appendSampleLocation pid s locationIndex
  | none =>
    appendSampleLocation pid (addLocation pid s key l user) (mapGetD s.allLocations pid).length

/-- The location object `kernelStep` allocates for `addr`. -/
def kernelLocation (pid : PID) (s : LoopState) (addr : Nat) : Location :=
  { ID := (mapGetD s.allLocations pid).length + 1, Address := addr,
    Mapping := some .kernelMapping, Line := [] }

/-- The location object `userStep` allocates for `addr`. -/
def userLocation (env : Env) (pid : PID) (s : LoopState) (addr : Nat) : Location :=
  { ID := (mapGetD s.allLocations pid).length + 1,
    Address := normalizeAddress env (env.PIDAddrMapping pid addr).1 pid addr,
    Mapping := (env.PIDAddrMapping pid addr).1.map MappingPtr.user, Line := [] }

/-- The pointer `allLocations[pid][locationIndices[pid][key]]`, if the key is present. -/
def locationOf (s : LoopState) (pid : PID) (key : Nat × Nat) : Option LocPtr :=
  match mapGet (mapGetD s.locationIndices pid) key with
  | some locationIndex => (mapGetD s.allLocations pid)[locationIndex]?
  | none => none

/-- The keys under which the two walks look up the addresses of a combined stack, in the
order of the walks: `(0, addr)` for the non-zero addresses of the kernel half
`stack[stackDepth:]`, then `(pid, addr)` for the non-zero addresses of the user half
`stack[:stackDepth]`. -/
def stackKeys (pid : PID) (stack : combinedStack) : List (Nat × Nat) :=
  ((stack.drop stackDepth).filter (fun a => decide (a ≠ 0))).map (fun a => (0, a)) ++
    ((stack.take stackDepth).filter (fun a => decide (a ≠ 0))).map (fun a => (pid, a))

/-- How a location was made for its key: a location of the kernel mapping has the key
`(0, Address)`; any other location has a key `(pid, addr)` and carries the mapping of `addr`
and the normalized `addr`. -/
def KeyOf (env : Env) (pid : PID) (key : Nat × Nat) (l : Location) : Prop :=
  (l.Mapping = some .kernelMapping → key = (0, l.Address)) ∧
  (l.Mapping ≠ some .kernelMapping → ∃ addr, key = (pid, addr) ∧
    l.Address = normalizeAddress env (env.PIDAddrMapping pid addr).1 pid addr ∧
    l.Mapping = (env.PIDAddrMapping pid addr).1.map MappingPtr.user)

/-- The invariant of the drain loop on the location tables. -/
structure LoopInv (env : Env) (s : LoopState) : Prop where
  table : ∀ (pid : PID) (i : Nat) (ptr : LocPtr), (mapGetD s.allLocations pid)[i]? = some ptr →
    ∃ l, s.heap.locations[ptr]? = some l ∧ l.ID = i + 1
  index_lt : ∀ (pid : PID) (key : Nat × Nat) (i : Nat),
    mapGet (mapGetD s.locationIndices pid) key = some i → i < (mapGetD s.allLocations pid).length
  index_inj : ∀ (pid : PID) (k1 k2 : Nat × Nat) (i : Nat),
    mapGet (mapGetD s.locationIndices pid) k1 = some i →
    mapGet (mapGetD s.locationIndices pid) k2 = some i → k1 = k2
  index_key : ∀ (pid : PID) (i : Nat) (ptr : LocPtr) (l : Location),
    (mapGetD s.allLocations pid)[i]? = some ptr → s.heap.locations[ptr]? = some l →
    ∃ key, mapGet (mapGetD s.locationIndices pid) key = some i ∧ KeyOf env pid key l
  sampleLocs : ∀ (pid : PID) (ptr : LocPtr), ptr ∈ mapGetD s.sampleLocations pid →
    ptr ∈ mapGetD s.allLocations pid
  samples : ∀ (pid : PID) (stack : combinedStack) (sample : Sample),
    mapGet (mapGetD s.allSamples pid) stack = some sample →
      sample.Location.map some = (stackKeys pid stack).map (locationOf s pid)
  value_one : ∀ (pid : PID) (stack : combinedStack) (sample : Sample),
    mapGet (mapGetD s.allSamples pid) stack = some sample → ∃ x, sample.Value = [x]
  pids_nodup : (s.allSamples.map Prod.fst).Nodup
  stacks_nodup : ∀ (pid : PID), ((mapGetD s.allSamples pid).map Prod.fst).Nodup

/-- The tables of `s1` extend those of `s`: objects, table entries and indices stay. -/
structure Extends (s s1 : LoopState) : Prop where
  heap : ∀ (p : Nat) (l : Location), s.heap.locations[p]? = some l → s1.heap.locations[p]? = some l
  locs : ∀ (pid : PID) (i : Nat) (ptr : LocPtr), (mapGetD s.allLocations pid)[i]? = some ptr →
    (mapGetD s1.allLocations pid)[i]? = some ptr
  idxs : ∀ (pid : PID) (key : Nat × Nat) (i : Nat),
    mapGet (mapGetD s.locationIndices pid) key = some i →
    mapGet (mapGetD s1.locationIndices pid) key = some i

/-- A loop over the addresses of a stack half, for a given loop body; `kernelWalk` and
`userWalk` are instances. -/
def walk (step : LoopState → Nat → Except Stop LoopState) :
    LoopState → List Nat → Except Stop LoopState
  | s, [] => .ok s
  | s, addr :: rest =>
    match step s addr with
    | .ok s1 => walk step s1 rest
    | .error e => .error e

/-- The state after `sampleLocations[pid] = append(sampleLocations[pid], ptr)`. -/
def pushSampleLocation (pid : PID) (s : LoopState) (ptr : LocPtr) : LoopState :=
  { s with sampleLocations := mapSet s.sampleLocations pid (mapGetD s.sampleLocations pid ++ [ptr]) }

/-- The state after `allSamples[pid][stack] = sample`. -/
def setSample (pid : PID) (stack : combinedStack) (sample : Sample) (s : LoopState) : LoopState :=
  { s with allSamples := mapSet s.allSamples pid (mapSet (mapGetD s.allSamples pid) stack sample) }

/-- The pid, combined stack and count with which an entry of the counts map reaches line 274
of profiler.go in a round that goes on: its key is decoded, its pid passes the pid filter,
not both stack reads fail, and its count is read and is not zero. -/
def contribution (env : Env) (e : CountsEntry) : Option (PID × combinedStack × Nat) :=
  match e.key with
  | .error _ => none
  | .ok key =>
    if pidFound env.processes key.PID then
      let userRead := env.readUserStack key.UserStackID (List.replicate doubleStackDepth 0)
      let kernelRead := env.readKernelStack key.KernelStackID userRead.1
      if userRead.2.isSome && kernelRead.2.isSome then none
      else
        match e.value with
        | .error _ => none
        | .ok v => if v % 2 ^ 64 = 0 then none else some (key.PID, kernelRead.1, v % 2 ^ 64)
    else none

/-- The counts of the entries that contribute to the sample of `pid` and `stack`, in the
order of the entries. -/
def contributions (env : Env) (entries : List CountsEntry) (pid : PID) (stack : combinedStack) :
    List Nat :=
  entries.filterMap (fun e =>
    match contribution env e with
    | some (p, st, v) => if p = pid ∧ st = stack then some v else none
    | none => none)

/-- The invariant of the drain loop on the values, after the entries `processed`: a sample
exists for exactly the pairs of pid and stack that some entry contributed to, and its value
is the sum of the contributed counts, as an `int64`. -/
structure ValueInv (env : Env) (processed : List CountsEntry) (s : LoopState) : Prop where
  present : ∀ (pid : PID) (stack : combinedStack) (sample : Sample),
    mapGet (mapGetD s.allSamples pid) stack = some sample →
      contributions env processed pid stack ≠ [] ∧
      sample.Value = [toInt64 (contributions env processed pid stack).sum]
  absent : ∀ (pid : PID) (stack : combinedStack),
    mapGet (mapGetD s.allSamples pid) stack = none → contributions env processed pid stack = []

/-- The samples of `s` are still there in `s1`, with the same locations. -/
def KeepsSamples (s s1 : LoopState) : Prop :=
  ∀ (pid : PID) (stack : combinedStack) (sample : Sample),
    mapGet (mapGetD s.allSamples pid) stack = some sample →
      ∃ sample1, mapGet (mapGetD s1.allSamples pid) stack = some sample1 ∧
        sample1.Location = sample.Location

/-- The counts map holds one entry of the live process 42, with count 5, whose user stack is
`[0xA, 0xB, 0, ...]` and whose kernel stack is `[0xFFFF0100, 0, ...]`. -/
def envOneSample : Env :=
  { envBase with
    counts := [{ key := .ok { PID := 42, UserStackID := 1, KernelStackID := 2 }, value := .ok 5 }],
    readUserStack := fun id st =>
      if id = 1 then (0xA :: 0xB :: st.drop 2, none)
      else (st, some { msg := "stack not found", unrecoverable := false }),
    readKernelStack := fun id st =>
      if id = 2 then (st.take stackDepth ++ 0xFFFF0100 :: st.drop (stackDepth + 1), none)
      else (st, some { msg := "stack not found", unrecoverable := false }) }

/-- The labels of the profile written in the round of `envOneSample`. -/
def labelsOneSample : GoMap String String :=
  [("__name__", "tiny_profiler_cpu"), ("node", "localhost"), ("pid", "42")]

/-- The profile written in the round of `envOneSample`. -/
def profOneSample : PprofProfile :=
  { SampleType := [{ Typ := "samples", Unit := "count" }],
    TimeNanos := 1000,
    DurationNanos := 1000,
    PeriodType := { Typ := "cpu", Unit := "nanoseconds" },
    Period := 10000000,
    Sample := [{ Location := [0, 1, 2], Value := [5] }],
    Location := [0, 1, 2],
    Mapping := [.kernelMapping],
    Function := [0] }

/-- The heap when the profile of `envOneSample` is written. -/
def heapOneSample : Heap :=
  { locations := [{ ID := 1, Mapping := some .kernelMapping, Address := 0xFFFF0100,
                    Line := [{ Function := some 0 }] },
                  { ID := 2, Mapping := none, Address := 0xA, Line := [] },
                  { ID := 3, Mapping := none, Address := 0xB, Line := [] }],
    functions := [{ ID := 1, Name := "schedule" }],
    kernelMapping := { ID := 1, Start := 0, Limit := 0, Offset := 0,
                       File := "[kernel.kallsyms]", BuildID := "" } }

/-- The location list of a sample built for `stack`, as claim C7 describes it: the locations
of the non-zero addresses of the kernel half `stack[stackDepth:]` in array order, looked up
under `(0, addr)`, then those of the non-zero addresses of the user half `stack[:stackDepth]`
in array order, looked up under `(pid, addr)`; as many locations as the stack has non-zero
addresses; and the object at position `j` is the one made for the key at position `j`. -/
def SampleLocationsOf (env : Env) (s : LoopState) (heap : Heap) (pid : PID)
    (stack : combinedStack) (sample : Sample) : Prop :=
  sample.Location.map some
      = ((stack.drop stackDepth).filter (fun a => decide (a ≠ 0))).map
          (fun a => locationOf s pid (0, a)) ++
        ((stack.take stackDepth).filter (fun a => decide (a ≠ 0))).map
          (fun a => locationOf s pid (pid, a)) ∧
    sample.Location.length = (stack.filter (fun a => decide (a ≠ 0))).length ∧
    ∀ (j : Nat) (key : Nat × Nat) (ptr : LocPtr), (stackKeys pid stack)[j]? = some key →
      sample.Location[j]? = some ptr → ∃ l, heap.locations[ptr]? = some l ∧ KeyOf env pid key l

/-- The pid marker of claim C4: 0 for a location made from the kernel half of a stack, which
is a location of the kernel mapping, and the pid of the sample for a location made from the
user half. -/
def pidMarker (pid : PID) (l : Location) : Nat :=
  if l.Mapping = some .kernelMapping then 0 else pid

/-- Claim C4 as it is stated, for the profile of `pid`: no two distinct locations of the
table share the pair of the pid marker and the emitted address. -/
def NoSharedMarkerAddress (pid : PID) (prof : PprofProfile) (heap : Heap) : Prop :=
  ∀ (i j : Nat) (pi pj : LocPtr) (li lj : Location),
    prof.Location[i]? = some pi → prof.Location[j]? = some pj →
    heap.locations[pi]? = some li → heap.locations[pj]? = some lj → i ≠ j →
    (pidMarker pid li, li.Address) ≠ (pidMarker pid lj, lj.Address)

/-- Claim C4 as amended, for the profile of `pid` emitted from the state `s`: every location
of the table was made for exactly one key `(pid marker, sampled address)` of
`locationIndices[pid]`, the key `(0, Address)` for a location of the kernel mapping and a
key `(pid, addr)` with `Address = normalizeAddress(m, pid, addr)` for any other; no key
belongs to two locations; and no two distinct locations of the kernel mapping share their
address. -/
def OneKeyPerLocation (env : Env) (s : LoopState) (pid : PID) (prof : PprofProfile)
    (heap : Heap) : Prop :=
  (∀ (i : Nat) (ptr : LocPtr) (l : Location), prof.Location[i]? = some ptr →
    heap.locations[ptr]? = some l →
    ∃ key, mapGet (mapGetD s.locationIndices pid) key = some i ∧ KeyOf env pid key l ∧
      ∀ key1, mapGet (mapGetD s.locationIndices pid) key1 = some i → key1 = key) ∧
  (∀ (key : Nat × Nat) (i j : Nat), mapGet (mapGetD s.locationIndices pid) key = some i →
    mapGet (mapGetD s.locationIndices pid) key = some j → i = j) ∧
  (∀ (i j : Nat) (pi pj : LocPtr) (li lj : Location),
    prof.Location[i]? = some pi → prof.Location[j]? = some pj →
    heap.locations[pi]? = some li → heap.locations[pj]? = some lj →
    li.Mapping = some .kernelMapping → lj.Mapping = some .kernelMapping →
    li.Address = lj.Address → i = j)

/-- A shared object mapped at `[0x1000, 0x2000)`. -/
def mappingLibA : Mapping :=
  { ID := 1, Start := 0x1000, Limit := 0x2000, Offset := 0, File := "/usr/lib/liba.so", BuildID := "a1" }

/-- A shared object mapped at `[0x5000, 0x6000)`. -/
def mappingLibB : Mapping :=
  { ID := 2, Start := 0x5000, Limit := 0x6000, Offset := 0, File := "/usr/lib/libb.so", BuildID := "b2" }

/-- Process 42 has the two shared objects mapped and one entry, with count 1, whose user stack
is `[0x1010, 0x5010, 0, ...]`: one address in each object, at the same offset `0x10`. The
object files translate an address to its offset in the object. -/
def envSameNormalized : Env :=
  { envBase with
    counts := [{ key := .ok { PID := 42, UserStackID := 1, KernelStackID := -14 }, value := .ok 1 }],
    readUserStack := fun _ st => (0x1010 :: 0x5010 :: st.drop 2, none),
    readKernelStack := fun _ st => (st, some { msg := "stack not found", unrecoverable := false }),
    PIDAddrMapping := fun _ addr =>
      if addr < 0x2000 then (some mappingLibA, none) else (some mappingLibB, none),
    AllMappings := [mappingLibA, mappingLibB],
    ObjectFileForProcess := fun _ m => .ok (fun addr => .ok (addr - m.Start + m.Offset)) }

/-- The profile written in the round of `envSameNormalized`. -/
def profSameNormalized : PprofProfile :=
  { SampleType := [{ Typ := "samples", Unit := "count" }],
    TimeNanos := 1000,
    DurationNanos := 1000,
    PeriodType := { Typ := "cpu", Unit := "nanoseconds" },
    Period := 10000000,
    Sample := [{ Location := [0, 1], Value := [1] }],
    Location := [0, 1],
    Mapping := [.user mappingLibA, .user mappingLibB, .kernelMapping],
    Function := [] }

/-- The heap when the profile of `envSameNormalized` is written: two locations, one per
sampled address, with the same emitted address `0x10`. -/
def heapSameNormalized : Heap :=
  { locations := [{ ID := 1, Mapping := some (.user mappingLibA), Address := 0x10, Line := [] },
                  { ID := 2, Mapping := some (.user mappingLibB), Address := 0x10, Line := [] }],
    functions := [],
    kernelMapping := { ID := 3, Start := 0, Limit := 0, Offset := 0,
                       File := "[kernel.kallsyms]", BuildID := "" } }

/-- Claim C5 as it is stated, for a profile: every value of every sample is not zero. -/
def AllValuesNonZero (prof : PprofProfile) : Prop :=
  ∀ sample ∈ prof.Sample, ∀ v ∈ sample.Value, v ≠ 0

/-- Claim C5 as amended, for the sample of `pid` and `stack`: some entry contributed to it,
every contributed count is a non-zero `uint64`, the single value of the sample is the sum of
the contributed counts as an `int64`, and the value is not zero when that sum is below
`2^64`. -/
def NonZeroValueOf (env : Env) (pid : PID) (stack : combinedStack) (sample : Sample) : Prop :=
  contributions env env.counts pid stack ≠ [] ∧
  (∀ c ∈ contributions env env.counts pid stack, c ≠ 0 ∧ c < 2 ^ 64) ∧
  sample.Value = [toInt64 (contributions env env.counts pid stack).sum] ∧
  ((contributions env env.counts pid stack).sum < 2 ^ 64 → ∀ v ∈ sample.Value, v ≠ 0)

/-- Claim C6 as it is stated, for the sample of `pid` and `stack`: its single value is the
sum of the contributed counts. -/
def ValueIsSum (env : Env) (pid : PID) (stack : combinedStack) (sample : Sample) : Prop :=
  sample.Value = [((contributions env env.counts pid stack).sum : Int)]

/-- Claim C6 as amended, for the sample of `pid` and `stack` in the state `s` in which the
drain loop ended: its single value is the sum of the contributed counts as an `int64`, which
is the sum itself when the sum is below `2^63`; and its location list is the one the sample
had after any number of entries at which it existed, so the one it was built with. -/
def ValueAndLocationsOf (env : Env) (pid : PID) (stack : combinedStack) (sample : Sample) :
    Prop :=
  sample.Value = [toInt64 (contributions env env.counts pid stack).sum] ∧
  ((contributions env env.counts pid stack).sum < 2 ^ 63 →
    sample.Value = [((contributions env env.counts pid stack).sum : Int)]) ∧
  ∀ (pre post : List CountsEntry) (s0 : LoopState) (sample0 : Sample),
    env.counts = pre ++ post → drain env LoopState.init pre = .ok s0 →
    mapGet (mapGetD s0.allSamples pid) stack = some sample0 →
    sample.Location = sample0.Location

/-- A host on which the user stack with id 1 is `[0xA, 0xB, 0, ...]` and no kernel stack can
be read, with the given entries in the counts map. -/
def envUserOnly (counts : List CountsEntry) : Env :=
  { envBase with
    counts := counts,
    readUserStack := fun id st =>
      if id = 1 then (0xA :: 0xB :: st.drop 2, none)
      else (st, some { msg := "stack not found", unrecoverable := false }),
    readKernelStack := fun _ st => (st, some { msg := "stack not found", unrecoverable := false }) }

/-- The combined stack of the entries of `envUserOnly` with user stack id 1. -/
def stackUserOnly : combinedStack :=
  0xA :: 0xB :: List.replicate 252 0

/-- Two entries of process 42 with the same user stack and different failed kernel stack ids,
each with count `2^63`. -/
def envOverflow : Env :=
  envUserOnly
    [{ key := .ok { PID := 42, UserStackID := 1, KernelStackID := -14 }, value := .ok (2 ^ 63) },
     { key := .ok { PID := 42, UserStackID := 1, KernelStackID := -17 }, value := .ok (2 ^ 63) }]

/-- One entry of process 42 with count `2^63`. -/
def envHuge : Env :=
  envUserOnly
    [{ key := .ok { PID := 42, UserStackID := 1, KernelStackID := -14 }, value := .ok (2 ^ 63) }]

/-- Two entries of process 42 with the same user stack and different failed kernel stack ids,
with counts 2 and 3. -/
def envAggregate : Env :=
  envUserOnly
    [{ key := .ok { PID := 42, UserStackID := 1, KernelStackID := -14 }, value := .ok 2 },
     { key := .ok { PID := 42, UserStackID := 1, KernelStackID := -17 }, value := .ok 3 }]

/-- The profile written in a round of `envUserOnly` whose single sample has the given
value. -/
def profUserOnly (value : Int) : PprofProfile :=
  { SampleType := [{ Typ := "samples", Unit := "count" }],
    TimeNanos := 1000,
    DurationNanos := 1000,
    PeriodType := { Typ := "cpu", Unit := "nanoseconds" },
    Period := 10000000,
    Sample := [{ Location := [0, 1], Value := [value] }],
    Location := [0, 1],
    Mapping := [.kernelMapping],
    Function := [] }

/-- The heap when the profile of a round of `envUserOnly` is written. -/
def heapUserOnly : Heap :=
  { locations := [{ ID := 1, Mapping := none, Address := 0xA, Line := [] },
                  { ID := 2, Mapping := none, Address := 0xB, Line := [] }],
    functions := [],
    kernelMapping := { ID := 1, Start := 0, Limit := 0, Offset := 0,
                       File := "[kernel.kallsyms]", BuildID := "" } }

/-- The result of the call `p.bpfMaps.readUserStack(key.UserStackID, &stack)` of the loop
body, on the fresh stack: the stack after the call and the error. -/
def userRead (env : Env) (key : stackCountKey) : combinedStack × Option Error :=
  env.readUserStack key.UserStackID (List.replicate doubleStackDepth 0)

/-- The result of the call `p.bpfMaps.readKernelStack(key.KernelStackID, &stack)` of the loop
body, which follows the read of the user stack. -/
def kernelRead (env : Env) (key : stackCountKey) : combinedStack × Option Error :=
  env.readKernelStack key.KernelStackID (userRead env key).1

/-- The key of an entry of process 42. -/
def key42 : stackCountKey :=
  { PID := 42, UserStackID := 1, KernelStackID := 2 }

/-- An entry of process 42 with count 5. -/
def entry42 : CountsEntry :=
  { key := .ok key42, value := .ok 5 }

/-- The stack traces map has become invalid: the read of the user stack of the only entry
fails with an error that wraps `errUnrecoverable`. -/
def envUnrecoverable : Env :=
  { envBase with
    counts := [entry42],
    readUserStack := fun _ st => (st, some (errUnrecoverable.wrap "read user stack bytes")) }

/-- The user stack of the only entry is read, the read of its kernel stack fails with an error
that is not unrecoverable. -/
def envKernelMissing : Env :=
  { envBase with
    counts := [entry42],
    readUserStack := fun _ st => (0xA :: 0xB :: st.drop 2, none),
    readKernelStack := fun _ st => (st, some { msg := "stack not found", unrecoverable := false }) }

/-- Claim C13 as it is stated, for a sample: no location of its list was made from the user
half of a stack, that is, every location of the list is a location of the kernel mapping. -/
def UserPortionEmpty (heap : Heap) (sample : Sample) : Prop :=
  ∀ ptr ∈ sample.Location, ∀ l, heap.locations[ptr]? = some l → l.Mapping = some .kernelMapping

/-- Claim C13 as amended, for the sample of `pid` built from `stack`, with the tables of the
state `s` in which the drain loop ended:

* a zero is skipped and does not end the user half: every non-zero address of
  `stack[:stackDepth]`, wherever it stands, has its location in the list, the object made for
  the key `(pid, addr)`;
* when `stack[:stackDepth]` holds only zeros, the list is the list of the locations found
  under the keys `(0, addr)` of the non-zero addresses of the kernel half `stack[stackDepth:]`,
  in array order;
* for a pid other than 0, no location of the list was made from the user half if and only if
  `stack[:stackDepth]` holds only zeros. -/
def UserPortionOf (env : Env) (s : LoopState) (heap : Heap) (pid : PID) (stack : combinedStack)
    (sample : Sample) : Prop :=
  (∀ a ∈ stack.take stackDepth, a ≠ 0 →
    ∃ ptr ∈ sample.Location, locationOf s pid (pid, a) = some ptr ∧
      ∃ l, heap.locations[ptr]? = some l ∧ KeyOf env pid (pid, a) l) ∧
  ((∀ a ∈ stack.take stackDepth, a = 0) →
    sample.Location.map some
      = ((stack.drop stackDepth).filter (fun a => decide (a ≠ 0))).map
          (fun a => locationOf s pid (0, a))) ∧
  (pid ≠ 0 → (UserPortionEmpty heap sample ↔ ∀ a ∈ stack.take stackDepth, a = 0))

/-- The only entry, of process 42, has the user stack `[0, 0xB, 0, ...]`, whose first address
is zero, and no kernel stack. -/
def envZeroFirst : Env :=
  { envBase with
    counts := [entry42],
    readUserStack := fun _ st => (0 :: 0xB :: st.drop 2, none),
    readKernelStack := fun _ st => (st, some { msg := "stack not found", unrecoverable := false }) }

/-- The combined stack of the entry of `envZeroFirst`. -/
def stackZeroFirst : combinedStack :=
  0 :: 0xB :: List.replicate 252 0

/-- The profile written in the round of `envZeroFirst`. -/
def profZeroFirst : PprofProfile :=
  { SampleType := [{ Typ := "samples", Unit := "count" }],
    TimeNanos := 1000,
    DurationNanos := 1000,
    PeriodType := { Typ := "cpu", Unit := "nanoseconds" },
    Period := 10000000,
    Sample := [{ Location := [0], Value := [5] }],
    Location := [0],
    Mapping := [.kernelMapping],
    Function := [] }

/-- The heap when the profile of `envZeroFirst` is written: one location, made from the user
half for the address `0xB`. -/
def heapZeroFirst : Heap :=
  { locations := [{ ID := 1, Mapping := none, Address := 0xB, Line := [] }],
    functions := [],
    kernelMapping := { ID := 1, Start := 0, Limit := 0, Offset := 0,
                       File := "[kernel.kallsyms]", BuildID := "" } }

/-- Process 42 has two entries: the first has no user stack and the kernel stack
`[0xFFFF0100, 0, ...]`, the second has the user stack `[0, 0xB, 0, ...]` and no kernel
stack. -/
def envTwoHalves : Env :=
  { envBase with
    counts := [{ key := .ok { PID := 42, UserStackID := -14, KernelStackID := 2 }, value := .ok 5 },
               { key := .ok { PID := 42, UserStackID := 1, KernelStackID := -14 }, value := .ok 3 }],
    readUserStack := fun id st =>
      if id = 1 then (0 :: 0xB :: st.drop 2, none)
      else (st, some { msg := "stack not found", unrecoverable := false }),
    readKernelStack := fun id st =>
      if id = 2 then (st.take stackDepth ++ 0xFFFF0100 :: st.drop (stackDepth + 1), none)
      else (st, some { msg := "stack not found", unrecoverable := false }) }

/-- The combined stack of the first entry of `envTwoHalves`: the user half holds only
zeros. -/
def stackKernelOnly : combinedStack :=
  List.replicate stackDepth 0 ++ 0xFFFF0100 :: List.replicate 126 0

/-- The sample of `stackKernelOnly` in the round of `envTwoHalves`. -/
def sampleKernelOnly : Sample :=
  { Location := [0], Value := [5] }

/-- The sample of `stackZeroFirst` in the round of `envTwoHalves`. -/
def sampleZeroFirst : Sample :=
  { Location := [1], Value := [3] }

/-- The profile written in the round of `envTwoHalves`. -/
def profTwoHalves : PprofProfile :=
  { SampleType := [{ Typ := "samples", Unit := "count" }],
    TimeNanos := 1000,
    DurationNanos := 1000,
    PeriodType := { Typ := "cpu", Unit := "nanoseconds" },
    Period := 10000000,
    Sample := [sampleKernelOnly, sampleZeroFirst],
    Location := [0, 1],
    Mapping := [.kernelMapping],
    Function := [0] }

/-- The heap when the profile of `envTwoHalves` is written: the location of the kernel
address, then the location made from the user half for `0xB`. -/
def heapTwoHalves : Heap :=
  { locations := [{ ID := 1, Mapping := some .kernelMapping, Address := 0xFFFF0100,
                    Line := [{ Function := some 0 }] },
                  { ID := 2, Mapping := none, Address := 0xB, Line := [] }],
    functions := [{ ID := 1, Name := "schedule" }],
    kernelMapping := { ID := 1, Start := 0, Limit := 0, Offset := 0,
                       File := "[kernel.kallsyms]", BuildID := "" } }

/-- The process list holds a process with pid 0, which has two entries: the first has the
user stack `[0xA, 0, ...]` and no kernel stack, the second has no user stack and the kernel
stack `[0xA, 0, ...]`. -/
def envPidZero : Env :=
  { envBase with
    processes := [{ PID := 0, Exec := "app", Path := "/usr/bin/app", BuildVersion := "go1.17" }],
    counts := [{ key := .ok { PID := 0, UserStackID := 1, KernelStackID := -14 }, value := .ok 5 },
               { key := .ok { PID := 0, UserStackID := -14, KernelStackID := 2 }, value := .ok 3 }],
    readUserStack := fun id st =>
      if id = 1 then (0xA :: st.drop 1, none)
      else (st, some { msg := "stack not found", unrecoverable := false }),
    readKernelStack := fun id st =>
      if id = 2 then (st.take stackDepth ++ 0xA :: st.drop (stackDepth + 1), none)
      else (st, some { msg := "stack not found", unrecoverable := false }) }

/-- The combined stack of the second entry of `envPidZero`: the user half holds only zeros. -/
def stackPidZero : combinedStack :=
  List.replicate stackDepth 0 ++ 0xA :: List.replicate 126 0

/-- The labels of the profile written in the round of `envPidZero`. -/
def labelsPidZero : GoMap String String :=
  [("__name__", "tiny_profiler_cpu"), ("node", "localhost"), ("pid", "0")]

/-- The profile written in the round of `envPidZero`. -/
def profPidZero : PprofProfile :=
  { SampleType := [{ Typ := "samples", Unit := "count" }],
    TimeNanos := 1000,
    DurationNanos := 1000,
    PeriodType := { Typ := "cpu", Unit := "nanoseconds" },
    Period := 10000000,
    Sample := [{ Location := [0], Value := [5] }, { Location := [0], Value := [3] }],
    Location := [0],
    Mapping := [.kernelMapping],
    Function := [] }

/-- The heap when the profile of `envPidZero` is written: one location, made by the user
walk of the first entry under the key `(0, 0xA)`. -/
def heapPidZero : Heap :=
  { locations := [{ ID := 1, Mapping := none, Address := 0xA, Line := [] }],
    functions := [],
    kernelMapping := { ID := 1, Start := 0, Limit := 0, Offset := 0,
                       File := "[kernel.kallsyms]", BuildID := "" } }

/-- The enumerator returned the two live processes 42 and 7 in this order, and the counts map
holds one entry of process 42. -/
def envUnsorted : Env :=
  { envBase with
    processes := [{ PID := 42, Exec := "app", Path := "/usr/bin/app", BuildVersion := "go1.17" },
                  { PID := 7, Exec := "agent", Path := "/usr/bin/agent", BuildVersion := "go1.17" }],
    counts := [entry42],
    readUserStack := fun _ st => (0xA :: 0xB :: st.drop 2, none),
    readKernelStack := fun _ st => (st, some { msg := "stack not found", unrecoverable := false }) }

/-! ## Statements and proofs -/

set_option maxRecDepth 8000

/-- C1 (the code departs from the claim). A round whose `profileLoop` returned an error
still advances the pair: `loopReport` gets the `err` of the function scope of Run, which is
nil once the loop is reached, not the error of the round. -/
theorem Run_failed_round_advances (p : Clock) (e : Error) (now : Nat) (ctxErr : Error) :
    (Run bootOk p [{ profileLoopErr := some e, now := now }] ctxErr).2.1
      = { loopStartedAt := now, lastSuccessfulLoopStartedAt := p.loopStartedAt } := by
  rfl

/-- C2 (the code departs from the claim). A round that drains the counts map, returns no
error and builds no sample (the only entry belongs to a pid that is not in the process list,
or has count zero) does not call `clean`: the call sits inside the loop over `allSamples`. -/
theorem profileLoop_no_clean_without_samples :
    ((profileLoop envAbsentPid).err = none ∧ Event.clean ∉ (profileLoop envAbsentPid).trace) ∧
    ((profileLoop envZeroCount).err = none ∧ Event.clean ∉ (profileLoop envZeroCount).trace) := by
  decide


theorem lookupOrCreateFunction_kernelMapping (syms : GoMap Nat String) (fns : GoMap Nat FuncPtr)
    (h : Heap) (a : Nat) :
    (lookupOrCreateFunction syms fns h a).2.2.kernelMapping = h.kernelMapping := by
  unfold lookupOrCreateFunction
  split <;> rfl

theorem lookupOrCreateFunction_locations (syms : GoMap Nat String) (fns : GoMap Nat FuncPtr)
    (h : Heap) (a : Nat) :
    (lookupOrCreateFunction syms fns h a).2.2.locations = h.locations := by
  unfold lookupOrCreateFunction
  split <;> rfl

theorem resolveStep_kernelMapping {syms : GoMap Nat String} {fns fns1 : GoMap Nat FuncPtr}
    {h h1 : Heap} {kloc : LocPtr} (hs : resolveStep syms fns h kloc = .ok (fns1, h1)) :
    h1.kernelMapping = h.kernelMapping := by
  unfold resolveStep at hs
  split at hs
  · cases hs
  · dsimp only at hs
    split at hs
    · injection hs with hs
      injection hs with _ hs
      rw [← hs]
      exact lookupOrCreateFunction_kernelMapping _ _ _ _
    · injection hs with hs
      injection hs with _ hs
      rw [← hs]
      exact lookupOrCreateFunction_kernelMapping _ _ _ _

theorem resolveLoop_kernelMapping (syms : GoMap Nat String) (klocs : List LocPtr) :
    ∀ (fns fns1 : GoMap Nat FuncPtr) (h h1 : Heap),
      resolveLoop syms fns h klocs = .ok (fns1, h1) → h1.kernelMapping = h.kernelMapping := by
  induction klocs with
  | nil =>
    intro fns fns1 h h1 hs
    simp only [resolveLoop] at hs
    injection hs with hs
    injection hs with _ hs
    rw [hs]
  | cons kloc rest ih =>
    intro fns fns1 h h1 hs
    simp only [resolveLoop] at hs
    split at hs
    · rename_i fns2 h2 hstep
      rw [ih _ _ _ _ hs, resolveStep_kernelMapping hstep]
    · cases hs

theorem resolveKernelFunctions_kernelMapping {env : Env} {h h1 : Heap} {klocs : List LocPtr}
    {fns : GoMap Nat FuncPtr} (hs : resolveKernelFunctions env h klocs = .ok (fns, h1)) :
    h1.kernelMapping = h.kernelMapping := by
  unfold resolveKernelFunctions at hs
  split at hs
  · cases hs
  · split at hs
    · cases hs
    · exact resolveLoop_kernelMapping _ _ _ _ _ _ hs

theorem assignFunctionIDs_kernelMapping (entries : List (Nat × FuncPtr)) :
    ∀ (fs fs1 : List Nat) (h h1 : Heap),
      assignFunctionIDs fs h entries = .ok (fs1, h1) → h1.kernelMapping = h.kernelMapping := by
  induction entries with
  | nil =>
    intro fs fs1 h h1 hs
    simp only [assignFunctionIDs] at hs
    injection hs with hs
    injection hs with _ hs
    rw [hs]
  | cons e rest ih =>
    intro fs fs1 h h1 hs
    obtain ⟨a, f⟩ := e
    simp only [assignFunctionIDs] at hs
    split at hs
    · cases hs
    · split at hs
      · cases hs
      · have e := ih _ _ _ _ hs
        simpa using e

theorem appendKernelMapping_spec (h : Heap) (ms : List MappingPtr) (t : MappingPtr) :
    ∃ last, (appendKernelMapping h ms t).1 = ms ++ [last] ∧
      (derefMapping (appendKernelMapping h ms t).2 last).ID = ms.length + 1 ∧
      (derefMapping (appendKernelMapping h ms t).2 last).File = (derefMapping h t).File ∧
      (t = .kernelMapping → last = .kernelMapping) := by
  cases t with
  | kernelMapping => exact ⟨.kernelMapping, rfl, rfl, rfl, fun _ => rfl⟩
  | user m => exact ⟨_, rfl, rfl, rfl, fun ht => by cases ht⟩

/-- C8. In every profile returned by `pprofProfile` the last element of `prof.Mapping` is
the kernel mapping handed over in `pr.kernelMapping`, the mappings before it are the user
mappings, its ID is `len(prof.Mapping)`, that is `len(pr.userMappings) + 1`, and its file
name is unchanged (`[kernel.kallsyms]` in a round). -/
theorem pprofProfile_kernel_mapping_last (env : Env) (h h1 : Heap) (pr : Profile)
    (prof : PprofProfile) (hp : pprofProfile env h pr = .ok (prof, h1)) :
    ∃ last, prof.Mapping = pr.userMappings.map MappingPtr.user ++ [last] ∧
      prof.Mapping.getLast? = some last ∧
      (pr.kernelMapping = .kernelMapping → last = .kernelMapping) ∧
      (derefMapping h1 last).ID = prof.Mapping.length ∧
      prof.Mapping.length = pr.userMappings.length + 1 ∧
      (derefMapping h1 last).File = (derefMapping h pr.kernelMapping).File := by
  unfold pprofProfile at hp
  dsimp only at hp
  obtain ⟨last, hl1, hl2, hl3, hl4⟩ :=
    appendKernelMapping_spec h (pr.userMappings.map MappingPtr.user) pr.kernelMapping
  split at hp
  · cases hp
  · cases hp
  · rename_i fns h2 hres
    split at hp
    · cases hp
    · rename_i fs h3 hassign
      injection hp with hp
      injection hp with hprof hh
      subst hprof hh
      have e1 := assignFunctionIDs_kernelMapping _ _ _ _ _ hassign
      have e2 := resolveKernelFunctions_kernelMapping hres
      have e3 : ∀ m, derefMapping h3 m
          = derefMapping (appendKernelMapping h (pr.userMappings.map MappingPtr.user) pr.kernelMapping).2 m := by
        intro m
        cases m with
        | kernelMapping => simp [derefMapping, e1, e2]
        | user m => rfl
      refine ⟨last, ?_, ?_, hl4, ?_, ?_, ?_⟩
      · simpa using hl1
      · simp [hl1]
      · rw [e3]
        simp [hl1, hl2]
      · simp [hl1]
      · rw [e3]
        exact hl3

/-- C8, at the profile of two kernel locations and one user mapping: the profile is returned
and its two mappings end with the kernel mapping. -/
theorem pprofProfile_kernel_mapping_last_witness :
    ∃ prof h1, pprofProfile envBase heapTwoKernel profileTwoKernel = .ok (prof, h1) ∧
      ∃ last, prof.Mapping = profileTwoKernel.userMappings.map MappingPtr.user ++ [last] ∧
        prof.Mapping.getLast? = some last ∧
        (profileTwoKernel.kernelMapping = .kernelMapping → last = .kernelMapping) ∧
        (derefMapping h1 last).ID = prof.Mapping.length ∧
        prof.Mapping.length = profileTwoKernel.userMappings.length + 1 ∧
        (derefMapping h1 last).File = (derefMapping heapTwoKernel profileTwoKernel.kernelMapping).File :=
  ⟨_, _, rfl, pprofProfile_kernel_mapping_last envBase heapTwoKernel _ profileTwoKernel _ rfl⟩


/-- C10 (the claim fails as stated). `Write` lists the labels in the order in which the range
statement visits the map and does not sort them: when the range visits `node` before
`__name__`, the label set of the request is `node`, `__name__`, which is not ascending. -/
theorem RemoteProfileWriter_Write_labels_unsorted :
    ∃ req, (RemoteProfileWriter.Write (.ok [31, 139]) (fun _ => none) labelsNodeFirst).2 = [req] ∧
      ∃ series, req.Series = [series] ∧
        series.Labels.map Label.Name = ["node", "__name__"] ∧
        ¬ (series.Labels.map Label.Name).Pairwise (fun a b => a < b) := by
  refine ⟨_, rfl, _, rfl, rfl, ?_⟩
  show ¬ List.Pairwise (fun a b : String => a < b) ["node", "__name__"]
  intro hp
  have hlt : ("node" : String) < "__name__" := by
    simpa using List.rel_of_pairwise_cons hp (List.mem_singleton.mpr rfl)
  rw [String.lt_iff_toList_lt] at hlt
  exact absurd hlt (by decide)

theorem profileLabels_eq_map (labels : GoMap String String) :
    profileLabels labels = labels.map (fun kv => { Name := kv.1, Value := kv.2 }) := by
  induction labels with
  | nil => rfl
  | cons kv rest ih =>
    obtain ⟨k, v⟩ := kv
    simp [profileLabels, ih]

/-- C10 (amended). When the profile is serialized, `Write` sends exactly one `WriteRaw`
request, with `Normalized = true` and one series holding one raw sample (the serialized
bytes); the label set of the series has one Label per entry of the label map, in the order
in which the range statement visits the map. When serialization fails nothing is sent. -/
theorem RemoteProfileWriter_Write_one_request (bytes : List Nat) (err : Error)
    (WriteRaw : WriteRawRequest → Option Error) (labels : GoMap String String) :
    (∃ req, RemoteProfileWriter.Write (.ok bytes) WriteRaw labels = (WriteRaw req, [req]) ∧
      req.Normalized = true ∧
      ∃ series, req.Series = [series] ∧
        series.Samples = [{ RawProfile := bytes }] ∧
        series.Labels = labels.map (fun kv => { Name := kv.1, Value := kv.2 }) ∧
        series.Labels.length = labels.length) ∧
    RemoteProfileWriter.Write (.error err) WriteRaw labels = (some err, []) := by
  refine ⟨⟨_, rfl, rfl, _, rfl, rfl, ?_, ?_⟩, rfl⟩
  · exact profileLabels_eq_map labels
  · simp [profileLabels_eq_map]

/-! ### Go maps -/

theorem mapGet_mapSet_self {κ ν : Type} [DecidableEq κ] (m : GoMap κ ν) (k : κ) (v : ν) :
    mapGet (mapSet m k v) k = some v := by
  induction m with
  | nil => simp [mapSet, mapGet]
  | cons e m ih =>
    obtain ⟨k1, w⟩ := e
    by_cases hk : k1 = k
    · simp [mapSet, mapGet, hk]
    · simp [mapSet, mapGet, hk, ih]

theorem mapGet_mapSet_ne {κ ν : Type} [DecidableEq κ] (m : GoMap κ ν) {k x : κ} (v : ν)
    (hne : k ≠ x) : mapGet (mapSet m k v) x = mapGet m x := by
  induction m with
  | nil => simp [mapSet, mapGet, hne]
  | cons e m ih =>
    obtain ⟨k1, w⟩ := e
    by_cases hk : k1 = k
    · subst hk
      simp [mapSet, mapGet, hne]
    · by_cases hx : k1 = x
      · subst hx
        simp [mapSet, mapGet, hk]
      · simp [mapSet, mapGet, hk, hx, ih]

theorem mapGet_mapSet {κ ν : Type} [DecidableEq κ] (m : GoMap κ ν) (k x : κ) (v : ν) :
    mapGet (mapSet m k v) x = if k = x then some v else mapGet m x := by
  by_cases hk : k = x
  · subst hk
    simp [mapGet_mapSet_self]
  · simp [hk, mapGet_mapSet_ne m v hk]

theorem mapGetD_mapSet_self {κ ν : Type} [DecidableEq κ] (m : GoMap κ (List ν)) (k : κ)
    (v : List ν) : mapGetD (mapSet m k v) k = v := by
  simp [mapGetD, mapGet_mapSet_self]

theorem mapGetD_mapSet_ne {κ ν : Type} [DecidableEq κ] (m : GoMap κ (List ν)) {k x : κ}
    (v : List ν) (hne : k ≠ x) : mapGetD (mapSet m k v) x = mapGetD m x := by
  simp [mapGetD, mapGet_mapSet_ne m v hne]

theorem mapGet_eq_none_iff {κ ν : Type} [DecidableEq κ] (m : GoMap κ ν) (x : κ) :
    mapGet m x = none ↔ x ∉ m.map Prod.fst := by
  induction m with
  | nil => simp [mapGet]
  | cons e m ih =>
    obtain ⟨k1, w⟩ := e
    by_cases hk : k1 = x
    · simp [mapGet, hk]
    · have hk2 : ¬ x = k1 := fun h => hk h.symm
      simp [mapGet, hk, hk2, ih]

theorem keys_mapSet_of_none {κ ν : Type} [DecidableEq κ] (m : GoMap κ ν) (k : κ) (v : ν)
    (hn : mapGet m k = none) : (mapSet m k v).map Prod.fst = m.map Prod.fst ++ [k] := by
  induction m with
  | nil => simp [mapSet]
  | cons e m ih =>
    obtain ⟨k1, w⟩ := e
    by_cases hk : k1 = k
    · simp [mapGet, hk] at hn
    · simp only [mapGet, hk, if_false] at hn
      simp [mapSet, hk, ih hn]

theorem keys_mapSet_of_some {κ ν : Type} [DecidableEq κ] (m : GoMap κ ν) (k : κ) (v w : ν)
    (hs : mapGet m k = some w) : (mapSet m k v).map Prod.fst = m.map Prod.fst := by
  induction m with
  | nil => simp [mapGet] at hs
  | cons e m ih =>
    obtain ⟨k1, w1⟩ := e
    by_cases hk : k1 = k
    · simp [mapSet, hk]
    · simp only [mapGet, hk, if_false] at hs
      simp [mapSet, hk, ih hs]

theorem mapGet_of_mem {κ ν : Type} [DecidableEq κ] (m : GoMap κ ν) (k : κ) (v : ν)
    (hnd : (m.map Prod.fst).Nodup) (hm : (k, v) ∈ m) : mapGet m k = some v := by
  induction m with
  | nil => simp at hm
  | cons e m ih =>
    obtain ⟨k1, w⟩ := e
    simp only [List.map_cons, List.nodup_cons] at hnd
    rcases List.mem_cons.mp hm with heq | hmem
    · injection heq with h1 h2
      subst h1 h2
      simp [mapGet]
    · have hne : k1 ≠ k := by
        intro h
        subst h
        exact hnd.1 (List.mem_map.mpr ⟨(k1, v), hmem, rfl⟩)
      simp [mapGet, hne, ih hnd.2 hmem]

theorem mem_of_mapGet {κ ν : Type} [DecidableEq κ] (m : GoMap κ ν) (k : κ) (v : ν)
    (hg : mapGet m k = some v) : (k, v) ∈ m := by
  induction m with
  | nil => simp [mapGet] at hg
  | cons e m ih =>
    obtain ⟨k1, w⟩ := e
    by_cases hk : k1 = k
    · simp only [mapGet, hk, if_true] at hg
      injection hg with hg
      subst hk hg
      exact List.mem_cons_self _ _
    · simp only [mapGet, hk, if_false] at hg
      exact List.mem_cons_of_mem _ (ih hg)

/-! ### Kernel symbolization -/

theorem resolveStep_cases {syms : GoMap Nat String} {fns fns1 : GoMap Nat FuncPtr}
    {h h1 : Heap} {kloc : LocPtr} (hs : resolveStep syms fns h kloc = .ok (fns1, h1)) :
    ∃ l, h.locations[kloc]? = some l ∧
      ((∃ f, mapGet fns l.Address = some (some f) ∧ fns1 = fns ∧
          h1 = { h with locations := h.locations.set kloc { l with Line := [{ Function := some f }] } }) ∨
       (mapGet fns l.Address = some none ∧ fns1 = fns ∧ h1 = h) ∨
       (mapGet fns l.Address = none ∧ fns1 = mapSet fns l.Address (some h.functions.length) ∧
          h1 = { locations := h.locations.set kloc
                   { l with Line := [{ Function := some h.functions.length }] },
                 functions := h.functions ++ [{ ID := 0, Name := functionName syms l.Address }],
                 kernelMapping := h.kernelMapping })) := by
  unfold resolveStep at hs
  split at hs
  · cases hs
  · rename_i l hl
    refine ⟨l, hl, ?_⟩
    dsimp only at hs
    unfold lookupOrCreateFunction at hs
    cases hg : mapGet fns l.Address with
    | none =>
      simp only [hg] at hs
      injection hs with hs
      injection hs with e1 e2
      exact Or.inr (Or.inr ⟨rfl, e1.symm, e2.symm⟩)
    | some f =>
      cases f with
      | none =>
        simp only [hg] at hs
        injection hs with hs
        injection hs with e1 e2
        exact Or.inr (Or.inl ⟨rfl, e1.symm, e2.symm⟩)
      | some i =>
        simp only [hg] at hs
        injection hs with hs
        injection hs with e1 e2
        exact Or.inl ⟨i, rfl, e1.symm, e2.symm⟩

theorem lt_length_of_getElem? {α : Type} {l : List α} {i : Nat} {a : α} (h : l[i]? = some a) :
    i < l.length := by
  by_contra hc
  rw [List.getElem?_eq_none (Nat.le_of_not_lt hc)] at h
  cases h

theorem eraseLine_set (ls : List Location) (kloc : Nat) (l : Location) (line : List Line)
    (hl : ls[kloc]? = some l) (p : Nat) :
    ((ls.set kloc { l with Line := line })[p]?).map Location.eraseLine
      = (ls[p]?).map Location.eraseLine := by
  by_cases hp : kloc = p
  · subst hp
    rw [List.getElem?_set_self (lt_length_of_getElem? hl), hl]
    rfl
  · rw [List.getElem?_set_ne hp]

theorem Resolved_set {fns : GoMap Nat FuncPtr} {h : Heap} {kloc : Nat} {l : Location}
    {f : Nat} {fs : List Function} (hl : h.locations[kloc]? = some l)
    (hf : mapGet fns l.Address = some (some f)) (p : Nat) (hp : p = kloc ∨ Resolved fns h p) :
    Resolved fns
      { locations := h.locations.set kloc { l with Line := [{ Function := some f }] },
        functions := fs, kernelMapping := h.kernelMapping } p := by
  by_cases hpk : kloc = p
  · subst hpk
    refine ⟨{ l with Line := [{ Function := some f }] }, f, ?_, rfl, hf⟩
    exact List.getElem?_set_self (lt_length_of_getElem? hl)
  · rcases hp with hp | hp
    · exact absurd hp.symm hpk
    · obtain ⟨l1, f1, h1, h2, h3⟩ := hp
      refine ⟨l1, f1, ?_, h2, h3⟩
      dsimp only
      rw [List.getElem?_set_ne hpk]
      exact h1

theorem Resolved_mono {fns fns1 : GoMap Nat FuncPtr} {h : Heap} {p : Nat}
    (hext : ∀ a f, mapGet fns a = some f → mapGet fns1 a = some f) (hr : Resolved fns h p) :
    Resolved fns1 h p := by
  obtain ⟨l1, f1, h1, h2, h3⟩ := hr
  exact ⟨l1, f1, h1, h2, hext _ _ h3⟩

theorem resolveStep_inv {syms : GoMap Nat String} {fns fns1 : GoMap Nat FuncPtr}
    {h h1 : Heap} {kloc : LocPtr} (hinv : ResolveInv syms fns h)
    (hs : resolveStep syms fns h kloc = .ok (fns1, h1)) :
    ResolveInv syms fns1 h1 ∧ Resolved fns1 h1 kloc ∧
      (∀ p : Nat, Resolved fns h p → Resolved fns1 h1 p) ∧
      SameSkeleton h h1 ∧
      (∀ a, a ∈ fns1.map Prod.fst ↔
        a ∈ fns.map Prod.fst ∨ ∃ l, h.locations[kloc]? = some l ∧ l.Address = a) := by
  obtain ⟨l, hl, hc⟩ := resolveStep_cases hs
  rcases hc with ⟨f, hg, e1, e2⟩ | ⟨hg, _, _⟩ | ⟨hg, e1, e2⟩
  · subst e1 e2
    refine ⟨⟨hinv.named, hinv.inj, hinv.nodup⟩, ?_, ?_, ?_, ?_⟩
    · exact Resolved_set hl hg kloc (Or.inl rfl)
    · intro p hp
      exact Resolved_set hl hg p (Or.inr hp)
    · intro p
      exact eraseLine_set _ _ _ _ hl p
    · intro a
      constructor
      · intro ha
        exact Or.inl ha
      · rintro (ha | ⟨l2, hl2, ha⟩)
        · exact ha
        · rw [hl] at hl2
          injection hl2 with hl2
          subst hl2 ha
          by_contra hc
          rw [← mapGet_eq_none_iff, hg] at hc
          cases hc
  · obtain ⟨i, fn, hcontra, _, _⟩ := hinv.named _ _ hg
    cases hcontra
  · subst e1 e2
    have hext : ∀ a f, mapGet fns a = some f →
        mapGet (mapSet fns l.Address (some h.functions.length)) a = some f := by
      intro a f ha
      rw [mapGet_mapSet]
      by_cases hk : l.Address = a
      · subst hk
        rw [hg] at ha
        cases ha
      · simp [hk, ha]
    refine ⟨⟨?_, ?_, ?_⟩, ?_, ?_, ?_, ?_⟩
    · intro a f ha
      rw [mapGet_mapSet] at ha
      by_cases hk : l.Address = a
      · subst hk
        simp only [if_true] at ha
        injection ha with ha
        exact ⟨h.functions.length, _, ha.symm, List.getElem?_concat_length _ _, rfl⟩
      · simp only [hk, if_false] at ha
        obtain ⟨i, fn, e1, e2, e3⟩ := hinv.named a f ha
        refine ⟨i, fn, e1, ?_, e3⟩
        dsimp only
        rw [List.getElem?_append_left (lt_length_of_getElem? e2)]
        exact e2
    · intro a b f ha hb
      rw [mapGet_mapSet] at ha hb
      by_cases hka : l.Address = a
      · by_cases hkb : l.Address = b
        · exact hka.symm.trans hkb
        · simp only [hka, if_true] at ha
          simp only [hkb, if_false] at hb
          obtain ⟨i, fn, e1, e2, _⟩ := hinv.named b f hb
          injection ha with ha
          subst ha
          injection e1 with e1
          have hlt := lt_length_of_getElem? e2
          omega
      · by_cases hkb : l.Address = b
        · simp only [hkb, if_true] at hb
          simp only [hka, if_false] at ha
          obtain ⟨i, fn, e1, e2, _⟩ := hinv.named a f ha
          injection hb with hb
          subst hb
          injection e1 with e1
          have hlt := lt_length_of_getElem? e2
          omega
        · simp only [hka, if_false] at ha
          simp only [hkb, if_false] at hb
          exact hinv.inj a b f ha hb
    · rw [keys_mapSet_of_none _ _ _ hg]
      have hnot := (mapGet_eq_none_iff fns l.Address).mp hg
      exact List.Nodup.append hinv.nodup (List.nodup_singleton _)
        (by
          intro x hx1 hx2
          rw [List.mem_singleton] at hx2
          subst hx2
          exact hnot hx1)
    · exact Resolved_set hl (mapGet_mapSet_self _ _ _) kloc (Or.inl rfl)
    · intro p hp
      exact Resolved_set hl (mapGet_mapSet_self _ _ _) p (Or.inr (Resolved_mono hext hp))
    · intro p
      exact eraseLine_set _ _ _ _ hl p
    · intro a
      rw [keys_mapSet_of_none _ _ _ hg]
      constructor
      · intro ha
        rcases List.mem_append.mp ha with ha | ha
        · exact Or.inl ha
        · exact Or.inr ⟨l, hl, (List.mem_singleton.mp ha).symm⟩
      · rintro (ha | ⟨l2, hl2, ha⟩)
        · exact List.mem_append_left _ ha
        · rw [hl] at hl2
          injection hl2 with hl2
          subst hl2 ha
          exact List.mem_append_right _ (List.mem_singleton.mpr rfl)

theorem mem_keys_mapSet {κ ν : Type} [DecidableEq κ] (m : GoMap κ ν) (k : κ) (v : ν) (a : κ) :
    a ∈ (mapSet m k v).map Prod.fst ↔ a ∈ m.map Prod.fst ∨ a = k := by
  cases hg : mapGet m k with
  | none =>
    rw [keys_mapSet_of_none _ _ _ hg]
    simp
  | some w =>
    rw [keys_mapSet_of_some _ _ _ _ hg]
    constructor
    · intro ha
      exact Or.inl ha
    · rintro (ha | ha)
      · exact ha
      · subst ha
        by_contra hc
        rw [← mapGet_eq_none_iff, hg] at hc
        cases hc

theorem nodup_keys_mapSet {κ ν : Type} [DecidableEq κ] (m : GoMap κ ν) (k : κ) (v : ν)
    (hnd : (m.map Prod.fst).Nodup) : ((mapSet m k v).map Prod.fst).Nodup := by
  cases hg : mapGet m k with
  | none =>
    rw [keys_mapSet_of_none _ _ _ hg]
    have hnot := (mapGet_eq_none_iff m k).mp hg
    exact List.Nodup.append hnd (List.nodup_singleton _)
      (by
        intro x hx1 hx2
        rw [List.mem_singleton] at hx2
        subst hx2
        exact hnot hx1)
  | some w =>
    rw [keys_mapSet_of_some _ _ _ _ hg]
    exact hnd

theorem SameSkeleton_refl (h : Heap) : SameSkeleton h h := fun _ => rfl

theorem SameSkeleton_trans {h h1 h2 : Heap} (a : SameSkeleton h h1) (b : SameSkeleton h1 h2) :
    SameSkeleton h h2 := fun p => (b p).trans (a p)

theorem SameSkeleton_forward {h h1 : Heap} (hs : SameSkeleton h h1) {p : Nat} {l : Location}
    (hl : h.locations[p]? = some l) :
    ∃ l1, h1.locations[p]? = some l1 ∧ l1.eraseLine = l.eraseLine := by
  have e := hs p
  rw [hl] at e
  cases h1l : h1.locations[p]? with
  | none =>
    rw [h1l] at e
    cases e
  | some l1 =>
    rw [h1l] at e
    exact ⟨l1, rfl, by simpa using e⟩

theorem SameSkeleton_backward {h h1 : Heap} (hs : SameSkeleton h h1) {p : Nat} {l1 : Location}
    (hl : h1.locations[p]? = some l1) :
    ∃ l, h.locations[p]? = some l ∧ l1.eraseLine = l.eraseLine := by
  have e := hs p
  rw [hl] at e
  cases h0l : h.locations[p]? with
  | none =>
    rw [h0l] at e
    cases e
  | some l =>
    rw [h0l] at e
    exact ⟨l, rfl, by simpa using e⟩

theorem eraseLine_address {l l1 : Location} (he : l1.eraseLine = l.eraseLine) :
    l1.Address = l.Address :=
  show l1.eraseLine.Address = l.eraseLine.Address from congrArg Location.Address he

theorem eraseLine_ID {l l1 : Location} (he : l1.eraseLine = l.eraseLine) : l1.ID = l.ID :=
  show l1.eraseLine.ID = l.eraseLine.ID from congrArg Location.ID he

theorem eraseLine_mapping {l l1 : Location} (he : l1.eraseLine = l.eraseLine) :
    l1.Mapping = l.Mapping :=
  show l1.eraseLine.Mapping = l.eraseLine.Mapping from congrArg Location.Mapping he

theorem resolveLoop_inv (syms : GoMap Nat String) (klocs : List LocPtr) :
    ∀ (fns fns1 : GoMap Nat FuncPtr) (h h1 : Heap), ResolveInv syms fns h →
      resolveLoop syms fns h klocs = .ok (fns1, h1) →
      ResolveInv syms fns1 h1 ∧ (∀ p ∈ klocs, Resolved fns1 h1 p) ∧
        (∀ p : Nat, Resolved fns h p → Resolved fns1 h1 p) ∧ SameSkeleton h h1 ∧
        (∀ a, a ∈ fns1.map Prod.fst ↔
          a ∈ fns.map Prod.fst ∨ ∃ p ∈ klocs, ∃ l, h.locations[p]? = some l ∧ l.Address = a) := by
  induction klocs with
  | nil =>
    intro fns fns1 h h1 hinv hs
    simp only [resolveLoop] at hs
    injection hs with hs
    injection hs with e1 e2
    subst e1 e2
    exact ⟨hinv, by simp, fun _ hp => hp, SameSkeleton_refl _, by simp⟩
  | cons kloc rest ih =>
    intro fns fns1 h h1 hinv hs
    simp only [resolveLoop] at hs
    split at hs
    · rename_i fns2 h2 hstep
      obtain ⟨s1, s2, s3, s4, s5⟩ := resolveStep_inv hinv hstep
      obtain ⟨r1, r2, r3, r4, r5⟩ := ih _ _ _ _ s1 hs
      refine ⟨r1, ?_, fun p hp => r3 p (s3 p hp), SameSkeleton_trans s4 r4, ?_⟩
      · intro p hp
        rcases List.mem_cons.mp hp with hp | hp
        · subst hp
          exact r3 _ s2
        · exact r2 p hp
      · intro a
        rw [r5 a, s5 a]
        constructor
        · rintro ((ha | ⟨l, hl, ha⟩) | ⟨p, hp, l2, hl2, ha⟩)
          · exact Or.inl ha
          · exact Or.inr ⟨kloc, List.mem_cons_self _ _, l, hl, ha⟩
          · obtain ⟨l, hl, he⟩ := SameSkeleton_backward s4 hl2
            exact Or.inr ⟨p, List.mem_cons_of_mem _ hp, l, hl,
              (eraseLine_address he).symm.trans ha⟩
        · rintro (ha | ⟨p, hp, l, hl, ha⟩)
          · exact Or.inl (Or.inl ha)
          · rcases List.mem_cons.mp hp with hp | hp
            · subst hp
              exact Or.inl (Or.inr ⟨l, hl, ha⟩)
            · obtain ⟨l2, hl2, he⟩ := SameSkeleton_forward s4 hl
              exact Or.inr ⟨p, hp, l2, hl2, (eraseLine_address he).trans ha⟩
    · cases hs

theorem kernelAddressSet_keys (h : Heap) (klocs : List LocPtr) :
    ∀ (acc acc1 : GoMap Nat Unit), (acc.map Prod.fst).Nodup →
      kernelAddressSet h acc klocs = .ok acc1 →
      (acc1.map Prod.fst).Nodup ∧
        ∀ a, a ∈ acc1.map Prod.fst ↔
          a ∈ acc.map Prod.fst ∨ ∃ p ∈ klocs, ∃ l, h.locations[p]? = some l ∧ l.Address = a := by
  induction klocs with
  | nil =>
    intro acc acc1 hnd hs
    simp only [kernelAddressSet] at hs
    injection hs with hs
    subst hs
    exact ⟨hnd, by simp⟩
  | cons kloc rest ih =>
    intro acc acc1 hnd hs
    simp only [kernelAddressSet] at hs
    split at hs
    · cases hs
    · rename_i l hl
      obtain ⟨r1, r2⟩ := ih _ _ (nodup_keys_mapSet acc l.Address () hnd) hs
      refine ⟨r1, ?_⟩
      intro a
      rw [r2 a, mem_keys_mapSet]
      constructor
      · rintro ((ha | ha) | ⟨p, hp, l2, hl2, ha⟩)
        · exact Or.inl ha
        · exact Or.inr ⟨kloc, List.mem_cons_self _ _, l, hl, ha.symm⟩
        · exact Or.inr ⟨p, List.mem_cons_of_mem _ hp, l2, hl2, ha⟩
      · rintro (ha | ⟨p, hp, l2, hl2, ha⟩)
        · exact Or.inl (Or.inl ha)
        · rcases List.mem_cons.mp hp with hp | hp
          · subst hp
            rw [hl] at hl2
            injection hl2 with hl2
            subst hl2
            exact Or.inl (Or.inr ha.symm)
          · exact Or.inr ⟨p, hp, l2, hl2, ha⟩

theorem functionName_of_symbol {syms : GoMap Nat String} {a : Nat} {name : String}
    (hg : mapGet syms a = some name) (hne : name ≠ "") : functionName syms a = name := by
  simp [functionName, hg, hne]

theorem functionName_not_found {syms : GoMap Nat String} {a : Nat}
    (hg : mapGet syms a = none ∨ mapGet syms a = some "") : functionName syms a = "not found" := by
  rcases hg with hg | hg <;> simp [functionName, hg]

theorem ResolveInv_empty (syms : GoMap Nat String) (h : Heap) : ResolveInv syms [] h :=
  ⟨fun a f hg => by simp [mapGet] at hg, fun a b f hg => by simp [mapGet] at hg, by simp⟩

/-- C9. When `resolveKernelFunctions` succeeds on a list of kernel locations, the kernel
symbol cache was asked once, for the set of the addresses of the list, and every location
of the list keeps its ID, address and mapping and has exactly one Line, whose Function is a
non-nil pointer: the entry of the function map for the address of the location, an object
whose Name is the symbol the cache returned for that address, or `not found` when the cache
returned none or the empty string. Locations with equal addresses so share one Function
object, distinct addresses have distinct Function objects, and the function map has exactly
one entry per distinct address of the list. -/
theorem resolveKernelFunctions_names (env : Env) (h h1 : Heap) (klocs : List LocPtr)
    (fns : GoMap Nat FuncPtr) (hs : resolveKernelFunctions env h klocs = .ok (fns, h1)) :
    ∃ addrs syms, env.Resolve addrs = .ok syms ∧ addrs.Nodup ∧
      (∀ a, a ∈ addrs ↔ ∃ p ∈ klocs, ∃ l, h.locations[p]? = some l ∧ l.Address = a) ∧
      (∀ p ∈ klocs, ∃ l l1 f fn, h.locations[p]? = some l ∧ h1.locations[p]? = some l1 ∧
        l1.ID = l.ID ∧ l1.Address = l.Address ∧ l1.Mapping = l.Mapping ∧
        l1.Line = [{ Function := some f }] ∧
        mapGet fns l.Address = some (some f) ∧ h1.functions[f]? = some fn ∧
        (∀ name, mapGet syms l.Address = some name → name ≠ "" → fn.Name = name) ∧
        (mapGet syms l.Address = none ∨ mapGet syms l.Address = some "" →
          fn.Name = "not found")) ∧
      (∀ a b f, mapGet fns a = some f → mapGet fns b = some f → a = b) ∧
      (fns.map Prod.fst).Nodup ∧
      (∀ a, a ∈ fns.map Prod.fst ↔ ∃ p ∈ klocs, ∃ l, h.locations[p]? = some l ∧ l.Address = a) := by
  unfold resolveKernelFunctions at hs
  split at hs
  · cases hs
  · rename_i addrSet haddr
    split at hs
    · cases hs
    · rename_i syms hres
      obtain ⟨k1, k2⟩ := kernelAddressSet_keys h klocs [] addrSet (by simp) haddr
      obtain ⟨r1, r2, _, r4, r5⟩ := resolveLoop_inv syms klocs _ _ _ _ (ResolveInv_empty syms h) hs
      refine ⟨addrSet.map Prod.fst, syms, hres, k1, ?_, ?_, r1.inj, r1.nodup, ?_⟩
      · intro a
        rw [k2 a]
        simp
      · intro p hp
        obtain ⟨l1, f, hl1, hline, hget⟩ := r2 p hp
        obtain ⟨l, hl, he⟩ := SameSkeleton_backward r4 hl1
        have hadr : l1.Address = l.Address := eraseLine_address he
        obtain ⟨i, fn, hi, hfn, hname⟩ := r1.named _ _ hget
        injection hi with hi
        subst hi
        rw [hadr] at hget hname
        refine ⟨l, l1, f, fn, hl, hl1, eraseLine_ID he, hadr,
          eraseLine_mapping he, hline, hget, hfn, ?_, ?_⟩
        · intro name hn hne
          rw [hname]
          exact functionName_of_symbol hn hne
        · intro hn
          rw [hname]
          exact functionName_not_found hn
      · intro a
        rw [r5 a]
        simp

/-- C9, at the two kernel locations of `heapTwoKernel`, of which the symbol cache knows the
first: the call succeeds. -/
theorem resolveKernelFunctions_names_witness :
    ∃ fns h1, resolveKernelFunctions envBase heapTwoKernel [0, 1] = .ok (fns, h1) ∧
      h1.locations.map Location.Line = [[{ Function := some 0 }], [{ Function := some 1 }]] ∧
      h1.functions.map Function.Name = ["schedule", "not found"] ∧
      ∃ addrs syms, envBase.Resolve addrs = .ok syms ∧ addrs.Nodup ∧
        (∀ a, a ∈ addrs ↔ ∃ p ∈ [0, 1], ∃ l, heapTwoKernel.locations[p]? = some l ∧ l.Address = a) ∧
        (∀ p ∈ [0, 1], ∃ l l1 f fn, heapTwoKernel.locations[p]? = some l ∧
          h1.locations[p]? = some l1 ∧
          l1.ID = l.ID ∧ l1.Address = l.Address ∧ l1.Mapping = l.Mapping ∧
          l1.Line = [{ Function := some f }] ∧
          mapGet fns l.Address = some (some f) ∧ h1.functions[f]? = some fn ∧
          (∀ name, mapGet syms l.Address = some name → name ≠ "" → fn.Name = name) ∧
          (mapGet syms l.Address = none ∨ mapGet syms l.Address = some "" →
            fn.Name = "not found")) ∧
        (∀ a b f, mapGet fns a = some f → mapGet fns b = some f → a = b) ∧
        (fns.map Prod.fst).Nodup ∧
        (∀ a, a ∈ fns.map Prod.fst ↔
          ∃ p ∈ [0, 1], ∃ l, heapTwoKernel.locations[p]? = some l ∧ l.Address = a) :=
  ⟨_, _, rfl, by decide, by decide,
    resolveKernelFunctions_names envBase heapTwoKernel _ [0, 1] _ rfl⟩

/-! ### The location tables of the drain loop -/

theorem mapGetD_mapSet {κ ν : Type} [DecidableEq κ] (m : GoMap κ (List ν)) (k q : κ)
    (v : List ν) : mapGetD (mapSet m k v) q = if k = q then v else mapGetD m q := by
  unfold mapGetD
  rw [mapGet_mapSet]
  split <;> rfl

theorem mapGetD_mapSet_nil_of_none {κ ν : Type} [DecidableEq κ] (m : GoMap κ (List ν)) (k q : κ)
    (hn : mapGet m k = none) : mapGetD (mapSet m k []) q = mapGetD m q := by
  rw [mapGetD_mapSet]
  split
  · rename_i hk
    subst hk
    simp [mapGetD, hn]
  · rfl

theorem kernelStep_eq (pid : PID) (s : LoopState) (addr : Nat) :
    kernelStep pid s addr
      = if addr ≠ 0 then locate pid s (0, addr) (kernelLocation pid s addr) none else .ok s := by
  unfold kernelStep locate kernelLocation
  rfl

theorem userStep_eq (env : Env) (pid : PID) (s : LoopState) (addr : Nat) :
    userStep env pid s addr
      = if addr ≠ 0 then locate pid s (pid, addr) (userLocation env pid s addr) (some pid)
        else .ok s := by
  unfold userStep locate userLocation
  rfl

theorem locationOf_extends {s s1 : LoopState} (hext : Extends s s1) {pid : PID}
    {key : Nat × Nat} {ptr : LocPtr} (hl : locationOf s pid key = some ptr) :
    locationOf s1 pid key = some ptr := by
  unfold locationOf at hl ⊢
  cases hg : mapGet (mapGetD s.locationIndices pid) key with
  | none =>
    rw [hg] at hl
    cases hl
  | some i =>
    rw [hg] at hl
    rw [hext.idxs pid key i hg]
    exact hext.locs pid i ptr hl

theorem expected_extends {s s1 : LoopState} (hext : Extends s s1) (pid : PID)
    (keys : List (Nat × Nat)) :
    ∀ (locs : List LocPtr), locs.map some = keys.map (locationOf s pid) →
      locs.map some = keys.map (locationOf s1 pid) := by
  induction keys with
  | nil =>
    intro locs hl
    simpa using hl
  | cons k ks ih =>
    intro locs hl
    cases locs with
    | nil => simp at hl
    | cons p ps =>
      simp only [List.map_cons, List.cons.injEq] at hl ⊢
      exact ⟨(locationOf_extends hext hl.1.symm).symm, ih ps hl.2⟩

theorem Extends_refl (s : LoopState) : Extends s s :=
  ⟨fun _ _ h => h, fun _ _ _ h => h, fun _ _ _ h => h⟩

theorem Extends_trans {s s1 s2 : LoopState} (a : Extends s s1) (b : Extends s1 s2) :
    Extends s s2 :=
  ⟨fun p l h => b.heap p l (a.heap p l h), fun pid i ptr h => b.locs pid i ptr (a.locs pid i ptr h),
    fun pid k i h => b.idxs pid k i (a.idxs pid k i h)⟩

theorem mem_of_getElem? {α : Type} {l : List α} {i : Nat} {a : α} (h : l[i]? = some a) :
    a ∈ l :=
  List.mem_iff_getElem?.mpr ⟨i, h⟩

/-- Appending a pointer of the table to `sampleLocations[pid]` keeps the invariant. -/
theorem LoopInv_appendSample {env : Env} {s : LoopState} (hinv : LoopInv env s) (pid : PID)
    (ptr : LocPtr) (hp : ptr ∈ mapGetD s.allLocations pid) :
    LoopInv env
      { s with sampleLocations := mapSet s.sampleLocations pid (mapGetD s.sampleLocations pid ++ [ptr]) } := by
  refine ⟨hinv.table, hinv.index_lt, hinv.index_inj, hinv.index_key, ?_, hinv.samples,
    hinv.value_one, hinv.pids_nodup, hinv.stacks_nodup⟩
  intro q p hq
  dsimp only at hq ⊢
  rw [mapGetD_mapSet] at hq
  split at hq
  · rename_i hk
    subst hk
    rcases List.mem_append.mp hq with h1 | h1
    · exact hinv.sampleLocs _ _ h1
    · rw [List.mem_singleton] at h1
      subst h1
      exact hp
  · exact hinv.sampleLocs _ _ hq


theorem addLocation_locs (pid : PID) (s : LoopState) (key : Nat × Nat) (l : Location)
    (user : Option Nat) (q : PID) :
    mapGetD (addLocation pid s key l user).allLocations q
      = if pid = q then mapGetD s.allLocations pid ++ [s.heap.locations.length]
        else mapGetD s.allLocations q := by
  unfold addLocation
  dsimp only
  rw [mapGetD_mapSet]

theorem addLocation_idxs (pid : PID) (s : LoopState) (key : Nat × Nat) (l : Location)
    (user : Option Nat) (q : PID) :
    mapGetD (addLocation pid s key l user).locationIndices q
      = if pid = q then mapSet (mapGetD s.locationIndices pid) key (mapGetD s.allLocations pid).length
        else mapGetD s.locationIndices q := by
  unfold addLocation
  dsimp only
  rw [mapGetD_mapSet]

theorem addLocation_heap (pid : PID) (s : LoopState) (key : Nat × Nat) (l : Location)
    (user : Option Nat) :
    (addLocation pid s key l user).heap.locations = s.heap.locations ++ [l] := rfl

theorem addLocation_heap_old (pid : PID) {s : LoopState} (key : Nat × Nat) (l : Location)
    {l0 : Location} (user : Option Nat) {p : Nat} (h0 : s.heap.locations[p]? = some l0) :
    (addLocation pid s key l user).heap.locations[p]? = some l0 := by
  rw [addLocation_heap, List.getElem?_append_left (lt_length_of_getElem? h0)]
  exact h0

theorem getElem?_concat_cases {α : Type} {xs : List α} {x a : α} {i : Nat}
    (h : (xs ++ [x])[i]? = some a) :
    (i < xs.length ∧ xs[i]? = some a) ∨ (i = xs.length ∧ a = x) := by
  by_cases hi : i < xs.length
  · rw [List.getElem?_append_left hi] at h
    exact Or.inl ⟨hi, h⟩
  · have hlt := lt_length_of_getElem? h
    simp only [List.length_append, List.length_singleton] at hlt
    have hi2 : i = xs.length := by omega
    subst hi2
    rw [List.getElem?_concat_length] at h
    injection h with h
    exact Or.inr ⟨rfl, h.symm⟩

theorem Extends_addLocation {s : LoopState} (pid : PID) (key : Nat × Nat) (l : Location)
    (user : Option Nat) (hn : mapGet (mapGetD s.locationIndices pid) key = none) :
    Extends s (addLocation pid s key l user) := by
  refine ⟨fun p l0 h0 => addLocation_heap_old pid key l user h0, ?_, ?_⟩
  · intro q i ptr h
    rw [addLocation_locs]
    split
    · rename_i hq
      subst hq
      rw [List.getElem?_append_left (lt_length_of_getElem? h)]
      exact h
    · exact h
  · intro q k i h
    rw [addLocation_idxs]
    split
    · rename_i hq
      subst hq
      have hne : key ≠ k := by
        intro hk
        subst hk
        rw [hn] at h
        cases h
      rw [mapGet_mapSet_ne _ _ hne]
      exact h
    · exact h

/-- Registering a new location under a key that has none keeps the invariant. -/
theorem LoopInv_addLocation {env : Env} {s : LoopState} (hinv : LoopInv env s) (pid : PID)
    (key : Nat × Nat) (l : Location) (user : Option Nat)
    (hn : mapGet (mapGetD s.locationIndices pid) key = none)
    (hid : l.ID = (mapGetD s.allLocations pid).length + 1) (hkey : KeyOf env pid key l) :
    LoopInv env (addLocation pid s key l user) := by
  have hext := Extends_addLocation pid key l user hn
  refine ⟨?_, ?_, ?_, ?_, ?_, ?_, hinv.value_one, hinv.pids_nodup, hinv.stacks_nodup⟩
  · intro q i ptr h
    rw [addLocation_locs] at h
    by_cases hq : pid = q
    · subst hq
      simp only [if_true] at h
      rcases getElem?_concat_cases h with ⟨_, h1⟩ | ⟨h1, h2⟩
      · obtain ⟨l0, h0, e0⟩ := hinv.table _ _ _ h1
        exact ⟨l0, addLocation_heap_old pid key l user h0, e0⟩
      · subst h1 h2
        refine ⟨l, ?_, hid⟩
        rw [addLocation_heap]
        exact List.getElem?_concat_length _ _
    · simp only [hq, if_false] at h
      obtain ⟨l0, h0, e0⟩ := hinv.table _ _ _ h
      exact ⟨l0, addLocation_heap_old pid key l user h0, e0⟩
  · intro q k i h
    rw [addLocation_idxs] at h
    rw [addLocation_locs]
    by_cases hq : pid = q
    · subst hq
      simp only [if_true] at h ⊢
      rw [mapGet_mapSet] at h
      rw [List.length_append, List.length_singleton]
      split at h
      · injection h with h
        omega
      · have := hinv.index_lt _ _ _ h
        omega
    · simp only [hq, if_false] at h ⊢
      exact hinv.index_lt _ _ _ h
  · intro q k1 k2 i h1 h2
    rw [addLocation_idxs] at h1 h2
    by_cases hq : pid = q
    · subst hq
      simp only [if_true] at h1 h2
      rw [mapGet_mapSet] at h1 h2
      by_cases hk1 : key = k1
      · by_cases hk2 : key = k2
        · exact hk1.symm.trans hk2
        · simp only [hk1, if_true] at h1
          simp only [hk2, if_false] at h2
          injection h1 with h1
          have := hinv.index_lt _ _ _ h2
          omega
      · by_cases hk2 : key = k2
        · simp only [hk2, if_true] at h2
          simp only [hk1, if_false] at h1
          injection h2 with h2
          have := hinv.index_lt _ _ _ h1
          omega
        · simp only [hk1, if_false] at h1
          simp only [hk2, if_false] at h2
          exact hinv.index_inj _ _ _ _ h1 h2
    · simp only [hq, if_false] at h1 h2
      exact hinv.index_inj _ _ _ _ h1 h2
  · intro q i ptr l0 h hl0
    rw [addLocation_locs] at h
    rw [addLocation_idxs]
    have hold : ∀ (q : PID), (mapGetD s.allLocations q)[i]? = some ptr →
        ∃ k, mapGet (mapGetD s.locationIndices q) k = some i ∧ KeyOf env q k l0 := by
      intro q h1
      obtain ⟨l1, h0, _⟩ := hinv.table _ _ _ h1
      have h2 := addLocation_heap_old pid key l user h0
      rw [h2] at hl0
      injection hl0 with hl0
      subst hl0
      exact hinv.index_key _ _ _ _ h1 h0
    by_cases hq : pid = q
    · subst hq
      simp only [if_true] at h ⊢
      rcases getElem?_concat_cases h with ⟨_, h1⟩ | ⟨h1, h2⟩
      · obtain ⟨k, hk1, hk2⟩ := hold _ h1
        refine ⟨k, ?_, hk2⟩
        have hne : key ≠ k := by
          intro hk
          subst hk
          rw [hn] at hk1
          cases hk1
        rw [mapGet_mapSet_ne _ _ hne]
        exact hk1
      · subst h1 h2
        rw [addLocation_heap, List.getElem?_concat_length] at hl0
        injection hl0 with hl0
        subst hl0
        exact ⟨key, mapGet_mapSet_self _ _ _, hkey⟩
    · simp only [hq, if_false] at h ⊢
      exact hold _ h
  · intro q ptr hp
    have h1 := hinv.sampleLocs q ptr hp
    obtain ⟨i, hi⟩ := List.mem_iff_getElem?.mp h1
    exact mem_of_getElem? (hext.locs q i ptr hi)
  · intro q stack sample hs
    exact expected_extends hext q _ _ (hinv.samples q stack sample hs)


theorem KeyOf_kernelLocation (env : Env) (pid : PID) (s : LoopState) (addr : Nat) :
    KeyOf env pid (0, addr) (kernelLocation pid s addr) :=
  ⟨fun _ => rfl, fun h => absurd rfl h⟩

theorem KeyOf_userLocation (env : Env) (pid : PID) (s : LoopState) (addr : Nat) :
    KeyOf env pid (pid, addr) (userLocation env pid s addr) := by
  refine ⟨?_, fun _ => ⟨addr, rfl, rfl, rfl⟩⟩
  intro h
  unfold userLocation at h
  dsimp only at h
  cases hm : (env.PIDAddrMapping pid addr).1 with
  | none =>
    rw [hm] at h
    cases h
  | some m =>
    rw [hm] at h
    simp at h

theorem appendSampleLocation_ok {pid : PID} {s : LoopState} {i : Nat} {ptr : LocPtr}
    (h : (mapGetD s.allLocations pid)[i]? = some ptr) :
    appendSampleLocation pid s i = .ok (pushSampleLocation pid s ptr) := by
  simp only [appendSampleLocation, h, pushSampleLocation]

/-- One address of a walk, under the invariant: the step does not panic, keeps the invariant
and the samples, extends the tables and appends to `sampleLocations[pid]` the location of the
key. -/
theorem locate_spec {env : Env} {s : LoopState} (hinv : LoopInv env s) (pid : PID)
    (key : Nat × Nat) (l : Location) (user : Option Nat)
    (hid : l.ID = (mapGetD s.allLocations pid).length + 1) (hkey : KeyOf env pid key l) :
    ∃ s1, locate pid s key l user = .ok s1 ∧ LoopInv env s1 ∧ Extends s s1 ∧
      s1.allSamples = s.allSamples ∧
      ∃ ptr, locationOf s1 pid key = some ptr ∧
        mapGetD s1.sampleLocations pid = mapGetD s.sampleLocations pid ++ [ptr] := by
  unfold locate
  cases hg : mapGet (mapGetD s.locationIndices pid) key with
  | some i =>
    have hlt := hinv.index_lt _ _ _ hg
    obtain ⟨ptr, hptr⟩ : ∃ ptr, (mapGetD s.allLocations pid)[i]? = some ptr :=
      ⟨_, List.getElem?_eq_getElem hlt⟩
    refine ⟨pushSampleLocation pid s ptr, appendSampleLocation_ok hptr, ?_, ?_, rfl, ptr, ?_, ?_⟩
    · exact LoopInv_appendSample hinv pid _ (mem_of_getElem? hptr)
    · exact ⟨fun _ _ h => h, fun _ _ _ h => h, fun _ _ _ h => h⟩
    · unfold locationOf pushSampleLocation
      dsimp only
      rw [hg]
      exact hptr
    · unfold pushSampleLocation
      dsimp only
      rw [mapGetD_mapSet_self]
  | none =>
    have hinv0 := LoopInv_addLocation hinv pid key l user hg hid hkey
    have hext0 := Extends_addLocation pid key l user hg
    have hptr : (mapGetD (addLocation pid s key l user).allLocations pid)[(mapGetD s.allLocations pid).length]?
        = some s.heap.locations.length := by
      rw [addLocation_locs]
      simp only [if_true]
      exact List.getElem?_concat_length _ _
    refine ⟨pushSampleLocation pid (addLocation pid s key l user) s.heap.locations.length,
      appendSampleLocation_ok hptr, ?_, ?_, rfl, s.heap.locations.length, ?_, ?_⟩
    · exact LoopInv_appendSample hinv0 pid _ (mem_of_getElem? hptr)
    · exact ⟨hext0.heap, hext0.locs, hext0.idxs⟩
    · unfold locationOf pushSampleLocation
      dsimp only
      rw [addLocation_idxs]
      simp only [if_true]
      rw [mapGet_mapSet_self]
      exact hptr
    · unfold pushSampleLocation
      dsimp only
      rw [mapGetD_mapSet_self]
      rfl

/-- A walk over a stack half, under the invariant: it does not panic, keeps the invariant
and the samples, extends the tables and appends to `sampleLocations[pid]` the locations of
the keys of the non-zero addresses, in order. -/
theorem walk_spec (env : Env) (pid : PID) (step : LoopState → Nat → Except Stop LoopState)
    (keyOf : Nat → Nat × Nat) (loc : LoopState → Nat → Location) (user : Option Nat)
    (hstep : ∀ s addr, step s addr
      = if addr ≠ 0 then locate pid s (keyOf addr) (loc s addr) user else .ok s)
    (hid : ∀ s addr, (loc s addr).ID = (mapGetD s.allLocations pid).length + 1)
    (hkey : ∀ s addr, KeyOf env pid (keyOf addr) (loc s addr)) (addrs : List Nat) :
    ∀ s, LoopInv env s → ∃ s1, walk step s addrs = .ok s1 ∧ LoopInv env s1 ∧ Extends s s1 ∧
      s1.allSamples = s.allSamples ∧
      (mapGetD s1.sampleLocations pid).map some
        = (mapGetD s.sampleLocations pid).map some ++
          ((addrs.filter (fun a => decide (a ≠ 0))).map keyOf).map (locationOf s1 pid) := by
  induction addrs with
  | nil =>
    intro s hinv
    exact ⟨s, rfl, hinv, Extends_refl s, rfl, by simp⟩
  | cons a rest ih =>
    intro s hinv
    by_cases ha : a ≠ 0
    · obtain ⟨s1, h1, hinv1, hext1, hsam1, ptr, hloc, hsl⟩ :=
        locate_spec hinv pid (keyOf a) (loc s a) user (hid s a) (hkey s a)
      obtain ⟨s2, h2, hinv2, hext2, hsam2, hsl2⟩ := ih s1 hinv1
      refine ⟨s2, ?_, hinv2, Extends_trans hext1 hext2, hsam2.trans hsam1, ?_⟩
      · simp only [walk, hstep, ha, if_true, ne_eq, not_false_eq_true, h1]
        exact h2
      · rw [hsl2, hsl]
        have hloc2 := locationOf_extends hext2 hloc
        simp [ha, hloc2]
    · obtain ⟨s2, h2, hinv2, hext2, hsam2, hsl2⟩ := ih s hinv
      refine ⟨s2, ?_, hinv2, hext2, hsam2, ?_⟩
      · simp only [walk, hstep, ha, if_false]
        exact h2
      · rw [hsl2]
        simp [ha]

theorem kernelWalk_eq_walk (pid : PID) (addrs : List Nat) :
    ∀ s, kernelWalk pid s addrs = walk (kernelStep pid) s addrs := by
  induction addrs with
  | nil => intro s; rfl
  | cons a rest ih =>
    intro s
    simp only [kernelWalk, walk]
    cases kernelStep pid s a with
    | ok s1 => exact ih s1
    | error e => rfl

theorem userWalk_eq_walk (env : Env) (pid : PID) (addrs : List Nat) :
    ∀ s, userWalk env pid s addrs = walk (userStep env pid) s addrs := by
  induction addrs with
  | nil => intro s; rfl
  | cons a rest ih =>
    intro s
    simp only [userWalk, walk]
    cases userStep env pid s a with
    | ok s1 => exact ih s1
    | error e => rfl


/-! ### Samples of the drain loop -/

theorem addInt64_toInt64 (a b : Nat) : addInt64 (toInt64 a) (toInt64 b) = toInt64 (a + b) := by
  unfold addInt64 toInt64
  split <;> split <;> split <;> omega

theorem toInt64_ne_zero (v : Nat) (h : v % 2 ^ 64 ≠ 0) : toInt64 v ≠ 0 := by
  unfold toInt64
  split <;> omega

theorem toInt64_of_lt (v : Nat) (h : v < 2 ^ 63) : toInt64 v = v := by
  unfold toInt64
  split <;> omega

theorem setSample_get (pid : PID) (stack : combinedStack) (sample : Sample) (s : LoopState)
    (q : PID) (st : combinedStack) :
    mapGet (mapGetD (setSample pid stack sample s).allSamples q) st
      = if pid = q ∧ stack = st then some sample else mapGet (mapGetD s.allSamples q) st := by
  unfold setSample
  dsimp only
  rw [mapGetD_mapSet]
  by_cases hq : pid = q
  · subst hq
    simp only [if_true, true_and]
    rw [mapGet_mapSet]
  · simp only [hq, if_false, false_and]

theorem LoopInv_setSample {env : Env} {s : LoopState} (hinv : LoopInv env s) (pid : PID)
    (stack : combinedStack) (sample : Sample)
    (hloc : sample.Location.map some = (stackKeys pid stack).map (locationOf s pid))
    (hval : ∃ x, sample.Value = [x]) : LoopInv env (setSample pid stack sample s) := by
  refine ⟨hinv.table, hinv.index_lt, hinv.index_inj, hinv.index_key, hinv.sampleLocs,
    ?_, ?_, ?_, ?_⟩
  · intro q st smp h
    rw [setSample_get] at h
    split at h
    · rename_i hc
      injection h with h
      obtain ⟨h1, h2⟩ := hc
      subst h h1 h2
      exact hloc
    · exact hinv.samples q st smp h
  · intro q st smp h
    rw [setSample_get] at h
    split at h
    · injection h with h
      subst h
      exact hval
    · exact hinv.value_one q st smp h
  · exact nodup_keys_mapSet _ _ _ hinv.pids_nodup
  · intro q
    unfold setSample
    dsimp only
    rw [mapGetD_mapSet]
    split
    · exact nodup_keys_mapSet _ _ _ (hinv.stacks_nodup pid)
    · exact hinv.stacks_nodup q

theorem ensureSamples_get (pid : PID) (s : LoopState) (q : PID) :
    mapGetD (ensureSamples pid s).allSamples q = mapGetD s.allSamples q := by
  unfold ensureSamples
  split
  · rfl
  · rename_i hn
    exact mapGetD_mapSet_nil_of_none _ _ _ hn

theorem LoopInv_ensureSamples {env : Env} {s : LoopState} (hinv : LoopInv env s) (pid : PID) :
    LoopInv env (ensureSamples pid s) := by
  have hget := ensureSamples_get pid s
  have hrest : (ensureSamples pid s).heap = s.heap ∧
      (ensureSamples pid s).allLocations = s.allLocations ∧
      (ensureSamples pid s).locationIndices = s.locationIndices ∧
      (ensureSamples pid s).sampleLocations = s.sampleLocations := by
    unfold ensureSamples
    split <;> exact ⟨rfl, rfl, rfl, rfl⟩
  obtain ⟨e1, e2, e3, e4⟩ := hrest
  have hlocOf : locationOf (ensureSamples pid s) = locationOf s := by
    funext q k
    unfold locationOf
    rw [e2, e3]
  refine ⟨?_, ?_, ?_, ?_, ?_, ?_, ?_, ?_, ?_⟩
  · rw [e1, e2]
    exact hinv.table
  · rw [e2, e3]
    exact hinv.index_lt
  · rw [e3]
    exact hinv.index_inj
  · rw [e1, e2, e3]
    exact hinv.index_key
  · rw [e2, e4]
    exact hinv.sampleLocs
  · intro q st smp h
    rw [hget] at h
    rw [hlocOf]
    exact hinv.samples q st smp h
  · intro q st smp h
    rw [hget] at h
    exact hinv.value_one q st smp h
  · unfold ensureSamples
    split
    · exact hinv.pids_nodup
    · exact nodup_keys_mapSet _ _ _ hinv.pids_nodup
  · intro q
    rw [hget]
    exact hinv.stacks_nodup q

theorem Extends_ensureSamples (pid : PID) (s : LoopState) : Extends s (ensureSamples pid s) := by
  have hrest : (ensureSamples pid s).heap = s.heap ∧
      (ensureSamples pid s).allLocations = s.allLocations ∧
      (ensureSamples pid s).locationIndices = s.locationIndices := by
    unfold ensureSamples
    split <;> exact ⟨rfl, rfl, rfl⟩
  obtain ⟨e1, e2, e3⟩ := hrest
  refine ⟨?_, ?_, ?_⟩
  · rw [e1]
    exact fun _ _ h => h
  · rw [e2]
    exact fun _ _ _ h => h
  · rw [e3]
    exact fun _ _ _ h => h

theorem prepareSample_fields (pid : PID) (s : LoopState) :
    (prepareSample pid s).heap = s.heap ∧
      (prepareSample pid s).allLocations = s.allLocations ∧
      (prepareSample pid s).allSamples = s.allSamples ∧
      (prepareSample pid s).sampleLocations = mapSet s.sampleLocations pid [] ∧
      ∀ q, mapGetD (prepareSample pid s).locationIndices q = mapGetD s.locationIndices q := by
  unfold prepareSample
  dsimp only
  cases hu : mapGet s.userLocations pid with
  | none =>
    dsimp only
    cases hi : mapGet s.locationIndices pid with
    | none => exact ⟨rfl, rfl, rfl, rfl, fun q => mapGetD_mapSet_nil_of_none _ _ _ hi⟩
    | some _ => exact ⟨rfl, rfl, rfl, rfl, fun _ => rfl⟩
  | some _ =>
    dsimp only
    cases hi : mapGet s.locationIndices pid with
    | none => exact ⟨rfl, rfl, rfl, rfl, fun q => mapGetD_mapSet_nil_of_none _ _ _ hi⟩
    | some _ => exact ⟨rfl, rfl, rfl, rfl, fun _ => rfl⟩

theorem LoopInv_prepareSample {env : Env} {s : LoopState} (hinv : LoopInv env s) (pid : PID) :
    LoopInv env (prepareSample pid s) ∧ Extends s (prepareSample pid s) ∧
      mapGetD (prepareSample pid s).sampleLocations pid = [] ∧
      (prepareSample pid s).allSamples = s.allSamples := by
  obtain ⟨e1, e2, e3, e4, e5⟩ := prepareSample_fields pid s
  have e5f : mapGetD (prepareSample pid s).locationIndices = mapGetD s.locationIndices :=
    funext e5
  have hlocOf : locationOf (prepareSample pid s) = locationOf s := by
    funext q k
    unfold locationOf
    rw [e2, e5]
  refine ⟨⟨?_, ?_, ?_, ?_, ?_, ?_, ?_, ?_, ?_⟩, ⟨?_, ?_, ?_⟩, ?_, e3⟩
  · rw [e1, e2]
    exact hinv.table
  · rw [e2, e5f]
    exact hinv.index_lt
  · rw [e5f]
    exact hinv.index_inj
  · rw [e1, e2, e5f]
    exact hinv.index_key
  · intro q ptr hp
    rw [e4, mapGetD_mapSet] at hp
    rw [e2]
    split at hp
    · cases hp
    · exact hinv.sampleLocs q ptr hp
  · intro q st smp h
    rw [e3] at h
    rw [hlocOf]
    exact hinv.samples q st smp h
  · rw [e3]
    exact hinv.value_one
  · rw [e3]
    exact hinv.pids_nodup
  · rw [e3]
    exact hinv.stacks_nodup
  · rw [e1]
    exact fun _ _ h => h
  · rw [e2]
    exact fun _ _ _ h => h
  · rw [e5f]
    exact fun _ _ _ h => h
  · rw [e4, mapGetD_mapSet_self]


theorem storeSample_eq (pid : PID) (stack : combinedStack) (value : Nat) (s : LoopState) :
    storeSample pid stack value s
      = setSample pid stack
          { Value := [toInt64 value], Location := mapGetD s.sampleLocations pid } s := rfl

/-- A new sample, under the invariant: the two walks do not panic, and the locations they
collect are those of the keys of the stack, kernel half first. -/
theorem newSample_spec {env : Env} {s : LoopState} (hinv : LoopInv env s) (pid : PID)
    (stack : combinedStack) (value : Nat) :
    ∃ s5, newSample env pid stack value s = .ok (storeSample pid stack value s5) ∧
      LoopInv env s5 ∧ Extends s s5 ∧ s5.allSamples = s.allSamples ∧
      (mapGetD s5.sampleLocations pid).map some = (stackKeys pid stack).map (locationOf s5 pid) := by
  obtain ⟨hinv3, hext3, hsl3, hsam3⟩ := LoopInv_prepareSample hinv pid
  obtain ⟨s4, h4, hinv4, hext4, hsam4, hsl4⟩ :=
    walk_spec env pid (kernelStep pid) (fun a => (0, a)) (kernelLocation pid) none
      (kernelStep_eq pid) (fun _ _ => rfl) (KeyOf_kernelLocation env pid)
      (stack.drop stackDepth) (prepareSample pid s) hinv3
  obtain ⟨s5, h5, hinv5, hext5, hsam5, hsl5⟩ :=
    walk_spec env pid (userStep env pid) (fun a => (pid, a)) (userLocation env pid)
      (some pid) (userStep_eq env pid) (fun _ _ => rfl) (KeyOf_userLocation env pid)
      (stack.take stackDepth) s4 hinv4
  refine ⟨s5, ?_, hinv5, Extends_trans hext3 (Extends_trans hext4 hext5),
    hsam5.trans (hsam4.trans hsam3), ?_⟩
  · unfold newSample
    rw [kernelWalk_eq_walk, h4]
    dsimp only
    rw [userWalk_eq_walk, h5]
  · rw [hsl3] at hsl4
    simp only [List.map_nil, List.nil_append] at hsl4
    have hk := expected_extends hext5 pid _ _ hsl4
    rw [hsl5, hk]
    unfold stackKeys
    rw [List.map_append]

theorem Extends_setSample {s s1 : LoopState} (hext : Extends s s1) (pid : PID)
    (stack : combinedStack) (sample : Sample) : Extends s (setSample pid stack sample s1) :=
  ⟨hext.heap, hext.locs, hext.idxs⟩

/-- An entry with a non-zero count that reaches line 274, under the invariant: the body does
not panic, keeps the invariant, extends the tables, leaves the samples of the other pids and
stacks as they are, and either adds the count to the value of the sample of the stack,
whose locations stay, or stores a new sample with the count as value. -/
theorem recordSample_spec {env : Env} {s : LoopState} (hinv : LoopInv env s) (pid : PID)
    (stack : combinedStack) (value : Nat) :
    ∃ s1, recordSample env pid stack value s = .ok s1 ∧ LoopInv env s1 ∧ Extends s s1 ∧
      (∀ q st, ¬ (pid = q ∧ stack = st) →
        mapGet (mapGetD s1.allSamples q) st = mapGet (mapGetD s.allSamples q) st) ∧
      ∃ sample1, mapGet (mapGetD s1.allSamples pid) stack = some sample1 ∧
        ((∃ sample x, mapGet (mapGetD s.allSamples pid) stack = some sample ∧
            sample.Value = [x] ∧ sample1.Value = [addInt64 x (toInt64 value)] ∧
            sample1.Location = sample.Location) ∨
          (mapGet (mapGetD s.allSamples pid) stack = none ∧ sample1.Value = [toInt64 value])) := by
  have hinv1 := LoopInv_ensureSamples hinv pid
  have hext1 := Extends_ensureSamples pid s
  have hget1 := ensureSamples_get pid s
  unfold recordSample
  dsimp only
  cases hg : mapGet (mapGetD (ensureSamples pid s).allSamples pid) stack with
  | some sample =>
    dsimp only
    obtain ⟨x, hx⟩ := hinv1.value_one pid stack sample hg
    have hadd : addValue pid stack sample value (ensureSamples pid s)
        = .ok (setSample pid stack { sample with Value := [addInt64 x (toInt64 value)] }
            (ensureSamples pid s)) := by
      unfold addValue
      rw [hx]
      rfl
    refine ⟨_, hadd, ?_, Extends_setSample hext1 _ _ _, ?_,
      { sample with Value := [addInt64 x (toInt64 value)] }, ?_, ?_⟩
    · exact LoopInv_setSample hinv1 pid stack _ (hinv1.samples pid stack sample hg) ⟨_, rfl⟩
    · intro q st hne
      rw [setSample_get, if_neg hne, hget1]
    · rw [setSample_get, if_pos ⟨rfl, rfl⟩]
    · rw [hget1] at hg
      exact Or.inl ⟨sample, x, hg, hx, rfl, rfl⟩
  | none =>
    dsimp only
    obtain ⟨s5, h5, hinv5, hext5, hsam5, hsl5⟩ := newSample_spec hinv1 pid stack value
    refine ⟨_, h5, ?_, ?_, ?_,
      { Value := [toInt64 value], Location := mapGetD s5.sampleLocations pid }, ?_, ?_⟩
    · rw [storeSample_eq]
      exact LoopInv_setSample hinv5 pid stack _ hsl5 ⟨_, rfl⟩
    · rw [storeSample_eq]
      exact Extends_setSample (Extends_trans hext1 hext5) _ _ _
    · intro q st hne
      rw [storeSample_eq, setSample_get, if_neg hne, hsam5, hget1]
    · rw [storeSample_eq, setSample_get, if_pos ⟨rfl, rfl⟩]
    · rw [hget1] at hg
      exact Or.inr ⟨hg, rfl⟩


/-- What the loop body does with an entry: it returns an error, or skips the entry, which
then contributes nothing, or goes on to line 274 with the contribution of the entry. -/
theorem loopBody_spec (env : Env) (s : LoopState) (e : CountsEntry) :
    (∃ err, loopBody env s e = .error (.returned err)) ∨
    (contribution env e = none ∧ loopBody env s e = .ok s) ∨
    (∃ pid stack v, contribution env e = some (pid, stack, v) ∧ v % 2 ^ 64 ≠ 0 ∧
      loopBody env s e = recordSample env pid stack v s) := by
  unfold loopBody contribution
  cases hk : e.key with
  | error err => exact Or.inl ⟨_, rfl⟩
  | ok key =>
    dsimp only
    by_cases hp : pidFound env.processes key.PID = true
    · rw [hp]
      simp only [Bool.not_true, Bool.false_eq_true, if_false, if_true]
      cases hu : unrecoverableOf (env.readUserStack key.UserStackID (List.replicate doubleStackDepth 0)).2 with
      | some ue => exact Or.inl ⟨_, rfl⟩
      | none =>
        dsimp only
        cases hke : unrecoverableOf (env.readKernelStack key.KernelStackID
            (env.readUserStack key.UserStackID (List.replicate doubleStackDepth 0)).1).2 with
        | some ke => exact Or.inl ⟨_, rfl⟩
        | none =>
          dsimp only
          split
          · right
            left
            exact ⟨rfl, rfl⟩
          · unfold recordEntry
            cases hv : e.value with
            | error err => exact Or.inl ⟨_, rfl⟩
            | ok v =>
              dsimp only
              by_cases hz : v % 2 ^ 64 = 0
              · simp only [hz, if_true]
                right
                left
                refine ⟨?_, ?_⟩ <;> first | rfl | trivial
              · simp only [hz, if_false]
                right
                right
                exact ⟨_, _, _, rfl, by rw [Nat.mod_mod]; exact hz, rfl⟩
    · have hp2 : pidFound env.processes key.PID = false := by simpa using hp
      rw [hp2]
      right
      left
      exact ⟨rfl, rfl⟩

theorem contributions_append (env : Env) (xs ys : List CountsEntry) (pid : PID)
    (stack : combinedStack) :
    contributions env (xs ++ ys) pid stack
      = contributions env xs pid stack ++ contributions env ys pid stack := by
  simp [contributions, List.filterMap_append]

theorem contributions_single_none {env : Env} {e : CountsEntry} (hc : contribution env e = none)
    (pid : PID) (stack : combinedStack) : contributions env [e] pid stack = [] := by
  simp [contributions, hc]

theorem contributions_single_some {env : Env} {e : CountsEntry} {pid : PID}
    {stack : combinedStack} {v : Nat} (hc : contribution env e = some (pid, stack, v))
    (q : PID) (st : combinedStack) :
    contributions env [e] q st = if pid = q ∧ stack = st then [v] else [] := by
  by_cases h : pid = q ∧ stack = st
  · simp [contributions, hc, h]
  · simp [contributions, hc, h]

theorem ValueInv_skip {env : Env} {processed : List CountsEntry} {s : LoopState} {e : CountsEntry}
    (hval : ValueInv env processed s) (hc : contribution env e = none) :
    ValueInv env (processed ++ [e]) s := by
  have hsame : ∀ q st, contributions env (processed ++ [e]) q st = contributions env processed q st := by
    intro q st
    rw [contributions_append, contributions_single_none hc, List.append_nil]
  refine ⟨?_, ?_⟩
  · intro q st smp h
    rw [hsame]
    exact hval.present q st smp h
  · intro q st h
    rw [hsame]
    exact hval.absent q st h

theorem ValueInv_step {env : Env} {processed : List CountsEntry} {s s1 : LoopState}
    {e : CountsEntry} {pid : PID} {stack : combinedStack} {v : Nat}
    (hval : ValueInv env processed s) (hc : contribution env e = some (pid, stack, v))
    (hframe : ∀ q st, ¬ (pid = q ∧ stack = st) →
      mapGet (mapGetD s1.allSamples q) st = mapGet (mapGetD s.allSamples q) st)
    (hnew : ∃ sample1, mapGet (mapGetD s1.allSamples pid) stack = some sample1 ∧
      ((∃ sample x, mapGet (mapGetD s.allSamples pid) stack = some sample ∧
          sample.Value = [x] ∧ sample1.Value = [addInt64 x (toInt64 v)] ∧
          sample1.Location = sample.Location) ∨
        (mapGet (mapGetD s.allSamples pid) stack = none ∧ sample1.Value = [toInt64 v]))) :
    ValueInv env (processed ++ [e]) s1 := by
  obtain ⟨sample1, hs1, hcase⟩ := hnew
  refine ⟨?_, ?_⟩
  · intro q st smp h
    rw [contributions_append, contributions_single_some hc]
    by_cases hq : pid = q ∧ stack = st
    · obtain ⟨h1, h2⟩ := hq
      subst h1 h2
      simp only [and_self, if_true]
      rw [hs1] at h
      injection h with h
      subst h
      refine ⟨by simp, ?_⟩
      rcases hcase with ⟨sample, x, hold, hx, hv1, _⟩ | ⟨hold, hv1⟩
      · obtain ⟨_, hsum⟩ := hval.present _ _ _ hold
        rw [hx] at hsum
        injection hsum with hsum
        rw [hv1, hsum, addInt64_toInt64, List.sum_append, List.sum_singleton]
      · rw [hv1, hval.absent _ _ hold]
        simp
    · simp only [hq, if_false, List.append_nil]
      rw [hframe q st hq] at h
      exact hval.present q st smp h
  · intro q st h
    by_cases hq : pid = q ∧ stack = st
    · obtain ⟨h1, h2⟩ := hq
      subst h1 h2
      rw [hs1] at h
      cases h
    · rw [contributions_append, contributions_single_some hc]
      simp only [hq, if_false, List.append_nil]
      rw [hframe q st hq] at h
      exact hval.absent q st h

theorem KeepsSamples_refl (s : LoopState) : KeepsSamples s s :=
  fun _ _ sample h => ⟨sample, h, rfl⟩

theorem KeepsSamples_trans {s s1 s2 : LoopState} (a : KeepsSamples s s1)
    (b : KeepsSamples s1 s2) : KeepsSamples s s2 := by
  intro pid stack sample h
  obtain ⟨sample1, h1, e1⟩ := a pid stack sample h
  obtain ⟨sample2, h2, e2⟩ := b pid stack sample1 h1
  exact ⟨sample2, h2, e2.trans e1⟩

theorem KeepsSamples_step {s s1 : LoopState} {pid : PID} {stack : combinedStack} {v : Nat}
    (hframe : ∀ q st, ¬ (pid = q ∧ stack = st) →
      mapGet (mapGetD s1.allSamples q) st = mapGet (mapGetD s.allSamples q) st)
    (hnew : ∃ sample1, mapGet (mapGetD s1.allSamples pid) stack = some sample1 ∧
      ((∃ sample x, mapGet (mapGetD s.allSamples pid) stack = some sample ∧
          sample.Value = [x] ∧ sample1.Value = [addInt64 x (toInt64 v)] ∧
          sample1.Location = sample.Location) ∨
        (mapGet (mapGetD s.allSamples pid) stack = none ∧ sample1.Value = [toInt64 v]))) :
    KeepsSamples s s1 := by
  obtain ⟨sample1, hs1, hcase⟩ := hnew
  intro q st smp h
  by_cases hq : pid = q ∧ stack = st
  · obtain ⟨h1, h2⟩ := hq
    subst h1 h2
    rcases hcase with ⟨sample, x, hold, _, _, hloc⟩ | ⟨hold, _⟩
    · rw [hold] at h
      injection h with h
      subst h
      exact ⟨sample1, hs1, hloc⟩
    · rw [hold] at h
      cases h
  · exact ⟨smp, by rw [hframe q st hq]; exact h, rfl⟩

/-- The drain loop from a state that satisfies the invariants: it either returns an error
(it never panics), or ends in a state that satisfies the invariants for all the entries,
whose tables extend those of the start and which keeps the samples of the start. -/
theorem drain_spec (env : Env) (rest : List CountsEntry) :
    ∀ (processed : List CountsEntry) (s : LoopState), LoopInv env s → ValueInv env processed s →
      (∃ err, drain env s rest = .error (.returned err)) ∨
      ∃ s1, drain env s rest = .ok s1 ∧ LoopInv env s1 ∧ ValueInv env (processed ++ rest) s1 ∧
        Extends s s1 ∧ KeepsSamples s s1 := by
  induction rest with
  | nil =>
    intro processed s hinv hval
    refine Or.inr ⟨s, rfl, hinv, ?_, Extends_refl s, KeepsSamples_refl s⟩
    rw [List.append_nil]
    exact hval
  | cons e rest ih =>
    intro processed s hinv hval
    have happ : processed ++ e :: rest = (processed ++ [e]) ++ rest := by simp
    rcases loopBody_spec env s e with ⟨err, herr⟩ | ⟨hc, hb⟩ | ⟨pid, stack, v, hc, _, hb⟩
    · left
      exact ⟨err, by simp only [drain, herr]⟩
    · rcases ih (processed ++ [e]) s hinv (ValueInv_skip hval hc) with ⟨err, herr⟩ | ⟨s2, h2, r⟩
      · left
        exact ⟨err, by simp only [drain, hb, herr]⟩
      · right
        rw [happ]
        exact ⟨s2, by simp only [drain, hb, h2], r⟩
    · obtain ⟨s1, h1, hinv1, hext1, hframe, hnew⟩ := recordSample_spec hinv pid stack v
      have hval1 := ValueInv_step hval hc hframe hnew
      have hkeep1 := KeepsSamples_step hframe hnew
      rcases ih (processed ++ [e]) s1 hinv1 hval1 with ⟨err, herr⟩ | ⟨s2, h2, i2, v2, e2, k2⟩
      · left
        exact ⟨err, by simp only [drain, hb, h1, herr]⟩
      · right
        rw [happ]
        exact ⟨s2, by simp only [drain, hb, h1, h2], i2, v2, Extends_trans hext1 e2,
          KeepsSamples_trans hkeep1 k2⟩

theorem LoopInv_init (env : Env) : LoopInv env LoopState.init := by
  refine ⟨?_, ?_, ?_, ?_, ?_, ?_, ?_, ?_, ?_⟩ <;>
    simp [LoopState.init, mapGetD, mapGet]

theorem ValueInv_init (env : Env) : ValueInv env [] LoopState.init := by
  refine ⟨?_, ?_⟩ <;> simp [LoopState.init, mapGetD, mapGet, contributions]


/-! ### From the drain loop to the emitted profiles -/

theorem assignFunctionIDs_locations (entries : List (Nat × FuncPtr)) :
    ∀ (fs fs1 : List Nat) (h h1 : Heap),
      assignFunctionIDs fs h entries = .ok (fs1, h1) → h1.locations = h.locations := by
  induction entries with
  | nil =>
    intro fs fs1 h h1 hs
    simp only [assignFunctionIDs] at hs
    injection hs with hs
    injection hs with _ hs
    rw [hs]
  | cons e rest ih =>
    intro fs fs1 h h1 hs
    obtain ⟨a, f⟩ := e
    simp only [assignFunctionIDs] at hs
    split at hs
    · cases hs
    · split at hs
      · cases hs
      · have e := ih _ _ _ _ hs
        simpa using e

theorem resolveKernelFunctions_skeleton {env : Env} {h h1 : Heap} {klocs : List LocPtr}
    {fns : GoMap Nat FuncPtr} (hs : resolveKernelFunctions env h klocs = .ok (fns, h1)) :
    SameSkeleton h h1 := by
  unfold resolveKernelFunctions at hs
  split at hs
  · cases hs
  · split at hs
    · cases hs
    · rename_i syms _
      exact (resolveLoop_inv syms klocs _ _ _ _ (ResolveInv_empty syms h) hs).2.2.2.1

theorem appendKernelMapping_locations (h : Heap) (ms : List MappingPtr) (t : MappingPtr) :
    (appendKernelMapping h ms t).2.locations = h.locations := by
  cases t <;> rfl

/-- The profile `pprofProfile` returns has the samples and the location table of the internal
profile, and the location objects differ from those before the call in their lines only. -/
theorem pprofProfile_tables {env : Env} {h h1 : Heap} {pr : Profile} {prof : PprofProfile}
    (hp : pprofProfile env h pr = .ok (prof, h1)) :
    prof.Location = pr.allLocations ∧
      prof.Sample = (env.rangeSamples pr.samples).map Prod.snd ∧
      SameSkeleton h h1 := by
  unfold pprofProfile at hp
  dsimp only at hp
  split at hp
  · cases hp
  · cases hp
  · rename_i fns h2 hres
    split at hp
    · cases hp
    · rename_i fs h3 hassign
      injection hp with hp
      injection hp with hprof hh
      subst hprof hh
      refine ⟨rfl, rfl, ?_⟩
      have e1 := assignFunctionIDs_locations _ _ _ _ _ hassign
      have e2 := resolveKernelFunctions_skeleton hres
      intro p
      rw [e1, e2 p, appendKernelMapping_locations]

/-- Every profile written by the emission loop is the profile of an entry of `allSamples`:
it has the samples of the entry and the location table of its pid, and the location objects
are those before the loop up to their lines. -/
theorem emitLoop_write (env : Env) (s : LoopState)
    (rest : List (PID × GoMap combinedStack Sample)) :
    ∀ (h : Heap) (trace : List Event) (labels : GoMap String String) (prof : PprofProfile)
      (heap : Heap), Event.write labels prof heap ∈ (emitLoop env s h trace rest).trace →
      Event.write labels prof heap ∈ trace ∨
      ∃ pid samples, (pid, samples) ∈ rest ∧ labels = buildLabels env pid ∧
        prof.Location = mapGetD s.allLocations pid ∧
        prof.Sample = (env.rangeSamples samples).map Prod.snd ∧ SameSkeleton h heap := by
  induction rest with
  | nil =>
    intro h trace labels prof heap hm
    exact Or.inl hm
  | cons e rest ih =>
    intro h trace labels prof heap hm
    obtain ⟨pid, samples⟩ := e
    simp only [emitLoop] at hm
    split at hm
    · exact Or.inl hm
    · exact Or.inl hm
    · rename_i pprof h1 hp
      obtain ⟨t1, t2, t3⟩ := pprofProfile_tables hp
      rcases ih _ _ _ _ _ hm with hin | ⟨pid2, samples2, hmem, hl, hloc, hsam, hsk⟩
      · rcases List.mem_append.mp hin with hin | hin
        · exact Or.inl hin
        · simp only [List.mem_cons, Event.write.injEq, List.mem_singleton, List.not_mem_nil,
            or_false] at hin
          rcases hin with ⟨r1, r2, r3⟩ | hin
          · subst r1 r2 r3
            exact Or.inr ⟨pid, samples, List.mem_cons_self _ _, rfl, t1, t2, t3⟩
          · cases hin
      · exact Or.inr ⟨pid2, samples2, List.mem_cons_of_mem _ hmem, hl, hloc, hsam,
          SameSkeleton_trans t3 hsk⟩

theorem drain_append (env : Env) (pre post : List CountsEntry) :
    ∀ s, drain env s (pre ++ post)
      = match drain env s pre with
        | .ok s0 => drain env s0 post
        | .error e => .error e := by
  induction pre with
  | nil => intro s; rfl
  | cons e pre ih =>
    intro s
    simp only [List.cons_append, drain]
    cases loopBody env s e with
    | ok s1 => exact ih s1
    | error err => rfl

/-- Every profile written in a round comes from the state in which the drain loop ended: the
state satisfies the invariants, the profile has the location table of a pid and exactly the
samples of that pid, and the location objects are those of the state up to their lines. -/
theorem profileLoop_write {env : Env} {labels : GoMap String String} {prof : PprofProfile}
    {heap : Heap} (hm : Event.write labels prof heap ∈ (profileLoop env).trace) :
    ∃ s pid, drain env LoopState.init env.counts = .ok s ∧ LoopInv env s ∧
      ValueInv env env.counts s ∧
      (∀ pre post s0, env.counts = pre ++ post → drain env LoopState.init pre = .ok s0 →
        KeepsSamples s0 s) ∧
      labels = buildLabels env pid ∧
      prof.Location = mapGetD s.allLocations pid ∧
      (∀ sample, sample ∈ prof.Sample ↔
        ∃ stack, mapGet (mapGetD s.allSamples pid) stack = some sample) ∧
      SameSkeleton s.heap heap := by
  unfold profileLoop at hm
  cases hd : drain env LoopState.init env.counts with
  | error stop =>
    rw [hd] at hm
    simp at hm
  | ok s =>
    rw [hd] at hm
    dsimp only at hm
    rcases drain_spec env env.counts [] LoopState.init (LoopInv_init env) (ValueInv_init env)
      with ⟨err, herr⟩ | ⟨s1, h1, hinv, hval, _, _⟩
    · rw [herr] at hd
      cases hd
    · rw [hd] at h1
      injection h1 with h1
      subst h1
      rw [List.nil_append] at hval
      rcases emitLoop_write env s (env.rangeAllSamples s.allSamples) _ _ _ _ _ hm
        with hin | ⟨pid, samples, hmem, hl, hloc, hsam, hsk⟩
      · simp at hin
      · have hget : mapGet s.allSamples pid = some samples :=
          mapGet_of_mem _ _ _ hinv.pids_nodup
            ((env.rangeAllSamples_perm s.allSamples).mem_iff.mp hmem)
        have hgetD : mapGetD s.allSamples pid = samples := by
          simp [mapGetD, hget]
        refine ⟨s, pid, rfl, hinv, hval, ?_, hl, hloc, ?_, hsk⟩
        · intro pre post s0 hcounts hpre
          rcases drain_spec env pre [] LoopState.init (LoopInv_init env) (ValueInv_init env)
            with ⟨err, herr⟩ | ⟨s2, h2, hinv2, hval2, _, _⟩
          · rw [herr] at hpre
            cases hpre
          · rw [hpre] at h2
            injection h2 with h2
            subst h2
            have hall := drain_append env pre post LoopState.init
            rw [← hcounts, hd, hpre] at hall
            dsimp only at hall
            rcases drain_spec env post _ s0 hinv2 hval2 with ⟨err, herr⟩ | ⟨s3, h3, _, _, _, hk⟩
            · rw [herr] at hall
              cases hall
            · rw [h3] at hall
              injection hall with hall
              subst hall
              exact hk
        · intro sample
          rw [hsam, hgetD]
          constructor
          · intro hs
            obtain ⟨⟨stack, smp⟩, hin, heq⟩ := List.mem_map.mp hs
            dsimp only at heq
            subst heq
            have hnd := hinv.stacks_nodup pid
            rw [hgetD] at hnd
            exact ⟨stack, mapGet_of_mem _ _ _ hnd
              ((env.rangeSamples_perm samples).mem_iff.mp hin)⟩
          · rintro ⟨stack, hs⟩
            exact List.mem_map.mpr ⟨(stack, sample),
              (env.rangeSamples_perm samples).mem_iff.mpr (mem_of_mapGet _ _ _ hs), rfl⟩


/-! ### The claims on the emitted profiles -/

theorem locationOf_mem {s : LoopState} {pid : PID} {key : Nat × Nat} {ptr : LocPtr}
    (h : locationOf s pid key = some ptr) : ptr ∈ mapGetD s.allLocations pid := by
  unfold locationOf at h
  split at h
  · exact mem_of_getElem? h
  · cases h

theorem mem_expected {s : LoopState} {pid : PID} (keys : List (Nat × Nat)) :
    ∀ (locs : List LocPtr), locs.map some = keys.map (locationOf s pid) →
      ∀ ptr ∈ locs, ∃ key ∈ keys, locationOf s pid key = some ptr := by
  intro locs hl ptr hp
  have h1 : some ptr ∈ locs.map some := List.mem_map.mpr ⟨ptr, hp, rfl⟩
  rw [hl] at h1
  obtain ⟨key, hk, he⟩ := List.mem_map.mp h1
  exact ⟨key, hk, he⟩

/-- C3. In every profile written in a round, the location at index `i` of the location table
has ID `i + 1`, so that the IDs of the table are distinct, and every entry of the location
list of every sample is an entry of that table. -/
theorem profileLoop_location_ids (env : Env) (labels : GoMap String String)
    (prof : PprofProfile) (heap : Heap)
    (hm : Event.write labels prof heap ∈ (profileLoop env).trace) :
    (∀ (i : Nat) (ptr : LocPtr), prof.Location[i]? = some ptr →
      ∃ l, heap.locations[ptr]? = some l ∧ l.ID = i + 1) ∧
    (∀ (i j : Nat) (pi pj : LocPtr) (li lj : Location),
      prof.Location[i]? = some pi → prof.Location[j]? = some pj →
      heap.locations[pi]? = some li → heap.locations[pj]? = some lj → li.ID = lj.ID → i = j) ∧
    (∀ sample ∈ prof.Sample, ∀ ptr ∈ sample.Location, ptr ∈ prof.Location) := by
  obtain ⟨s, pid, _, hinv, _, _, _, hloc, hsam, hsk⟩ := profileLoop_write hm
  have hid : ∀ (i : Nat) (ptr : LocPtr), prof.Location[i]? = some ptr →
      ∃ l, heap.locations[ptr]? = some l ∧ l.ID = i + 1 := by
    intro i ptr hi
    rw [hloc] at hi
    obtain ⟨l0, h0, e0⟩ := hinv.table pid i ptr hi
    obtain ⟨l, h1, e1⟩ := SameSkeleton_forward hsk h0
    exact ⟨l, h1, (eraseLine_ID e1).trans e0⟩
  refine ⟨hid, ?_, ?_⟩
  · intro i j pi pj li lj hi hj hli hlj hids
    obtain ⟨l1, h1, e1⟩ := hid i pi hi
    obtain ⟨l2, h2, e2⟩ := hid j pj hj
    rw [hli] at h1
    rw [hlj] at h2
    injection h1 with h1
    injection h2 with h2
    subst h1 h2
    omega
  · intro sample hs ptr hp
    obtain ⟨stack, hget⟩ := (hsam sample).mp hs
    obtain ⟨key, _, hk⟩ := mem_expected _ _ (hinv.samples pid stack sample hget) ptr hp
    rw [hloc]
    exact locationOf_mem hk

/-- C3, at the round of `envOneSample`, which writes one profile with three locations. -/
theorem profileLoop_location_ids_witness :
    Event.write labelsOneSample profOneSample heapOneSample ∈ (profileLoop envOneSample).trace ∧
    (∀ (i : Nat) (ptr : LocPtr), profOneSample.Location[i]? = some ptr →
      ∃ l, heapOneSample.locations[ptr]? = some l ∧ l.ID = i + 1) ∧
    (∀ (i j : Nat) (pi pj : LocPtr) (li lj : Location),
      profOneSample.Location[i]? = some pi → profOneSample.Location[j]? = some pj →
      heapOneSample.locations[pi]? = some li → heapOneSample.locations[pj]? = some lj →
      li.ID = lj.ID → i = j) ∧
    (∀ sample ∈ profOneSample.Sample, ∀ ptr ∈ sample.Location, ptr ∈ profOneSample.Location) :=
  ⟨by decide,
    profileLoop_location_ids envOneSample labelsOneSample profOneSample heapOneSample (by decide)⟩

theorem KeyOf_eraseLine {env : Env} {pid : PID} {key : Nat × Nat} {l l1 : Location}
    (he : l1.eraseLine = l.eraseLine) (hk : KeyOf env pid key l) : KeyOf env pid key l1 := by
  unfold KeyOf at hk ⊢
  rw [eraseLine_mapping he, eraseLine_address he]
  exact hk

theorem stackKeys_length (pid : PID) (stack : combinedStack) :
    (stackKeys pid stack).length = (stack.filter (fun a => decide (a ≠ 0))).length := by
  unfold stackKeys
  rw [List.length_append, List.length_map, List.length_map]
  conv_rhs => rw [← List.take_append_drop stackDepth stack, List.filter_append, List.length_append]
  omega

/-- The object behind the location of a key is the one made for that key. -/
theorem LoopInv_keyOf {env : Env} {s : LoopState} (hinv : LoopInv env s) {pid : PID}
    {key : Nat × Nat} {ptr : LocPtr} (h : locationOf s pid key = some ptr) :
    ∃ l, s.heap.locations[ptr]? = some l ∧ KeyOf env pid key l := by
  unfold locationOf at h
  cases hg : mapGet (mapGetD s.locationIndices pid) key with
  | none =>
    rw [hg] at h
    cases h
  | some i =>
    rw [hg] at h
    dsimp only at h
    obtain ⟨l, hl, _⟩ := hinv.table pid i ptr h
    obtain ⟨key1, hk1, hk2⟩ := hinv.index_key pid i ptr l h hl
    have hkk := hinv.index_inj pid key1 key i hk1 hg
    subst hkk
    exact ⟨l, hl, hk2⟩

theorem getElem?_map_some_eq {α β : Type} {f : α → Option β} {keys : List α} {locs : List β}
    (hl : locs.map some = keys.map f) {j : Nat} {key : α} {ptr : β}
    (hk : keys[j]? = some key) (hp : locs[j]? = some ptr) : f key = some ptr := by
  have h1 : (locs.map some)[j]? = some (some ptr) := by
    rw [List.getElem?_map, hp]
    rfl
  rw [hl, List.getElem?_map, hk] at h1
  simpa using h1

/-- C7. In every profile written in a round, every sample was built for a combined stack of
its pid, and its location list is the sequence of the locations of the non-zero addresses of
the kernel half `stack[stackDepth:]` in array order, followed by the locations of the
non-zero addresses of the user half `stack[:stackDepth]` in array order; its length is the
number of non-zero addresses of the combined stack. -/
theorem profileLoop_sample_locations (env : Env) (labels : GoMap String String)
    (prof : PprofProfile) (heap : Heap)
    (hm : Event.write labels prof heap ∈ (profileLoop env).trace) :
    ∃ s pid, drain env LoopState.init env.counts = .ok s ∧
      prof.Location = mapGetD s.allLocations pid ∧
      ∀ sample ∈ prof.Sample, ∃ stack,
        mapGet (mapGetD s.allSamples pid) stack = some sample ∧
        SampleLocationsOf env s heap pid stack sample := by
  obtain ⟨s, pid, hd, hinv, _, _, _, hloc, hsam, hsk⟩ := profileLoop_write hm
  refine ⟨s, pid, hd, hloc, ?_⟩
  intro sample hs
  obtain ⟨stack, hget⟩ := (hsam sample).mp hs
  have hexp := hinv.samples pid stack sample hget
  refine ⟨stack, hget, ?_, ?_, ?_⟩
  · rw [hexp]
    unfold stackKeys
    rw [List.map_append, List.map_map, List.map_map]
    rfl
  · rw [← stackKeys_length pid stack]
    have := congrArg List.length hexp
    simpa using this
  · intro j key ptr hk hp
    have hk2 := getElem?_map_some_eq hexp hk hp
    obtain ⟨l0, h0, k0⟩ := LoopInv_keyOf hinv hk2
    obtain ⟨l, h1, e1⟩ := SameSkeleton_forward hsk h0
    exact ⟨l, h1, KeyOf_eraseLine e1 k0⟩

/-- C7, at the round of `envOneSample`: the sample of the written profile has the location of
the kernel address first, then those of the two user addresses. -/
theorem profileLoop_sample_locations_witness :
    Event.write labelsOneSample profOneSample heapOneSample ∈ (profileLoop envOneSample).trace ∧
    ∃ s pid, drain envOneSample LoopState.init envOneSample.counts = .ok s ∧
      profOneSample.Location = mapGetD s.allLocations pid ∧
      ∀ sample ∈ profOneSample.Sample, ∃ stack,
        mapGet (mapGetD s.allSamples pid) stack = some sample ∧
        SampleLocationsOf envOneSample s heapOneSample pid stack sample :=
  ⟨by decide,
    profileLoop_sample_locations envOneSample labelsOneSample profOneSample heapOneSample
      (by decide)⟩


/-- C4 (the claim fails as stated). Process 42 is sampled at `0x1010` and `0x5010`, in two
shared objects, and `normalizeAddress` gives `0x10` for both: the written profile has two
distinct locations, both made from the user half, with the same emitted address. -/
theorem profileLoop_shared_normalized_address :
    Event.write labelsOneSample profSameNormalized heapSameNormalized
        ∈ (profileLoop envSameNormalized).trace ∧
      ¬ NoSharedMarkerAddress 42 profSameNormalized heapSameNormalized := by
  refine ⟨by decide, ?_⟩
  intro h
  exact h 0 1 0 1 _ _ rfl rfl rfl rfl (by decide) (by decide)

/-- C4 (amended). In every profile written in a round, every location of the table was made
for exactly one key (pid marker, sampled address), no key has two locations, a location of
the kernel mapping has its sampled address as Address, so that no two distinct kernel
locations share Address, and a user location has the normalized sampled address as
Address. -/
theorem profileLoop_one_key_per_location (env : Env) (labels : GoMap String String)
    (prof : PprofProfile) (heap : Heap)
    (hm : Event.write labels prof heap ∈ (profileLoop env).trace) :
    ∃ s pid, drain env LoopState.init env.counts = .ok s ∧
      prof.Location = mapGetD s.allLocations pid ∧ OneKeyPerLocation env s pid prof heap := by
  obtain ⟨s, pid, hd, hinv, _, _, _, hloc, _, hsk⟩ := profileLoop_write hm
  have hkey : ∀ (i : Nat) (ptr : LocPtr) (l : Location), prof.Location[i]? = some ptr →
      heap.locations[ptr]? = some l →
      ∃ key, mapGet (mapGetD s.locationIndices pid) key = some i ∧ KeyOf env pid key l ∧
        ∀ key1, mapGet (mapGetD s.locationIndices pid) key1 = some i → key1 = key := by
    intro i ptr l hi hl
    rw [hloc] at hi
    obtain ⟨l0, h0, e0⟩ := SameSkeleton_backward hsk hl
    obtain ⟨key, hk1, hk2⟩ := hinv.index_key pid i ptr l0 hi h0
    exact ⟨key, hk1, KeyOf_eraseLine e0 hk2, fun key1 h1 => hinv.index_inj pid key1 key i h1 hk1⟩
  refine ⟨s, pid, hd, hloc, hkey, ?_, ?_⟩
  · intro key i j hi hj
    rw [hi] at hj
    injection hj
  · intro i j pi pj li lj hi hj hli hlj hmi hmj hadr
    obtain ⟨ki, hki1, hki2, _⟩ := hkey i pi li hi hli
    obtain ⟨kj, hkj1, hkj2, _⟩ := hkey j pj lj hj hlj
    have e1 := hki2.1 hmi
    have e2 := hkj2.1 hmj
    rw [e1] at hki1
    rw [e2, ← hadr, hki1] at hkj1
    injection hkj1

/-- C4 (amended), at the round of `envOneSample`. -/
theorem profileLoop_one_key_per_location_witness :
    Event.write labelsOneSample profOneSample heapOneSample ∈ (profileLoop envOneSample).trace ∧
    ∃ s pid, drain envOneSample LoopState.init envOneSample.counts = .ok s ∧
      profOneSample.Location = mapGetD s.allLocations pid ∧
      OneKeyPerLocation envOneSample s pid profOneSample heapOneSample :=
  ⟨by decide,
    profileLoop_one_key_per_location envOneSample labelsOneSample profOneSample heapOneSample
      (by decide)⟩


theorem contribution_value {env : Env} {e : CountsEntry} {pid : PID} {stack : combinedStack}
    {v : Nat} (hc : contribution env e = some (pid, stack, v)) : v ≠ 0 ∧ v < 2 ^ 64 := by
  unfold contribution at hc
  split at hc
  · cases hc
  · dsimp only at hc
    split at hc
    · split at hc
      · cases hc
      · split at hc
        · cases hc
        · split at hc
          · cases hc
          · rename_i w hz
            injection hc with hc
            injection hc with _ hc
            injection hc with _ hc
            subst hc
            exact ⟨hz, Nat.mod_lt _ (by decide)⟩
    · cases hc

theorem contributions_value (env : Env) (entries : List CountsEntry) (pid : PID)
    (stack : combinedStack) : ∀ c ∈ contributions env entries pid stack, c ≠ 0 ∧ c < 2 ^ 64 := by
  intro c hc
  unfold contributions at hc
  obtain ⟨e, _, he⟩ := List.mem_filterMap.mp hc
  cases hce : contribution env e with
  | none =>
    rw [hce] at he
    cases he
  | some t =>
    obtain ⟨p, st, v⟩ := t
    rw [hce] at he
    dsimp only at he
    split at he
    · injection he with he
      subst he
      exact contribution_value hce
    · cases he

theorem contribution_of_zero (env : Env) {e : CountsEntry} {v : Nat} (hv : e.value = .ok v)
    (hz : v % 2 ^ 64 = 0) : contribution env e = none := by
  unfold contribution
  rw [hv]
  cases hk : e.key with
  | error _ => rfl
  | ok key =>
    dsimp only
    split
    · split
      · rfl
      · simp only [hz, if_true]
    · rfl

theorem sum_ne_zero_of_pos : ∀ (l : List Nat), l ≠ [] → (∀ c ∈ l, c ≠ 0) → l.sum ≠ 0
  | [], h, _ => absurd rfl h
  | c :: rest, _, hpos => by
    have := hpos c (List.mem_cons_self _ _)
    rw [List.sum_cons]
    omega

/-- C5 (the claim fails as stated). Two entries of process 42 with the same combined stack
and count `2^63` each are added with `sample.Value[0] += int64(value)`, which wraps around:
the written profile has a sample with value 0. -/
theorem profileLoop_zero_value_sample :
    Event.write labelsOneSample (profUserOnly 0) heapUserOnly ∈ (profileLoop envOverflow).trace ∧
      ¬ AllValuesNonZero (profUserOnly 0) := by
  refine ⟨by decide, ?_⟩
  intro h
  exact h _ (List.mem_singleton.mpr rfl) 0 (List.mem_singleton.mpr rfl) rfl

/-- C5 (amended). In every profile written in a round, every sample has a single value, the
sum of the counts of the entries that contributed to it taken as an `int64`; every such count
is a non-zero `uint64` and there is at least one; so the value is not zero whenever the sum
of the counts is below `2^64`. An entry whose count is zero leaves the state of the loop as
it is: it makes no sample and no location. -/
theorem profileLoop_nonzero_values (env : Env) (labels : GoMap String String)
    (prof : PprofProfile) (heap : Heap)
    (hm : Event.write labels prof heap ∈ (profileLoop env).trace) :
    (∃ s pid, drain env LoopState.init env.counts = .ok s ∧
      ∀ sample ∈ prof.Sample, ∃ stack,
        mapGet (mapGetD s.allSamples pid) stack = some sample ∧
        NonZeroValueOf env pid stack sample) ∧
    (∀ (s : LoopState) (e : CountsEntry) (v : Nat), e.value = .ok v → v % 2 ^ 64 = 0 →
      loopBody env s e = .ok s ∨ ∃ err, loopBody env s e = .error (.returned err)) := by
  obtain ⟨s, pid, hd, _, hval, _, _, _, hsam, _⟩ := profileLoop_write hm
  refine ⟨⟨s, pid, hd, ?_⟩, ?_⟩
  · intro sample hs
    obtain ⟨stack, hget⟩ := (hsam sample).mp hs
    obtain ⟨hne, hv⟩ := hval.present pid stack sample hget
    have hpos := contributions_value env env.counts pid stack
    refine ⟨stack, hget, hne, hpos, hv, ?_⟩
    intro hlt v hvm
    rw [hv, List.mem_singleton] at hvm
    subst hvm
    have hsum := sum_ne_zero_of_pos _ hne (fun c hc => (hpos c hc).1)
    apply toInt64_ne_zero
    rw [Nat.mod_eq_of_lt hlt]
    exact hsum
  · intro s e v hv hz
    rcases loopBody_spec env s e with ⟨err, herr⟩ | ⟨_, hb⟩ | ⟨p, st, w, hc, _, _⟩
    · exact Or.inr ⟨err, herr⟩
    · exact Or.inl hb
    · rw [contribution_of_zero env hv hz] at hc
      cases hc

/-- C5 (amended), at the round of `envAggregate`, whose profile has one sample of value 5. -/
theorem profileLoop_nonzero_values_witness :
    Event.write labelsOneSample (profUserOnly 5) heapUserOnly ∈ (profileLoop envAggregate).trace ∧
    (∃ s pid, drain envAggregate LoopState.init envAggregate.counts = .ok s ∧
      ∀ sample ∈ (profUserOnly 5).Sample, ∃ stack,
        mapGet (mapGetD s.allSamples pid) stack = some sample ∧
        NonZeroValueOf envAggregate pid stack sample) ∧
    (∀ (s : LoopState) (e : CountsEntry) (v : Nat), e.value = .ok v → v % 2 ^ 64 = 0 →
      loopBody envAggregate s e = .ok s ∨
        ∃ err, loopBody envAggregate s e = .error (.returned err)) :=
  ⟨by decide,
    profileLoop_nonzero_values envAggregate labelsOneSample (profUserOnly 5) heapUserOnly
      (by decide)⟩


/-- C6 (the claim fails as stated). One entry of process 42 has count `2^63`: the contributed
counts of its stack sum to `2^63`, and the sample of the written profile has the value
`int64(2^63)`, which is `-2^63`. -/
theorem profileLoop_value_not_sum :
    Event.write labelsOneSample (profUserOnly (-9223372036854775808)) heapUserOnly
        ∈ (profileLoop envHuge).trace ∧
      ∃ s, drain envHuge LoopState.init envHuge.counts = .ok s ∧
        ∃ sample, mapGet (mapGetD s.allSamples 42) stackUserOnly = some sample ∧
          sample ∈ (profUserOnly (-9223372036854775808)).Sample ∧
          ¬ ValueIsSum envHuge 42 stackUserOnly sample := by
  refine ⟨by decide, _, rfl, { Location := [0, 1], Value := [-9223372036854775808] }, by decide,
    by decide, ?_⟩
  intro h
  have hsum : (contributions envHuge envHuge.counts 42 stackUserOnly).sum = 2 ^ 63 := by decide
  unfold ValueIsSum at h
  rw [hsum] at h
  exact absurd h (by decide)

/-- C6 (amended). In every profile written in a round, every sample is the sample of a
combined stack of the pid of the profile, its single value is the sum, taken as an `int64`,
of the counts of the entries of that pid that passed the pid filter, had at least one stack
half read, had a non-zero count and produced that stack, which is the sum itself when it is
below `2^63`; and its location list is the one it had after any earlier entry, so the one
built by the first such entry. -/
theorem profileLoop_value_is_wrapped_sum (env : Env) (labels : GoMap String String)
    (prof : PprofProfile) (heap : Heap)
    (hm : Event.write labels prof heap ∈ (profileLoop env).trace) :
    ∃ s pid, drain env LoopState.init env.counts = .ok s ∧
      ∀ sample ∈ prof.Sample, ∃ stack,
        mapGet (mapGetD s.allSamples pid) stack = some sample ∧
        ValueAndLocationsOf env pid stack sample := by
  obtain ⟨s, pid, hd, _, hval, hkeep, _, _, hsam, _⟩ := profileLoop_write hm
  refine ⟨s, pid, hd, ?_⟩
  intro sample hs
  obtain ⟨stack, hget⟩ := (hsam sample).mp hs
  obtain ⟨_, hv⟩ := hval.present pid stack sample hget
  refine ⟨stack, hget, hv, ?_, ?_⟩
  · intro hlt
    rw [hv, toInt64_of_lt _ hlt]
  · intro pre post s0 sample0 hcounts hpre hget0
    obtain ⟨sample1, h1, e1⟩ := hkeep pre post s0 hcounts hpre pid stack sample0 hget0
    rw [hget] at h1
    injection h1 with h1
    subst h1
    exact e1

/-- C6 (amended), at the round of `envAggregate`: the counts 2 and 3 of the two entries with
the same stack give one sample of value 5. -/
theorem profileLoop_value_is_wrapped_sum_witness :
    Event.write labelsOneSample (profUserOnly 5) heapUserOnly ∈ (profileLoop envAggregate).trace ∧
    ∃ s pid, drain envAggregate LoopState.init envAggregate.counts = .ok s ∧
      ∀ sample ∈ (profUserOnly 5).Sample, ∃ stack,
        mapGet (mapGetD s.allSamples pid) stack = some sample ∧
        ValueAndLocationsOf envAggregate pid stack sample :=
  ⟨by decide,
    profileLoop_value_is_wrapped_sum envAggregate labelsOneSample (profUserOnly 5) heapUserOnly
      (by decide)⟩


/-! ### Address normalization -/

/-- C11. `normalizeAddress` returns the address unchanged when the mapping is nil, when the
mapping is unsymbolizable, when the object file cannot be opened and when `ObjAddr` fails;
when the mapping is symbolizable and both calls succeed it returns the result of `ObjAddr`.
So `userStep`, for a non-zero address that has no location yet and whose mapping lookup gave
a nil mapping, allocates a location with a nil Mapping and the sampled address as Address. -/
theorem normalizeAddress_unchanged (env : Env) (pid addr : Nat) :
    normalizeAddress env none pid addr = addr ∧
    (∀ m, env.Unsymbolizable m = true → normalizeAddress env (some m) pid addr = addr) ∧
    (∀ m err, env.ObjectFileForProcess pid m = .error err →
      normalizeAddress env (some m) pid addr = addr) ∧
    (∀ m objAddr err, env.ObjectFileForProcess pid m = .ok objAddr → objAddr addr = .error err →
      normalizeAddress env (some m) pid addr = addr) ∧
    (∀ m objAddr normalizedAddr, env.Unsymbolizable m = false →
      env.ObjectFileForProcess pid m = .ok objAddr → objAddr addr = .ok normalizedAddr →
      normalizeAddress env (some m) pid addr = normalizedAddr) ∧
    (∀ s : LoopState, addr ≠ 0 → mapGet (mapGetD s.locationIndices pid) (pid, addr) = none →
      (env.PIDAddrMapping pid addr).1 = none →
      userStep env pid s addr
        = .ok (pushSampleLocation pid
            (addLocation pid s (pid, addr)
              { ID := (mapGetD s.allLocations pid).length + 1, Mapping := none,
                Address := addr, Line := [] } (some pid))
            s.heap.locations.length)) := by
  refine ⟨rfl, ?_, ?_, ?_, ?_, ?_⟩
  · intro m hu
    simp only [normalizeAddress, hu, if_true]
  · intro m err ho
    unfold normalizeAddress
    dsimp only
    split
    · rfl
    · rw [ho]
  · intro m objAddr err ho he
    unfold normalizeAddress
    dsimp only
    split
    · rfl
    · rw [ho]
      dsimp only
      rw [he]
  · intro m objAddr n hu ho hn
    unfold normalizeAddress
    dsimp only
    rw [hu, ho]
    dsimp only
    rw [hn]
    rfl
  · intro s ha hg hm
    rw [userStep_eq, if_pos ha]
    unfold locate
    rw [hg]
    dsimp only
    have hl : userLocation env pid s addr
        = { ID := (mapGetD s.allLocations pid).length + 1, Mapping := none,
            Address := addr, Line := [] } := by
      unfold userLocation
      rw [hm]
      rfl
    rw [hl]
    apply appendSampleLocation_ok
    rw [addLocation_locs]
    simp only [if_true]
    exact List.getElem?_concat_length _ _

/-- C11, at an address of a mapped shared object, which is normalized to its offset, and at
the first user address of a process without mappings, whose location keeps the address. -/
theorem normalizeAddress_unchanged_witness :
    normalizeAddress envSameNormalized (some mappingLibA) 42 0x1010 = 0x10 ∧
    userStep envBase 42 LoopState.init 0xA
      = .ok (pushSampleLocation 42
          (addLocation 42 LoopState.init (42, 0xA)
            { ID := (mapGetD LoopState.init.allLocations 42).length + 1, Mapping := none,
              Address := 0xA, Line := [] } (some 42))
          LoopState.init.heap.locations.length) :=
  ⟨(normalizeAddress_unchanged envSameNormalized 42 0x1010).2.2.2.2.1 mappingLibA
      (fun addr => .ok (addr - mappingLibA.Start + mappingLibA.Offset)) 0x10 rfl rfl rfl,
    (normalizeAddress_unchanged envBase 42 0xA).2.2.2.2.2 LoopState.init (by decide) rfl rfl⟩


/-! ### Errors of the stack reads -/

theorem loopBody_filtered (env : Env) (s : LoopState) (e : CountsEntry) (key : stackCountKey)
    (hk : e.key = .ok key) (hp : pidFound env.processes key.PID = true) :
    loopBody env s e
      = match unrecoverableOf (userRead env key).2 with
        | some userErr => .error (.returned userErr)
        | none =>
          match unrecoverableOf (kernelRead env key).2 with
          | some kernelErr => .error (.returned kernelErr)
          | none =>
            if (userRead env key).2.isSome && (kernelRead env key).2.isSome then .ok s
            else recordEntry env key (kernelRead env key).1 e.value s := by
  unfold loopBody
  rw [hk]
  dsimp only
  rw [hp]
  rfl

theorem contribution_filtered (env : Env) (e : CountsEntry) (key : stackCountKey)
    (hk : e.key = .ok key) (hp : pidFound env.processes key.PID = true) :
    contribution env e
      = if (userRead env key).2.isSome && (kernelRead env key).2.isSome then none
        else
          match e.value with
          | .error _ => none
          | .ok v =>
            if v % 2 ^ 64 = 0 then none
            else some (key.PID, (kernelRead env key).1, v % 2 ^ 64) := by
  unfold contribution
  rw [hk]
  dsimp only
  rw [if_pos hp]
  rfl

theorem unrecoverableOf_some {e : Error} (h : e.unrecoverable = true) :
    unrecoverableOf (some e) = some e := by
  simp [unrecoverableOf, h]

theorem unrecoverableOf_recoverable {e : Error} (h : e.unrecoverable = false) :
    unrecoverableOf (some e) = none := by
  simp [unrecoverableOf, h]

/-- A round in which the loop body returns an error at an entry it reaches returns that
error and writes nothing. -/
theorem profileLoop_of_loopBody_error (env : Env) (pre post : List CountsEntry)
    (e : CountsEntry) (s0 : LoopState) (stop : Stop) (hc : env.counts = pre ++ e :: post)
    (hpre : drain env LoopState.init pre = .ok s0) (hb : loopBody env s0 e = .error stop) :
    (profileLoop env).err = some stop ∧ (profileLoop env).trace = [] := by
  have hd : drain env LoopState.init env.counts = .error stop := by
    rw [hc, drain_append, hpre]
    simp only [drain, hb]
  unfold profileLoop
  rw [hd]
  exact ⟨rfl, rfl⟩


theorem LoopInv_of_drain {env : Env} {pre : List CountsEntry} {s : LoopState}
    (hpre : drain env LoopState.init pre = .ok s) : LoopInv env s := by
  rcases drain_spec env pre [] LoopState.init (LoopInv_init env) (ValueInv_init env)
    with ⟨err, herr⟩ | ⟨s1, h1, hinv, _⟩
  · rw [herr] at hpre
    cases hpre
  · rw [hpre] at h1
    injection h1 with h1
    subst h1
    exact hinv

/-- C14. Take an entry whose key is decoded and whose pid passes the pid filter. If the read
of the user stack fails with an unrecoverable error, or the read of the kernel stack, which
is made when the first did not, fails with one, the loop body returns that error: a round
that reaches the entry returns it and does not call the profile writer. If both reads fail
with recoverable errors the entry is skipped: the state is left as it is and the entry
contributes to no sample. If exactly one read fails, with a recoverable error, the body goes
on to read the count of the entry: when the count is read the body returns no error in any
state a round can be in, and a non-zero count goes into the sample of the stack. -/
theorem loopBody_stack_read_errors (env : Env) (e : CountsEntry) (key : stackCountKey)
    (hk : e.key = .ok key) (hp : pidFound env.processes key.PID = true) :
    (∀ err, ((userRead env key).2 = some err ∧ err.unrecoverable = true) ∨
        (unrecoverableOf (userRead env key).2 = none ∧ (kernelRead env key).2 = some err ∧
          err.unrecoverable = true) →
      (∀ s, loopBody env s e = .error (.returned err)) ∧
      ∀ pre post s0, env.counts = pre ++ e :: post → drain env LoopState.init pre = .ok s0 →
        (profileLoop env).err = some (.returned err) ∧ (profileLoop env).trace = []) ∧
    (∀ ue ke, (userRead env key).2 = some ue → ue.unrecoverable = false →
      (kernelRead env key).2 = some ke → ke.unrecoverable = false →
      (∀ s, loopBody env s e = .ok s) ∧ contribution env e = none) ∧
    (∀ err, ((userRead env key).2 = some err ∧ err.unrecoverable = false ∧
          (kernelRead env key).2 = none) ∨
        ((userRead env key).2 = none ∧ (kernelRead env key).2 = some err ∧
          err.unrecoverable = false) →
      (∀ s, loopBody env s e = recordEntry env key (kernelRead env key).1 e.value s) ∧
      ∀ v, e.value = .ok v →
        (v % 2 ^ 64 ≠ 0 →
          contribution env e = some (key.PID, (kernelRead env key).1, v % 2 ^ 64)) ∧
        ∀ pre s, drain env LoopState.init pre = .ok s →
          ∃ s1, loopBody env s e = .ok s1 ∧
            (v % 2 ^ 64 ≠ 0 →
              ∃ sample, mapGet (mapGetD s1.allSamples key.PID) (kernelRead env key).1
                = some sample)) := by
  refine ⟨?_, ?_, ?_⟩
  · intro err hcase
    have hbody : ∀ s, loopBody env s e = .error (.returned err) := by
      intro s
      rw [loopBody_filtered env s e key hk hp]
      rcases hcase with ⟨hu, hue⟩ | ⟨hu, hke, hkeu⟩
      · rw [hu, unrecoverableOf_some hue]
      · rw [hu]
        dsimp only
        rw [hke, unrecoverableOf_some hkeu]
    refine ⟨hbody, ?_⟩
    intro pre post s0 hc hpre
    exact profileLoop_of_loopBody_error env pre post e s0 _ hc hpre (hbody s0)
  · intro ue ke hu hue hke hkeu
    refine ⟨?_, ?_⟩
    · intro s
      rw [loopBody_filtered env s e key hk hp, hu, unrecoverableOf_recoverable hue]
      dsimp only
      rw [hke, unrecoverableOf_recoverable hkeu]
      rfl
    · rw [contribution_filtered env e key hk hp, hu, hke]
      rfl
  · intro err hcase
    have hflag : ((userRead env key).2.isSome && (kernelRead env key).2.isSome) = false := by
      rcases hcase with ⟨_, _, hke⟩ | ⟨hu, _, _⟩
      · rw [hke]
        simp
      · rw [hu]
        simp
    have hbody : ∀ s, loopBody env s e = recordEntry env key (kernelRead env key).1 e.value s := by
      intro s
      rw [loopBody_filtered env s e key hk hp]
      rcases hcase with ⟨hu, hue, hke⟩ | ⟨hu, hke, hkeu⟩
      · rw [hu, unrecoverableOf_recoverable hue]
        dsimp only
        rw [hke]
        rfl
      · have h0 : unrecoverableOf (none : Option Error) = none := rfl
        rw [hu, h0]
        dsimp only
        rw [hke, unrecoverableOf_recoverable hkeu]
        rfl
    refine ⟨hbody, ?_⟩
    intro v hv
    refine ⟨?_, ?_⟩
    · intro hz
      rw [contribution_filtered env e key hk hp, hflag, hv]
      simp only [Bool.false_eq_true, if_false, hz]
    · intro pre s hpre
      rw [hbody s]
      unfold recordEntry
      rw [hv]
      dsimp only
      by_cases hz : v % 2 ^ 64 = 0
      · rw [if_pos hz]
        exact ⟨s, rfl, fun h => absurd hz h⟩
      · rw [if_neg hz]
        obtain ⟨s1, h1, _, _, _, sample1, hs1, _⟩ :=
          recordSample_spec (LoopInv_of_drain hpre) key.PID (kernelRead env key).1 (v % 2 ^ 64)
        exact ⟨s1, h1, fun _ => ⟨sample1, hs1⟩⟩


/-- C14, at a round whose only entry has an unrecoverable error of the user stack read, which
returns that error and writes nothing, and at a round whose only entry has a recoverable
error of the kernel stack read only, whose body returns no error and stores a sample. -/
theorem loopBody_stack_read_errors_witness :
    (pidFound envUnrecoverable.processes key42.PID = true ∧
      (userRead envUnrecoverable key42).2 = some (errUnrecoverable.wrap "read user stack bytes") ∧
      (profileLoop envUnrecoverable).err
        = some (.returned (errUnrecoverable.wrap "read user stack bytes")) ∧
      (profileLoop envUnrecoverable).trace = []) ∧
    (pidFound envKernelMissing.processes key42.PID = true ∧
      (userRead envKernelMissing key42).2 = none ∧
      (kernelRead envKernelMissing key42).2
        = some { msg := "stack not found", unrecoverable := false } ∧
      ∃ s1, loopBody envKernelMissing LoopState.init entry42 = .ok s1 ∧
        ((5 : Nat) % 2 ^ 64 ≠ 0 →
          ∃ sample, mapGet (mapGetD s1.allSamples key42.PID) (kernelRead envKernelMissing key42).1
            = some sample)) :=
  ⟨⟨by decide, rfl,
      (((loopBody_stack_read_errors envUnrecoverable entry42 key42 rfl (by decide)).1
        (errUnrecoverable.wrap "read user stack bytes") (Or.inl ⟨rfl, rfl⟩)).2
        [] [] LoopState.init rfl rfl)⟩,
    ⟨by decide, rfl, rfl,
      (((loopBody_stack_read_errors envKernelMissing entry42 key42 rfl (by decide)).2.2
        { msg := "stack not found", unrecoverable := false } (Or.inr ⟨rfl, rfl, rfl⟩)).2
        5 rfl).2 [] LoopState.init rfl⟩⟩


/-! ### Zeros in the user half -/

/-- C13 (the claim fails as stated). The user stack of the entry of process 42 is
`[0, 0xB, 0, ...]`: its first address is 0, and the sample of the written profile has the
location made from the user half for `0xB`. The walk skips a zero, it does not stop at it. -/
theorem profileLoop_user_location_after_zero :
    Event.write labelsOneSample profZeroFirst heapZeroFirst ∈ (profileLoop envZeroFirst).trace ∧
      ∃ s, drain envZeroFirst LoopState.init envZeroFirst.counts = .ok s ∧
        ∃ sample, mapGet (mapGetD s.allSamples 42) stackZeroFirst = some sample ∧
          stackZeroFirst[0]? = some 0 ∧ sample ∈ profZeroFirst.Sample ∧
          ¬ UserPortionEmpty heapZeroFirst sample := by
  refine ⟨by decide, _, rfl, { Location := [0], Value := [5] }, by decide, rfl, by decide, ?_⟩
  intro h
  have := h 0 (List.mem_singleton.mpr rfl) _ rfl
  exact absurd this (by decide)

theorem exists_of_mem_keys {α β : Type} {f : α → Option β} {keys : List α} {locs : List β}
    (hl : locs.map some = keys.map f) {key : α} (hk : key ∈ keys) :
    ∃ ptr ∈ locs, f key = some ptr := by
  have h1 : f key ∈ locs.map some := by
    rw [hl]
    exact List.mem_map.mpr ⟨key, hk, rfl⟩
  obtain ⟨ptr, hp, he⟩ := List.mem_map.mp h1
  exact ⟨ptr, hp, he.symm⟩

/-- C13 (amended). In every profile written in a round, the samples are those built for the
combined stacks of its pid, and for every such stack: every non-zero address of the user
half, also one that follows a zero, has its location in the list of the sample; when the
user half holds only zeros the list is the one of the kernel half; and, for a pid other than
0, the list holds no location made from the user half if and only if the user half holds
only zeros. -/
theorem profileLoop_user_portion (env : Env) (labels : GoMap String String)
    (prof : PprofProfile) (heap : Heap)
    (hm : Event.write labels prof heap ∈ (profileLoop env).trace) :
    ∃ s pid, drain env LoopState.init env.counts = .ok s ∧
      (∀ sample, sample ∈ prof.Sample ↔
        ∃ stack, mapGet (mapGetD s.allSamples pid) stack = some sample) ∧
      ∀ stack sample, mapGet (mapGetD s.allSamples pid) stack = some sample →
        UserPortionOf env s heap pid stack sample := by
  obtain ⟨s, pid, hd, hinv, _, _, _, _, hsam, hsk⟩ := profileLoop_write hm
  refine ⟨s, pid, hd, hsam, ?_⟩
  intro stack sample hget
  have hexp := hinv.samples pid stack sample hget
  have hnonzero : ∀ a ∈ stack.take stackDepth, a ≠ 0 →
      ∃ ptr ∈ sample.Location, locationOf s pid (pid, a) = some ptr ∧
        ∃ l, heap.locations[ptr]? = some l ∧ KeyOf env pid (pid, a) l := by
    intro a ha hne
    have hk : (pid, a) ∈ stackKeys pid stack := by
      unfold stackKeys
      apply List.mem_append_right
      exact List.mem_map.mpr ⟨a, List.mem_filter.mpr ⟨ha, by simpa using hne⟩, rfl⟩
    obtain ⟨ptr, hp, hloc⟩ := exists_of_mem_keys hexp hk
    obtain ⟨l0, h0, k0⟩ := LoopInv_keyOf hinv hloc
    obtain ⟨l1, h1, e1⟩ := SameSkeleton_forward hsk h0
    exact ⟨ptr, hp, hloc, l1, h1, KeyOf_eraseLine e1 k0⟩
  have hkeys : (∀ a ∈ stack.take stackDepth, a = 0) → stackKeys pid stack
      = ((stack.drop stackDepth).filter (fun a => decide (a ≠ 0))).map (fun a => (0, a)) := by
    intro hzero
    have hnil : (stack.take stackDepth).filter (fun a => decide (a ≠ 0)) = [] := by
      rw [List.filter_eq_nil_iff]
      intro a ha
      simp [hzero a ha]
    unfold stackKeys
    rw [hnil, List.map_nil, List.append_nil]
  refine ⟨hnonzero, ?_, ?_⟩
  · intro hzero
    rw [hexp, hkeys hzero, List.map_map]
    rfl
  · intro hpid
    constructor
    · intro hempty a ha
      by_contra hne
      obtain ⟨ptr, hp, _, l, hl, hkey⟩ := hnonzero a ha hne
      have hk := hkey.1 (hempty ptr hp l hl)
      injection hk with hk _
      exact hpid hk
    · intro hzero ptr hp l hl
      obtain ⟨key, hk, hloc⟩ := mem_expected _ _ hexp ptr hp
      rw [hkeys hzero] at hk
      obtain ⟨a, _, hka⟩ := List.mem_map.mp hk
      obtain ⟨l0, h0, k0⟩ := LoopInv_keyOf hinv hloc
      obtain ⟨l1, h1, e1⟩ := SameSkeleton_forward hsk h0
      rw [hl] at h1
      injection h1 with h1
      subst h1
      have k1 := KeyOf_eraseLine e1 k0
      by_contra hm1
      obtain ⟨addr, hkey, _⟩ := k1.2 hm1
      rw [← hka] at hkey
      injection hkey with hkey _
      exact hpid hkey.symm

/-- C13 (amended), at the round of `envTwoHalves`, of process 42. The user half of
`stackKernelOnly` holds only zeros, and the sample built from it has no location made from
the user half. The user half of `stackZeroFirst` is `[0, 0xB, 0, ...]`, and the sample built
from it has a location made from the user half. -/
theorem profileLoop_user_portion_witness :
    Event.write labelsOneSample profTwoHalves heapTwoHalves ∈ (profileLoop envTwoHalves).trace ∧
    (∃ s pid, drain envTwoHalves LoopState.init envTwoHalves.counts = .ok s ∧
      (∀ sample, sample ∈ profTwoHalves.Sample ↔
        ∃ stack, mapGet (mapGetD s.allSamples pid) stack = some sample) ∧
      ∀ stack sample, mapGet (mapGetD s.allSamples pid) stack = some sample →
        UserPortionOf envTwoHalves s heapTwoHalves pid stack sample) ∧
    ∃ s, drain envTwoHalves LoopState.init envTwoHalves.counts = .ok s ∧
      (mapGet (mapGetD s.allSamples 42) stackKernelOnly = some sampleKernelOnly ∧
        (∀ a ∈ stackKernelOnly.take stackDepth, a = 0) ∧
        UserPortionEmpty heapTwoHalves sampleKernelOnly) ∧
      (mapGet (mapGetD s.allSamples 42) stackZeroFirst = some sampleZeroFirst ∧
        stackZeroFirst[0]? = some 0 ∧
        ¬ UserPortionEmpty heapTwoHalves sampleZeroFirst) := by
  have hthm := profileLoop_user_portion envTwoHalves labelsOneSample profTwoHalves
    heapTwoHalves (by decide)
  refine ⟨by decide, hthm, ?_⟩
  obtain ⟨s, pid, hd, hsam, hall⟩ := hthm
  have hs0 : ∃ s0, drain envTwoHalves LoopState.init envTwoHalves.counts = .ok s0 ∧
      s0.allSamples
        = [(42, [(stackKernelOnly, sampleKernelOnly), (stackZeroFirst, sampleZeroFirst)])] :=
    ⟨_, rfl, by decide⟩
  obtain ⟨s0, hd0, hA⟩ := hs0
  rw [hd0] at hd
  injection hd with hd
  subst hd
  have hpid : pid = 42 := by
    obtain ⟨st, hst⟩ := (hsam sampleKernelOnly).mp (by decide)
    by_contra hne
    have hempty : mapGetD s0.allSamples pid = [] := by
      rw [hA]
      simp [mapGetD, mapGet, Ne.symm hne]
    rw [hempty] at hst
    simp [mapGet] at hst
  subst hpid
  have h1 : mapGet (mapGetD s0.allSamples 42) stackKernelOnly = some sampleKernelOnly := by
    rw [hA]
    decide
  have h2 : mapGet (mapGetD s0.allSamples 42) stackZeroFirst = some sampleZeroFirst := by
    rw [hA]
    decide
  have hz : ∀ a ∈ stackKernelOnly.take stackDepth, a = 0 := by decide
  refine ⟨s0, hd0, ⟨h1, hz, ((hall _ _ h1).2.2 (by decide)).mpr hz⟩, h2, rfl, ?_⟩
  intro hempty
  have h0 := ((hall _ _ h2).2.2 (by decide)).mp hempty 0xB (by decide)
  exact absurd h0 (by decide)

/-- The condition on the pid in `UserPortionOf` is needed. At pid 0 the key
`(pid, addr)` of the user walk is the key `(0, addr)` of the kernel walk: the user walk of
the first entry of `envPidZero` makes the location of `(0, 0xA)`, and the kernel walk of the
second entry, whose user half holds only zeros, finds it and lists it. -/
theorem profileLoop_pid_zero_shared_key :
    Event.write labelsPidZero profPidZero heapPidZero ∈ (profileLoop envPidZero).trace ∧
      ∃ s, drain envPidZero LoopState.init envPidZero.counts = .ok s ∧
        ∃ sample, mapGet (mapGetD s.allSamples 0) stackPidZero = some sample ∧
          (∀ a ∈ stackPidZero.take stackDepth, a = 0) ∧ sample ∈ profPidZero.Sample ∧
          ¬ UserPortionEmpty heapPidZero sample := by
  refine ⟨by decide, _, rfl, { Location := [0], Value := [3] }, by decide, by decide,
    by decide, ?_⟩
  intro h
  have := h 0 (List.mem_singleton.mpr rfl) _ rfl
  exact absurd this (by decide)


/-! ### The pid filter -/

/-- The loop of `sort.Search` on a predicate that, up to `n`, stays true once it is true:
it ends at the least index at which the predicate holds, or at `j`. -/
theorem searchLoop_spec (f : Nat → Bool) (n : Nat)
    (hmono : ∀ a b, a ≤ b → b < n → f a = true → f b = true) :
    ∀ (fuel i j : Nat), i ≤ j → j ≤ n → j - i ≤ fuel →
      (∀ k, k < i → f k = false) → (∀ k, j ≤ k → k < n → f k = true) →
      i ≤ searchLoop f fuel i j ∧ searchLoop f fuel i j ≤ j ∧
        (∀ k, k < searchLoop f fuel i j → f k = false) ∧
        (∀ k, searchLoop f fuel i j ≤ k → k < n → f k = true) := by
  intro fuel
  induction fuel with
  | zero =>
    intro i j hij hjn hfuel hlow hhigh
    have hji : j = i := by omega
    subst hji
    simp only [searchLoop]
    exact ⟨le_refl _, le_refl _, hlow, hhigh⟩
  | succ fuel ih =>
    intro i j hij hjn hfuel hlow hhigh
    simp only [searchLoop]
    by_cases hlt : i < j
    · rw [if_pos hlt]
      have hh1 : i ≤ (i + j) / 2 := by omega
      have hh2 : (i + j) / 2 < j := by omega
      cases hf : f ((i + j) / 2) with
      | false =>
        simp only [Bool.not_false, if_true]
        have hlow2 : ∀ k, k < (i + j) / 2 + 1 → f k = false := by
          intro k hk
          cases hfk : f k with
          | false => rfl
          | true =>
            have := hmono k ((i + j) / 2) (by omega) (by omega) hfk
            rw [hf] at this
            cases this
        obtain ⟨r1, r2, r3, r4⟩ := ih ((i + j) / 2 + 1) j (by omega) hjn (by omega) hlow2 hhigh
        exact ⟨by omega, r2, r3, r4⟩
      | true =>
        simp only [Bool.not_true, Bool.false_eq_true, if_false]
        have hhigh2 : ∀ k, (i + j) / 2 ≤ k → k < n → f k = true := by
          intro k hk hkn
          exact hmono ((i + j) / 2) k hk hkn hf
        obtain ⟨r1, r2, r3, r4⟩ := ih i ((i + j) / 2) hh1 (by omega) (by omega) hlow hhigh2
        exact ⟨r1, by omega, r3, r4⟩
    · rw [if_neg hlt]
      have hji : j = i := by omega
      subst hji
      exact ⟨le_refl _, le_refl _, hlow, hhigh⟩

theorem pairwise_getElem? {α : Type} {R : α → α → Prop} :
    ∀ (l : List α), l.Pairwise R → ∀ (i j : Nat) (a b : α), i < j → l[i]? = some a →
      l[j]? = some b → R a b
  | [], _, i, _, _, _, _, ha, _ => by simp at ha
  | x :: xs, hp, i, j, a, b, hij, ha, hb => by
    rw [List.pairwise_cons] at hp
    cases j with
    | zero => omega
    | succ j1 =>
      rw [List.getElem?_cons_succ] at hb
      cases i with
      | zero =>
        rw [List.getElem?_cons_zero] at ha
        injection ha with ha
        subst ha
        exact hp.1 b (mem_of_getElem? hb)
      | succ i1 =>
        rw [List.getElem?_cons_succ] at ha
        exact pairwise_getElem? xs hp.2 i1 j1 a b (by omega) ha hb

theorem pidAtLeast_eq {processes : List P} {pid : PID} {i : Nat} {ps : P}
    (h : processes[i]? = some ps) : pidAtLeast processes pid i = decide (ps.PID ≥ pid) := by
  unfold pidAtLeast
  rw [h]

/-- An entry that passes the pid filter has a pid of the process list, whatever the order of
the list. -/
theorem pidFound_mem {processes : List P} {pid : PID} (h : pidFound processes pid = true) :
    ∃ ps ∈ processes, ps.PID = pid := by
  unfold pidFound at h
  dsimp only at h
  split at h
  · rename_i ps hps
    exact ⟨ps, mem_of_getElem? hps, by simpa using h⟩
  · cases h

/-- On a process list in ascending order of pid, an entry whose pid is in the list passes the
pid filter. -/
theorem pidFound_of_sorted {processes : List P} {pid : PID}
    (hs : processes.Pairwise (fun a b => a.PID ≤ b.PID))
    (hm : ∃ ps ∈ processes, ps.PID = pid) : pidFound processes pid = true := by
  obtain ⟨ps0, hmem, hpid⟩ := hm
  obtain ⟨k0, hk0⟩ := List.mem_iff_getElem?.mp hmem
  have hk0n : k0 < processes.length := lt_length_of_getElem? hk0
  have hmono : ∀ a b, a ≤ b → b < processes.length →
      pidAtLeast processes pid a = true → pidAtLeast processes pid b = true := by
    intro a b hab hb hfa
    unfold pidAtLeast at hfa ⊢
    cases hpa : processes[a]? with
    | none =>
      rw [hpa] at hfa
      cases hfa
    | some pa =>
      rw [hpa] at hfa
      rw [List.getElem?_eq_getElem hb]
      have hpb : processes[b]? = some (processes[b]) := List.getElem?_eq_getElem hb
      have hle : pa.PID ≤ (processes[b]).PID := by
        rcases Nat.lt_or_eq_of_le hab with hlt | heq
        · exact pairwise_getElem? processes hs a b pa _ hlt hpa hpb
        · subst heq
          rw [hpa] at hpb
          injection hpb with hpb
          rw [← hpb]
      have hge : pa.PID ≥ pid := by simpa using hfa
      simp only [decide_eq_true_eq]
      omega
  obtain ⟨_, r2, r3, r4⟩ := searchLoop_spec (pidAtLeast processes pid) processes.length hmono
    processes.length 0 processes.length (Nat.zero_le _) (le_refl _) (by omega)
    (fun k hk => absurd hk (Nat.not_lt_zero k)) (fun k hk hkn => absurd hkn (by omega))
  have hf0 : pidAtLeast processes pid k0 = true := by
    unfold pidAtLeast
    rw [hk0]
    simp [hpid]
  have hrk : sortSearch processes.length (pidAtLeast processes pid) ≤ k0 := by
    unfold sortSearch
    by_contra hc
    have := r3 k0 (by omega)
    rw [hf0] at this
    cases this
  have hrn : sortSearch processes.length (pidAtLeast processes pid) < processes.length := by
    omega
  have hfr := r4 _ (le_refl _) hrn
  change pidAtLeast processes pid (sortSearch processes.length (pidAtLeast processes pid)) = true
    at hfr
  obtain ⟨psr, hpr⟩ : ∃ psr,
      processes[sortSearch processes.length (pidAtLeast processes pid)]? = some psr :=
    ⟨_, List.getElem?_eq_getElem hrn⟩
  rw [pidAtLeast_eq hpr] at hfr
  have hge : psr.PID ≥ pid := by simpa using hfr
  have hle : psr.PID ≤ ps0.PID := by
    rcases Nat.lt_or_eq_of_le hrk with hlt | heq
    · exact pairwise_getElem? processes hs _ k0 psr ps0 hlt hpr hk0
    · rw [heq, hk0] at hpr
      injection hpr with hpr
      rw [hpr]
  unfold pidFound
  dsimp only
  rw [hpr]
  simp only [decide_eq_true_eq]
  omega

/-- C12 (the code departs from the claim). The process list is `[42, 7]`, as the enumerator
may return it, and the counts map holds an entry of process 42: the binary search of the
pid filter ends after the list, the entry is skipped though its pid is in the list, and the
round writes no profile. -/
theorem pidFound_misses_present_pid :
    (∃ ps ∈ envUnsorted.processes, ps.PID = key42.PID) ∧
      pidFound envUnsorted.processes key42.PID = false ∧
      loopBody envUnsorted LoopState.init entry42 = .ok LoopState.init ∧
      (profileLoop envUnsorted).err = none ∧ (profileLoop envUnsorted).trace = [] := by
  refine ⟨⟨_, List.mem_cons_self _ _, rfl⟩, by decide, rfl, by decide, by decide⟩

end TinyProfiler
